import Mathlib

/-!
# frida-gum-mod: resolution, caching and replay machinery of `src/jni/main.cpp`

A shallow embedding of the stateful core of `main.cpp`:

* engine identification (`identifyGameEngine`),
* the JSON handle tracker (`hooked_json_create`, `hooked_json_dispose`, `hooked_parseJson`),
* the symbol cache file (`readFromCache`, `saveToCache`),
* the tiered resolvers (`hookCocos2dxUpdate`, `hookCocosEvalString`),
* the request cache and replay hook (`saveRequestToFile`, `loadRequestFromFile`,
  `hooked_sendData`).

Conventions.  A byte is a `Char`; a `std::string` and the content of a C string are
both a list of bytes (`Str`); a nullable `char*` is an `Option Str`.  A file is a
`FileSlot`: what an `ifstream` on its path would read (or `none` when it does not
open) and whether an `ofstream` on the path opens.  `int` is 32 bits wide, `size_t`
and `GumAddress` 64 bits.  The calls into the interception service (frida-gum) and the
loader are parameters of the model, gathered in `GumModule`.  Logging and timers are
not modelled.
-/

namespace FridaGum

/-- Content of a `std::string` or of a C string (the bytes before the terminator). -/
abbrev Str := List Char

/-! ## `std::string` primitives -/

/-- Membership test `s.find(pat) != std::string::npos` for a pattern string. -/
def contains : Str → Str → Bool
  | [], pat => pat.isEmpty
  | c :: t, pat => pat.isPrefixOf (c :: t) || contains t pat

/-- Position returned by `s.find(ch)`, with `none` for `std::string::npos`. -/
def findChar (ch : Char) : Str → Option Nat
  | [] => none
  | c :: t => if c = ch then some 0 else (findChar ch t).map (· + 1)

/-- Conversion `std::string::c_str()` read back as a C string: the bytes before the
first NUL. -/
def cstr (s : Str) : Str := s.takeWhile (· ≠ '\x00')

/-- Lines produced by `while (std::getline(f, line))`: the text is cut at every
newline, and a final piece without newline is a line only when it is not empty. -/
def getlinesFrom (cur : Str) : Str → List Str
  | [] => if cur.isEmpty then [] else [cur.reverse]
  | c :: t => if c = '\n' then cur.reverse :: getlinesFrom [] t else getlinesFrom (c :: cur) t

/-- Lines of a file as read by a `std::getline` loop. -/
def getlines (s : Str) : List Str := getlinesFrom [] s

/-- A file on disk as seen through `ifstream` and `ofstream`. -/
structure FileSlot where
  /-- Bytes an `ifstream` reads; `none` when `is_open()` is false. -/
  content : Option Str
  /-- Whether an `ofstream` on the path opens (and truncates the file). -/
  writable : Bool
deriving DecidableEq

/-! ## Engine identification (`main.cpp` 49-56, 280-316) -/

/-- Engine kinds, `enum class GameEngine`. -/
inductive GameEngine where
  | UNKNOWN
  | UNITY
  | UNREAL
  | COCOS2D_CPP
  | COCOS2D_JS
  | GODOT
deriving DecidableEq, Repr

/-- Lowercasing `std::transform(..., ::tolower)` in the C locale. -/
def toLowerStr (s : Str) : Str := s.map Char.toLower

/-- Function `identifyGameEngine`, on the module name returned by
`gum_module_get_name`. -/
def identifyGameEngine (module_name : Str) : GameEngine :=
  let lower_name := toLowerStr module_name
  if contains lower_name "il2cpp".toList || contains lower_name "unity".toList then
    GameEngine.UNITY
  else if contains lower_name "ue4".toList || contains lower_name "ue5".toList ||
      contains lower_name "unreal".toList then
    GameEngine.UNREAL
  else if contains lower_name "cocos".toList then
    if lower_name = "libcocos.so".toList || lower_name = "libcocos2djs.so".toList then
      GameEngine.COCOS2D_JS
    else
      GameEngine.COCOS2D_CPP
  else if contains lower_name "godot".toList then
    GameEngine.GODOT
  else
    GameEngine.UNKNOWN

/-- Lowercase of one byte as the specification means it, written without
`toLowerStr`: the 26 letters `A` (65) to `Z` (90) become `a` to `z` (32 further on),
every other byte is kept. -/
def asciiLower (c : Char) : Char :=
  if 65 ≤ c.toNat ∧ c.toNat ≤ 90 then Char.ofNat (c.toNat + 32) else c

/-- The lowercased module name of the specification. -/
def lowercased (module_name : Str) : Str := module_name.map asciiLower

/-- One rule of the decision list of the specification: a test on the lowercased
name and the kind it selects. -/
structure EngineRule where
  test : Str → Bool
  kind : Str → GameEngine

/-- The decision list as the specification words it, in its fixed order. -/
def engineRules : List EngineRule :=
  [ ⟨fun n => contains n "il2cpp".toList || contains n "unity".toList,
      fun _ => GameEngine.UNITY⟩,
    ⟨fun n => contains n "ue4".toList || contains n "ue5".toList ||
        contains n "unreal".toList,
      fun _ => GameEngine.UNREAL⟩,
    ⟨fun n => contains n "cocos".toList,
      fun n => if n = "libcocos.so".toList ∨ n = "libcocos2djs.so".toList
        then GameEngine.COCOS2D_JS else GameEngine.COCOS2D_CPP⟩,
    ⟨fun n => contains n "godot".toList, fun _ => GameEngine.GODOT⟩ ]

/-- First rule of a list whose test accepts the name; `UNKNOWN` when none does. -/
def firstRule (n : Str) : List EngineRule → GameEngine
  | [] => GameEngine.UNKNOWN
  | r :: rs => if r.test n then r.kind n else firstRule n rs

/-- Specification reading of `identify`: the decision list run on the lowercased
module name. -/
def identifySpec (module_name : Str) : GameEngine :=
  firstRule (lowercased module_name) engineRules

/-! ## JSON handle tracker (`main.cpp` 338, 1152-1216) -/

/-- The map `g_json_string_map` from object pointer to source text. -/
abbrev JsonMap := Nat → Option Str

/-- The empty `g_json_string_map`. -/
def JsonMap.empty : JsonMap := fun _ => none

/-- Length `strnlen(s, maxlen)`. -/
def strnlen (s : Str) (maxlen : Nat) : Nat := min s.length maxlen

/-- Function `hooked_json_create`: `json_object` is the pointer returned by the
original `Json_create` (0 for null) and `json_string` its argument. Returns the
pointer handed back to the caller and the updated map. -/
def hooked_json_create (m : JsonMap) (json_object : Nat) (json_string : Option Str) :
    Nat × JsonMap :=
  match json_string with
  | some s =>
    if json_object ≠ 0 then
      let len := strnlen s 50000
      if 0 < len ∧ len < 50000 then
        (json_object, fun h => if h = json_object then some (s.take len) else m h)
      else (json_object, m)
    else (json_object, m)
  | none => (json_object, m)

/-- Function `hooked_json_dispose`: the entry of `json_object` is erased when there
is one. -/
def hooked_json_dispose (m : JsonMap) (json_object : Nat) : JsonMap :=
  match m json_object with
  | some _ => fun h => if h = json_object then none else m h
  | none => m

/-- Lookup `g_json_string_map.find(json)` made by `hooked_parseJson`; `none` is
`end()`. -/
def hooked_parseJson_lookup (m : JsonMap) (json : Nat) : Option Str := m json

/-- One event at the JSON hooks: `Json_create` returned `json_object` for
`json_string`, or `Json_dispose` was called on `json_object`. -/
inductive JsonOp where
  | create (json_object : Nat) (json_string : Option Str)
  | dispose (json_object : Nat)

/-- The map after one event went through its hook. -/
def JsonOp.apply (m : JsonMap) : JsonOp → JsonMap
  | JsonOp.create json_object json_string => (hooked_json_create m json_object json_string).2
  | JsonOp.dispose json_object => hooked_json_dispose m json_object

/-- The map after a sequence of events; the reachable states are those obtained from
`JsonMap.empty`. -/
def runJsonOps (m : JsonMap) : List JsonOp → JsonMap
  | [] => m
  | op :: rest => runJsonOps (JsonOp.apply m op) rest

/-! ## Symbol cache file (`main.cpp` 569-686) -/

/-- Kind of a cache entry, `enum class CacheType`; `NONE` is the answer "not found". -/
inductive CacheType where
  | NONE
  | SYMBOL
  | OFFSET
deriving DecidableEq, Repr

/-- Entry returned by `readFromCache`, `struct CacheEntry`. -/
structure CacheEntry where
  type : CacheType
  value : Str
deriving DecidableEq, Repr

/-- Key that `readFromCache` and `saveToCache` parse out of a line: the text before
the first `=`, when the line has one. -/
def lineKey (line : Str) : Option Str :=
  (findChar '=' line).map (fun pos => line.take pos)

/-- Loop body of `readFromCache` over the lines still to be read. -/
def readFromCacheLines (cache_key : Str) : List Str → CacheEntry
  | [] => ⟨CacheType.NONE, []⟩
  | line :: rest =>
    match findChar '=' line with
    | some pos =>
      let key := line.take pos
      let data := line.drop (pos + 1)
      if key = cache_key then
        match findChar ':' data with
        | some colon_pos =>
          let type_str := data.take colon_pos
          let value := data.drop (colon_pos + 1)
          let type :=
            if type_str = "symbol".toList then CacheType.SYMBOL
            else if type_str = "offset".toList then CacheType.OFFSET
            else CacheType.NONE
          ⟨type, value⟩
        | none => readFromCacheLines cache_key rest
      else readFromCacheLines cache_key rest
    | none => readFromCacheLines cache_key rest

/-- Function `readFromCache` on the symbol cache file. -/
def readFromCache (cache : FileSlot) (cache_key : Str) : CacheEntry :=
  match cache.content with
  | none => ⟨CacheType.NONE, []⟩
  | some s => readFromCacheLines cache_key (getlines s)

/-- The local `std::unordered_map<std::string, std::string> symbols` of
`saveToCache`: an association list with one pair per key. -/
abbrev SymbolMap := List (Str × Str)

/-- Assignment `symbols[key] = data`: the value of an existing key is replaced, a
new key is added. -/
def SymbolMap.assign (key data : Str) : SymbolMap → SymbolMap
  | [] => [(key, data)]
  | (k, v) :: t => if k = key then (key, data) :: t else (k, v) :: SymbolMap.assign key data t

/-- Read loop of `saveToCache`: every line with an `=` is assigned into the map. -/
def loadSymbols : List Str → SymbolMap → SymbolMap
  | [], symbols => symbols
  | line :: rest, symbols =>
    match findChar '=' line with
    | some pos => loadSymbols rest (SymbolMap.assign (line.take pos) (line.drop (pos + 1)) symbols)
    | none => loadSymbols rest symbols

/-- Text written by the loop `cache_file_write << key << "=" << val << std::endl`. -/
def renderSymbols (symbols : SymbolMap) : Str :=
  symbols.flatMap (fun kv => kv.1 ++ '=' :: kv.2 ++ ['\n'])

/-- Function `saveToCache`. The iteration order of the `unordered_map` is not fixed by
C++; `order` is the order in which the write loop visits the pairs. -/
def saveToCache (order : SymbolMap → SymbolMap) (cache : FileSlot) (cache_key : Str)
    (type : CacheType) (value : Str) : FileSlot :=
  let symbols : SymbolMap :=
    match cache.content with
    | some s => loadSymbols (getlines s) []
    | none => []
  let type_str := if type = CacheType.SYMBOL then "symbol".toList else "offset".toList
  let data := type_str ++ ':' :: value
  let symbols := SymbolMap.assign cache_key data symbols
  if cache.writable then
    { cache with content := some (renderSymbols (order symbols)) }
  else cache

/-- Function `readSymbolNameFromCache`. -/
def readSymbolNameFromCache (cache : FileSlot) (cache_key : Str) : Str :=
  let entry := readFromCache cache cache_key
  if entry.type = CacheType.SYMBOL then entry.value else []

/-- Function `saveSymbolNameToCache`. -/
def saveSymbolNameToCache (order : SymbolMap → SymbolMap) (cache : FileSlot)
    (cache_key symbol_name : Str) : FileSlot :=
  saveToCache order cache cache_key CacheType.SYMBOL symbol_name

/-! ### Auxiliary notions for the cache file -/

/-- Well-formed map of `saveToCache`: one pair per key, keys free of `=` and of
newlines, data free of newlines. -/
def SymbolMap.WF (m : SymbolMap) : Prop :=
  (m.map Prod.fst).Nodup ∧ ∀ kv ∈ m, '=' ∉ kv.1 ∧ '\n' ∉ kv.1 ∧ '\n' ∉ kv.2

/-- Map that `saveToCache` holds just before writing. -/
def mergedSymbols (cache : FileSlot) (cache_key : Str) (type : CacheType) (value : Str) :
    SymbolMap :=
  SymbolMap.assign cache_key
    ((if type = CacheType.SYMBOL then "symbol".toList else "offset".toList) ++ ':' :: value)
    (match cache.content with
      | some s => loadSymbols (getlines s) []
      | none => [])

/-- Entry that `readFromCache` builds from the data part of a line. -/
def entryOfData (data : Str) : Option CacheEntry :=
  match findChar ':' data with
  | some colon_pos =>
    some ⟨if data.take colon_pos = "symbol".toList then CacheType.SYMBOL
      else if data.take colon_pos = "offset".toList then CacheType.OFFSET
      else CacheType.NONE, data.drop (colon_pos + 1)⟩
  | none => none

/-- Data part of a line of the cache file: the text after the first `=`, when the line
has one. -/
def lineData (line : Str) : Option Str :=
  (findChar '=' line).map (fun pos => line.drop (pos + 1))

/-- Entry that a line gives for a key: the line has that key and its data part holds
a `:`. -/
def keyedEntry (cache_key line : Str) : Option CacheEntry :=
  if lineKey line = some cache_key then (lineData line).bind entryOfData else none

/-! ## Interception service and tiered resolvers (`main.cpp` 1402-1773) -/

/-- Address type `GumAddress`, an unsigned 64-bit integer. -/
abbrev GumAddress := Nat

/-- Reduction of unsigned 64-bit arithmetic. -/
def wrap64 (n : Nat) : Nat := n % 2 ^ 64

/-- One export, `GumExportDetails`. -/
structure GumExportDetails where
  name : Str
  address : GumAddress
deriving DecidableEq, Repr

/-- Calls made to the interception service and the loader during a resolution, in
program order. -/
inductive GumCall where
  | find_export_by_name (name : Str)
  | dlopen
  | dlsym (name : Str)
  | replace_fast (target : GumAddress)
  | enumerate_exports
  | memory_scan (base : GumAddress) (size : Nat)
deriving DecidableEq, Repr

/-- The loaded module and the interception service as the resolvers see them. -/
structure GumModule where
  /-- Export table, in the order `gum_module_enumerate_exports` visits it. -/
  exports : List GumExportDetails
  /-- Whether `dlopen(module_path, RTLD_NOLOAD)` returns a handle. -/
  dlopen_handle : Bool
  /-- Whether `gum_interceptor_replace_fast` on a target returns `GUM_REPLACE_OK`. -/
  replace_fast : GumAddress → Bool
  /-- Field `base_address` of `gum_module_get_range`. -/
  base_address : GumAddress
  /-- Field `size` of `gum_module_get_range`. -/
  size : Nat
  /-- Addresses `gum_memory_scan` reports for the fixed byte pattern in a range, in
  report order. -/
  memory_scan : GumAddress → Nat → List GumAddress

/-- A module for worked examples: the given exports, a `dlopen` handle, a uniform
answer of the interception primitive, the range `[0, 65536)` and an empty scan. -/
def exampleModule (exports : List GumExportDetails) (install : Bool) : GumModule :=
  ⟨exports, true, fun _ => install, 0, 65536, fun _ _ => []⟩

/-- Modelled from the spec: `findExportByName(module, name) -> address|0` of the
interception service (its code is not under `src/`), which resolves the live export
table for the exact name; 0 when no export has that name. -/
def findExportByName (exports : List GumExportDetails) (name : Str) : GumAddress :=
  match exports.find? (fun d => d.name = name) with
  | some d => d.address
  | none => 0

/-- Call `gum_module_find_export_by_name(module, name)`. -/
def gum_module_find_export_by_name (m : GumModule) (name : Str) : GumAddress :=
  findExportByName m.exports name

/-- Call `dlsym(handle, name)` on the handle of the module; 0 is the null pointer. -/
def dlsym (m : GumModule) (name : Str) : GumAddress :=
  findExportByName m.exports name

/-- Characters the ECMAScript `.` of `std::regex` does not match. -/
def isLineTerminator (c : Char) : Bool := c = '\n' || c = '\r'

/-- Match of the regular expression `pre.*post` (with literal `pre` and `post`)
anchored at the start of `s`. -/
def regexMatchAt (pre post s : Str) : Bool :=
  pre.isPrefixOf s &&
    contains ((s.drop pre.length).takeWhile (fun c => !isLineTerminator c)) post

/-- Search `std::regex_search(s, std::regex("pre.*post"))`. -/
def regexSearch (pre post s : Str) : Bool :=
  s.tails.any (regexMatchAt pre post)

/-- Outcome of one resolver run. -/
structure HookRun where
  /-- The symbol cache file when the run ends. -/
  cache : FileSlot
  /-- Target at which the hook was installed (`GUM_REPLACE_OK`), if any. -/
  hooked : Option GumAddress
  /-- Service calls made, in order. -/
  calls : List GumCall

/-- Run preceded by earlier service calls. -/
def HookRun.after (pre : List GumCall) (r : HookRun) : HookRun :=
  { r with calls := pre ++ r.calls }

/-- Enumeration callback of `hookCocos2dxUpdate` and `hookCocosEvalString` (the two
lambdas differ in the pattern and the cache key only), run over the exports still to
be visited: a matching export is hooked; on `GUM_REPLACE_OK` its name is saved and the
enumeration stops, otherwise it goes on. -/
def enumerateExportsHook (order : SymbolMap → SymbolMap) (m : GumModule)
    (pre post cache_key : Str) (cache : FileSlot) : List GumExportDetails → HookRun
  | [] => ⟨cache, none, []⟩
  | details :: rest =>
    if regexSearch pre post details.name then
      if m.replace_fast details.address then
        ⟨saveSymbolNameToCache order cache cache_key details.name, some details.address,
          [GumCall.replace_fast details.address]⟩
      else
        (enumerateExportsHook order m pre post cache_key cache rest).after
          [GumCall.replace_fast details.address]
    else enumerateExportsHook order m pre post cache_key cache rest

/-- Constant `cache_key` of `hookCocos2dxUpdate`. -/
def updateKey : Str := "Scheduler_update".toList

/-- Literal before `.*` in the pattern `Scheduler.*update`. -/
def updatePre : Str := "Scheduler".toList

/-- Literal after `.*` in the pattern `Scheduler.*update`. -/
def updatePost : Str := "update".toList

/-- Function `hookCocos2dxUpdate`. -/
def hookCocos2dxUpdate (order : SymbolMap → SymbolMap) (m : GumModule) (cache : FileSlot) :
    HookRun :=
  let cache_key := updateKey
  let cached_symbol := readSymbolNameFromCache cache cache_key
  let search (before : List GumCall) : HookRun :=
    (enumerateExportsHook order m updatePre updatePost cache_key cache
      m.exports).after (before ++ [GumCall.enumerate_exports])
  if cached_symbol ≠ [] then
    let symbol_addr := gum_module_find_export_by_name m (cstr cached_symbol)
    if symbol_addr ≠ 0 then
      if m.replace_fast symbol_addr then
        ⟨cache, some symbol_addr,
          [GumCall.find_export_by_name (cstr cached_symbol), GumCall.replace_fast symbol_addr]⟩
      else
        search [GumCall.find_export_by_name (cstr cached_symbol),
          GumCall.replace_fast symbol_addr]
    else search [GumCall.find_export_by_name (cstr cached_symbol)]
  else search []

/-- Value of a hexadecimal digit, as `strtoull` reads it. -/
def hexDigitVal (c : Char) : Option Nat :=
  if '0' ≤ c ∧ c ≤ '9' then some (c.toNat - '0'.toNat)
  else if 'a' ≤ c ∧ c ≤ 'f' then some (c.toNat - 'a'.toNat + 10)
  else if 'A' ≤ c ∧ c ≤ 'F' then some (c.toNat - 'A'.toNat + 10)
  else none

/-- Test `isspace` in the C locale. -/
def isspace (c : Char) : Bool :=
  c = ' ' || c = '\t' || c = '\n' || c = '\x0b' || c = '\x0c' || c = '\r'

/-- Accumulation of the leading hexadecimal digits of a text. -/
def hexAccum : Nat → Str → Nat
  | acc, [] => acc
  | acc, c :: t =>
    match hexDigitVal c with
    | some d => hexAccum (acc * 16 + d) t
    | none => acc

/-- Call `strtoull(s, &endptr, 16)`: leading white space, an optional sign, an
optional `0x` prefix, then hexadecimal digits; the result saturates at `ULLONG_MAX`
and a minus sign negates it modulo 2^64. -/
def strtoull16 (s : Str) : Nat :=
  let s := s.dropWhile isspace
  let signed : Bool × Str :=
    match s with
    | '-' :: t => (true, t)
    | '+' :: t => (false, t)
    | _ => (false, s)
  let body : Str :=
    match signed.2 with
    | '0' :: x :: d :: t =>
      if (x = 'x' ∨ x = 'X') ∧ (hexDigitVal d).isSome then d :: t else signed.2
    | _ => signed.2
  let acc := hexAccum 0 body
  if 2 ^ 64 ≤ acc then 2 ^ 64 - 1
  else if signed.1 then wrap64 (2 ^ 64 - acc)
  else acc

/-- Text `snprintf(buf, 32, "0x%zx", offset)` of a 64-bit offset. -/
def offsetStr (offset : Nat) : Str := '0' :: 'x' :: Nat.toDigits 16 offset

/-- Name of the anchor export of `hookCocosEvalString`. -/
def jniAnchor : Str := "Java_com_cocos_lib_JsbBridge_nativeSendToScript".toList

/-- Constant `cache_key` of `hookCocosEvalString`. -/
def evalStringKey : Str := "ScriptEngine_evalString".toList

/-- Literal before `.*` in the pattern `ScriptEngine.*evalString`. -/
def evalStringPre : Str := "ScriptEngine".toList

/-- Literal after `.*` in the pattern `ScriptEngine.*evalString`. -/
def evalStringPost : Str := "evalString".toList

/-- Tail of `hookCocosEvalString` from "search the symbol again" on: the export
enumeration, then, when it hooked nothing, the byte-pattern scan from the anchor.
The constant pattern text is well formed, so `gum_match_pattern_new_from_string`
returns a pattern. -/
def evalStringSearch (order : SymbolMap → SymbolMap) (m : GumModule) (cache_key : Str)
    (cache : FileSlot) (before : List GumCall) : HookRun :=
  let e := enumerateExportsHook order m evalStringPre evalStringPost cache_key
    cache m.exports
  let calls := before ++ GumCall.enumerate_exports :: e.calls
  match e.hooked with
  | some target => ⟨e.cache, some target, calls⟩
  | none =>
    let jni_addr := gum_module_find_export_by_name m jniAnchor
    let calls := calls ++ [GumCall.find_export_by_name jniAnchor]
    if jni_addr = 0 then ⟨e.cache, none, calls⟩
    else
      let module_end := wrap64 (m.base_address + m.size)
      let search_size := wrap64 (module_end + 2 ^ 64 - jni_addr)
      let results := m.memory_scan jni_addr search_size
      let calls := calls ++ [GumCall.memory_scan jni_addr search_size]
      match results with
      | [] => ⟨e.cache, none, calls⟩
      | first :: _ =>
        let target_addr := wrap64 (first + 0xc)
        let calls := calls ++ [GumCall.replace_fast target_addr]
        if m.replace_fast target_addr then
          let offset := wrap64 (target_addr + 2 ^ 64 - jni_addr)
          ⟨saveToCache order e.cache cache_key CacheType.OFFSET (offsetStr offset),
            some target_addr, calls⟩
        else ⟨e.cache, none, calls⟩

/-- Function `hookCocosEvalString`. -/
def hookCocosEvalString (order : SymbolMap → SymbolMap) (m : GumModule) (cache : FileSlot) :
    HookRun :=
  let cache_key := evalStringKey
  let entry := readFromCache cache cache_key
  match entry.type with
  | CacheType.SYMBOL =>
    if m.dlopen_handle then
      let symbol_addr := dlsym m (cstr entry.value)
      if symbol_addr ≠ 0 then
        if m.replace_fast symbol_addr then
          ⟨cache, some symbol_addr,
            [GumCall.dlopen, GumCall.dlsym (cstr entry.value), GumCall.replace_fast symbol_addr]⟩
        else
          evalStringSearch order m cache_key cache
            [GumCall.dlopen, GumCall.dlsym (cstr entry.value), GumCall.replace_fast symbol_addr]
      else evalStringSearch order m cache_key cache [GumCall.dlopen, GumCall.dlsym (cstr entry.value)]
    else evalStringSearch order m cache_key cache [GumCall.dlopen]
  | CacheType.OFFSET =>
    let jni_addr := gum_module_find_export_by_name m jniAnchor
    if jni_addr = 0 then
      evalStringSearch order m cache_key cache [GumCall.find_export_by_name jniAnchor]
    else
      let offset := strtoull16 (cstr entry.value)
      let target_addr := wrap64 (jni_addr + offset)
      if m.replace_fast target_addr then
        ⟨cache, some target_addr,
          [GumCall.find_export_by_name jniAnchor, GumCall.replace_fast target_addr]⟩
      else
        evalStringSearch order m cache_key cache
          [GumCall.find_export_by_name jniAnchor, GumCall.replace_fast target_addr]
  | CacheType.NONE => evalStringSearch order m cache_key cache []

/-! ### Auxiliary notions for the resolvers -/

/-- Address of the anchor export as `hookCocosEvalString` looks it up. -/
def anchorAddr (m : GumModule) : GumAddress := gum_module_find_export_by_name m jniAnchor

/-- Target of the cached-offset tier: the anchor address plus the cached delta read by
`strtoull`, in 64-bit arithmetic. -/
def offsetTarget (m : GumModule) (cache : FileSlot) : GumAddress :=
  wrap64 (anchorAddr m + strtoull16 (cstr (readFromCache cache evalStringKey).value))

/-- Size of the range `hookCocosEvalString` scans: from the anchor to the end of the
module, in 64-bit arithmetic. -/
def scanSize (m : GumModule) : Nat :=
  wrap64 (wrap64 (m.base_address + m.size) + 2 ^ 64 - anchorAddr m)

/-- Neither cached tier of `hookCocosEvalString` installs a hook: there is no entry,
or the Symbol entry does not resolve or its hook is rejected, or the anchor of the
Offset entry is missing or the hook at the offset target is rejected. -/
def evalStringCacheMiss (m : GumModule) (cache : FileSlot) : Prop :=
  match (readFromCache cache evalStringKey).type with
  | CacheType.NONE => True
  | CacheType.SYMBOL =>
    m.dlopen_handle = false ∨ dlsym m (cstr (readFromCache cache evalStringKey).value) = 0 ∨
      m.replace_fast (dlsym m (cstr (readFromCache cache evalStringKey).value)) = false
  | CacheType.OFFSET =>
    anchorAddr m = 0 ∨ m.replace_fast (offsetTarget m cache) = false

instance (m : GumModule) (cache : FileSlot) : Decidable (evalStringCacheMiss m cache) := by
  unfold evalStringCacheMiss
  split <;> infer_instance

/-- An export at which the pattern search installs its hook: the name matches
`pre.*post` and the interception primitive accepts the hook at the address. -/
def hookable (m : GumModule) (pre post : Str) (x : GumExportDetails) : Bool :=
  regexSearch pre post x.name && m.replace_fast x.address

/-- The cached tier of `hookCocos2dxUpdate` installs no hook: there is no cached
symbol name, or it does not resolve, or the hook at its address is rejected. -/
def updateCacheMiss (m : GumModule) (cache : FileSlot) : Prop :=
  readSymbolNameFromCache cache updateKey = [] ∨
    gum_module_find_export_by_name m (cstr (readSymbolNameFromCache cache updateKey)) = 0 ∨
    m.replace_fast
      (gum_module_find_export_by_name m (cstr (readSymbolNameFromCache cache updateKey))) = false

instance (m : GumModule) (cache : FileSlot) : Decidable (updateCacheMiss m cache) := by
  unfold updateCacheMiss
  infer_instance

/-! ## Network hooks and dispatch (`main.cpp` 1234-1400, 1775-1813) -/

/-- Outcome of `hookNetworkFunctions`. -/
structure NetworkRun where
  /-- Service calls made, in order. -/
  calls : List GumCall
  /-- Targets at which `gum_interceptor_replace_fast` returned `GUM_REPLACE_OK`, in
  order. -/
  installed : List GumAddress
  /-- Value stored in `g_cocos2d_base_addr`. -/
  base_addr : GumAddress

/-- Marker searched in export names for hook 5 of `hookNetworkFunctions`. -/
def jsonDisposeMark : Str := "Json_dispose".toList

/-- Enumeration callback of hook 5: the address of the first export whose name
contains "Json_dispose"; `json_dispose_addr` stays 0 when there is none. -/
def findJsonDispose : List GumExportDetails → GumAddress
  | [] => 0
  | details :: rest =>
    if contains details.name jsonDisposeMark then details.address else findJsonDispose rest

/-- One `gum_interceptor_replace_fast` transaction: the target is listed as installed
when the primitive accepts the hook. -/
def installAt (m : GumModule) (target : GumAddress) : List GumAddress :=
  if m.replace_fast target then [target] else []

/-- Function `hookNetworkFunctions`: the fixed-offset hooks 1-4, the `Json_dispose`
hook found by enumeration (skipped when no such export), then hooks 6 and 7. -/
def hookNetworkFunctions (m : GumModule) : NetworkRun :=
  let base_addr := m.base_address
  let sendData_addr := wrap64 (base_addr + 0x3b51dc)
  let onHttpCompleted_addr := wrap64 (base_addr + 0x3bafa4)
  let parseJson_addr := wrap64 (base_addr + 0x3b6e74)
  let json_create_addr := wrap64 (base_addr + 0x62ad8c)
  let json_dispose_addr := findJsonDispose m.exports
  let updateMoney_addr := wrap64 (base_addr + 0x3880c0)
  let updateGold_addr := wrap64 (base_addr + 0x38813c)
  let first4 : List GumAddress :=
    [sendData_addr, onHttpCompleted_addr, parseJson_addr, json_create_addr]
  let dispose : List GumAddress := if json_dispose_addr ≠ 0 then [json_dispose_addr] else []
  let last2 : List GumAddress := [updateMoney_addr, updateGold_addr]
  { calls := first4.map GumCall.replace_fast ++ GumCall.enumerate_exports ::
      (dispose.map GumCall.replace_fast ++ last2.map GumCall.replace_fast)
    installed := (first4 ++ dispose ++ last2).flatMap (installAt m)
    base_addr := base_addr }

/-- Outcome of `dispatchHook`. -/
structure DispatchRun where
  /-- The symbol cache file when the dispatch ends. -/
  cache : FileSlot
  /-- Service calls made, in order. -/
  calls : List GumCall
  /-- Targets at which a hook was installed, in order. -/
  installed : List GumAddress

/-- Function `dispatchHook`: Unity, Unreal and Godot have no step yet, an unknown
engine is skipped. -/
def dispatchHook (order : SymbolMap → SymbolMap) (engine : GameEngine) (m : GumModule)
    (cache : FileSlot) : DispatchRun :=
  match engine with
  | GameEngine.UNITY => ⟨cache, [], []⟩
  | GameEngine.UNREAL => ⟨cache, [], []⟩
  | GameEngine.COCOS2D_CPP =>
    let update := hookCocos2dxUpdate order m cache
    let network := hookNetworkFunctions m
    ⟨update.cache, update.calls ++ network.calls, update.hooked.toList ++ network.installed⟩
  | GameEngine.COCOS2D_JS =>
    let eval := hookCocosEvalString order m cache
    ⟨eval.cache, eval.calls, eval.hooked.toList⟩
  | GameEngine.GODOT => ⟨cache, [], []⟩
  | GameEngine.UNKNOWN => ⟨cache, [], []⟩

/-! ## Request cache file (`main.cpp` 346-361, 458-567) -/

/-- Record `struct CachedRequest`; the `int` fields hold 32-bit values. -/
structure CachedRequest where
  request_id : Int
  operation_type : Int
  a4 : Int
  a5 : Int
  a6 : Int
  a7 : Int
  a8 : Int
  param1 : Str
  param2 : Str
  param3 : Str
  record_time : Bool
deriving DecidableEq, Repr

/-- Range of the C type `int`. -/
def isInt32 (x : Int) : Prop := -2 ^ 31 ≤ x ∧ x < 2 ^ 31

instance (x : Int) : Decidable (isInt32 x) := by unfold isInt32; infer_instance

/-- All `int` fields of a record are in the range of `int`. -/
def CachedRequest.wellTyped (r : CachedRequest) : Prop :=
  isInt32 r.request_id ∧ isInt32 r.operation_type ∧ isInt32 r.a4 ∧ isInt32 r.a5 ∧
    isInt32 r.a6 ∧ isInt32 r.a7 ∧ isInt32 r.a8

instance (r : CachedRequest) : Decidable r.wellTyped := by
  unfold CachedRequest.wellTyped; infer_instance

/-- The three strings of a record are C strings: no NUL byte in them. -/
def CachedRequest.cStrings (r : CachedRequest) : Prop :=
  '\x00' ∉ r.param1 ∧ '\x00' ∉ r.param2 ∧ '\x00' ∉ r.param3

instance (r : CachedRequest) : Decidable r.cStrings := by
  unfold CachedRequest.cStrings; infer_instance

/-- Text `out << x` for an `int`. -/
def printInt (x : Int) : Str :=
  if x < 0 then '-' :: Nat.toDigits 10 x.natAbs else Nat.toDigits 10 x.natAbs

/-- Text `out << n` for a `size_t`. -/
def printSize (n : Nat) : Str := Nat.toDigits 10 n

/-- Text written by `out << len << "\n"; if (!p.empty()) out << p << "\n";`. -/
def printParam (p : Str) : Str :=
  printSize p.length ++ '\n' :: (if p = [] then [] else p ++ ['\n'])

/-- Text `out << s << "\n"` followed by what is written next. -/
def putLine (s rest : Str) : Str := s ++ '\n' :: rest

/-- Bytes `saveRequestToFile` writes for a record. -/
def saveRequestBytes (req : CachedRequest) : Str :=
  putLine (printInt req.request_id) <|
  putLine (printInt req.operation_type) <|
  putLine (printInt req.a4) <|
  putLine (printInt req.a5) <|
  putLine (printInt req.a6) <|
  putLine (printInt req.a7) <|
  putLine (printInt req.a8) <|
  putLine (printInt (if req.record_time then 1 else 0)) <|
  printParam req.param1 ++ (printParam req.param2 ++ printParam req.param3)

/-- Function `saveRequestToFile` on the file at `getRequestCachePath(request_id)`:
nothing is written when the `ofstream` does not open. -/
def saveRequestToFile (file : FileSlot) (req : CachedRequest) : FileSlot :=
  if file.writable then { file with content := some (saveRequestBytes req) } else file

/-- State of a `std::ifstream`: the bytes not yet read and the two state bits the
loader can raise. -/
structure IStream where
  buf : Str
  eofbit : Bool
  failbit : Bool
deriving DecidableEq, Repr

/-- Test `in.good()`. -/
def IStream.good (s : IStream) : Bool := !s.eofbit && !s.failbit

/-- Sentry of a formatted extraction: on a good stream white space is skipped, and
running out of input raises `eofbit` and `failbit`; on a stream that is not good
`failbit` is raised. Returns whether the extraction may proceed. -/
def IStream.sentry (s : IStream) : Bool × IStream :=
  if s.good then
    match s.buf.dropWhile isspace with
    | [] => (false, ⟨[], true, true⟩)
    | c :: t => (true, { s with buf := c :: t })
  else (false, { s with failbit := true })

/-- Value of a run of decimal digits. -/
def digitsValue (ds : Str) : Nat :=
  ds.foldl (fun acc c => acc * 10 + (c.toNat - '0'.toNat)) 0

/-- Characters `num_get` accumulates for a decimal integer: an optional sign, then
the decimal digits that follow. Returns whether the sign is a minus, the digits and the
unread rest. -/
def takeNumber (b : Str) : Bool × Str × Str :=
  match b with
  | '-' :: t => (true, t.takeWhile Char.isDigit, t.dropWhile Char.isDigit)
  | '+' :: t => (false, t.takeWhile Char.isDigit, t.dropWhile Char.isDigit)
  | _ => (false, b.takeWhile Char.isDigit, b.dropWhile Char.isDigit)

/-- Extraction `in >> x` for an `int` holding `old`: when the sentry fails the
variable keeps its value; without digits it becomes 0 and `failbit` is raised; a value
outside the range of `int` is clamped and `failbit` is raised; reading up to the end
of the input raises `eofbit`. -/
def IStream.extractInt (s : IStream) (old : Int) : Int × IStream :=
  match s.sentry with
  | (false, s1) => (old, s1)
  | (true, s1) =>
    let num := takeNumber s1.buf
    let eof : Bool := num.2.2.isEmpty
    if num.2.1 = [] then (0, ⟨num.2.2, eof, true⟩)
    else
      let v : Int := if num.1 then -(digitsValue num.2.1 : Int) else (digitsValue num.2.1 : Int)
      if v < -2 ^ 31 then (-2 ^ 31, ⟨num.2.2, eof, true⟩)
      else if 2 ^ 31 ≤ v then (2 ^ 31 - 1, ⟨num.2.2, eof, true⟩)
      else (v, ⟨num.2.2, eof, false⟩)

/-- Extraction `in >> n` for a `size_t` holding `old`: as for `int`, with the value
saturating at 2^64 - 1 and a minus sign negating it modulo 2^64. -/
def IStream.extractSize (s : IStream) (old : Nat) : Nat × IStream :=
  match s.sentry with
  | (false, s1) => (old, s1)
  | (true, s1) =>
    let num := takeNumber s1.buf
    let eof : Bool := num.2.2.isEmpty
    if num.2.1 = [] then (0, ⟨num.2.2, eof, true⟩)
    else
      let v := digitsValue num.2.1
      if 2 ^ 64 ≤ v then (2 ^ 64 - 1, ⟨num.2.2, eof, true⟩)
      else if num.1 then (wrap64 (2 ^ 64 - v), ⟨num.2.2, eof, false⟩)
      else (v, ⟨num.2.2, eof, false⟩)

/-- Call `in.ignore()`: one byte is dropped from a good stream, `eofbit` is raised
when there is none; on a stream that is not good `failbit` is raised. -/
def IStream.ignore (s : IStream) : IStream :=
  if s.good then
    match s.buf with
    | [] => { s with eofbit := true }
    | _ :: t => { s with buf := t }
  else { s with failbit := true }

/-- Call `p.resize(n)`: the string is cut or padded with NUL bytes. -/
def resize (p : Str) (n : Nat) : Str := p.take n ++ List.replicate (n - p.length) '\x00'

/-- Call `in.read(&p[0], n)` on a string `p` of `n` bytes: the bytes that are there
overwrite the start of `p`; fewer than `n` raises `eofbit` and `failbit`. -/
def IStream.read (s : IStream) (p : Str) (n : Nat) : Str × IStream :=
  if s.good then
    let got := s.buf.take n
    if got.length = n then (got, { s with buf := s.buf.drop n })
    else (got ++ p.drop got.length, ⟨s.buf.drop n, true, true⟩)
  else (p, { s with failbit := true })

/-- One length-prefixed string of `loadRequestFromFile`: `in >> len; in.ignore();`
then either `resize`, `read`, `ignore` or `clear`. `len0` is the value the
uninitialised `len` holds and `p` the string of the record before the call. -/
def loadParam (s : IStream) (p : Str) (len0 : Nat) : Str × IStream :=
  let r := s.extractSize len0
  let s1 := r.2.ignore
  if 0 < r.1 ∧ r.1 < 100000 then
    let q := s1.read (resize p r.1) r.1
    (q.1, q.2.ignore)
  else ([], s1)

/-- Values held by the variables that `hooked_sendData` and `loadRequestFromFile`
declare without initialising them. -/
structure Indeterminate where
  request_id : Int
  operation_type : Int
  a4 : Int
  a5 : Int
  a6 : Int
  a7 : Int
  a8 : Int
  record_time : Bool
  record_time_int : Int
  len1 : Nat
  len2 : Nat
  len3 : Nat

/-- Function `loadRequestFromFile` on the file at `getRequestCachePath(request_id)`;
`req` is the record passed by reference as the caller left it. -/
def loadRequestFromFile (file : FileSlot) (req : CachedRequest) (u : Indeterminate) :
    Bool × CachedRequest :=
  match file.content with
  | none => (false, req)
  | some bytes =>
    let r0 := IStream.extractInt ⟨bytes, false, false⟩ req.request_id
    if r0.2.failbit then (false, { req with request_id := r0.1 })
    else
      let r1 := r0.2.extractInt req.operation_type
      let r2 := r1.2.extractInt req.a4
      let r3 := r2.2.extractInt req.a5
      let r4 := r3.2.extractInt req.a6
      let r5 := r4.2.extractInt req.a7
      let r6 := r5.2.extractInt req.a8
      let r7 := r6.2.extractInt u.record_time_int
      let s := r7.2.ignore
      let p1 := loadParam s req.param1 u.len1
      let p2 := loadParam p1.2 req.param2 u.len2
      let p3 := loadParam p2.2 req.param3 u.len3
      (true,
        { request_id := r0.1, operation_type := r1.1, a4 := r2.1, a5 := r3.1, a6 := r4.1,
          a7 := r5.1, a8 := r6.1, param1 := p1.1, param2 := p2.1, param3 := p3.1,
          record_time := decide (r7.1 ≠ 0) })

/-! ## The `sendData` hook (`main.cpp` 885-1078) -/

/-- Arguments of `CurlHttp::sendData`; a null string pointer is `none`. -/
structure SendDataArgs where
  curl_http : Nat
  a2 : Int
  a3 : Int
  a4 : Int
  a5 : Int
  a6 : Int
  a7 : Int
  a8 : Int
  a9 : Option Str
  a10 : Option Str
  a11 : Option Str
  a12 : Bool
deriving DecidableEq, Repr

/-- All `int` arguments of a call are in the range of `int`. -/
def SendDataArgs.wellTyped (a : SendDataArgs) : Prop :=
  isInt32 a.a2 ∧ isInt32 a.a3 ∧ isInt32 a.a4 ∧ isInt32 a.a5 ∧ isInt32 a.a6 ∧ isInt32 a.a7 ∧
    isInt32 a.a8

instance (a : SendDataArgs) : Decidable a.wellTyped := by
  unfold SendDataArgs.wellTyped; infer_instance

/-- The call with `final_a9`, `final_a10`, `final_a11` in place of its three strings
and every other argument as it came. -/
def SendDataArgs.withStrings (a : SendDataArgs) (final_a9 final_a10 final_a11 : Option Str) :
    SendDataArgs :=
  ⟨a.curl_http, a.a2, a.a3, a.a4, a.a5, a.a6, a.a7, a.a8, final_a9, final_a10, final_a11,
    a.a12⟩

/-- Expression `a ? std::string(a) : ""`. -/
def stringOrEmpty (a : Option Str) : Str := a.getD []

/-- Expression `s.empty() ? nullptr : (char*)s.c_str()`. -/
def ptrOrNull (s : Str) : Option Str := if s = [] then none else some (cstr s)

/-- Outcome of one interception by `hooked_sendData`. -/
structure SendDataRun where
  /-- The file `request_1000.cache` when the hook returns. -/
  file : FileSlot
  /-- Arguments passed to `original_sendData`. -/
  forwarded : SendDataArgs
  /-- Final value of the local `use_cached`. -/
  use_cached : Bool
deriving DecidableEq

/-- The declaration `CachedRequest cached;`: empty strings, indeterminate scalars. -/
def uninitRequest (u : Indeterminate) : CachedRequest :=
  { request_id := u.request_id, operation_type := u.operation_type, a4 := u.a4, a5 := u.a5,
    a6 := u.a6, a7 := u.a7, a8 := u.a8, param1 := [], param2 := [], param3 := [],
    record_time := u.record_time }

/-- Replay branch shared by both arms of `hooked_sendData`: the record is loaded and,
on success, its three strings replace those of the call. -/
def replayFromFile (file : FileSlot) (u : Indeterminate) (a : SendDataArgs) : SendDataRun :=
  let r := loadRequestFromFile file (uninitRequest u) u
  if r.1 then
    ⟨file, a.withStrings (ptrOrNull r.2.param1) (ptrOrNull r.2.param2)
      (ptrOrNull r.2.param3), true⟩
  else ⟨file, a, false⟩

/-- Local `has_key_fields` of `hooked_sendData`: the first string is not null and
contains "uid", "money" and "gold". -/
def has_key_fields (a9 : Option Str) : Bool :=
  match a9 with
  | some param1_str =>
    contains param1_str "uid".toList && contains param1_str "money".toList &&
      contains param1_str "gold".toList
  | none => false

/-- Record built by the capture branch of `hooked_sendData` from the arguments of the
call. -/
def capturedRequest (a : SendDataArgs) : CachedRequest :=
  { request_id := a.a2, operation_type := a.a3, a4 := a.a4, a5 := a.a5, a6 := a.a6,
    a7 := a.a7, a8 := a.a8, param1 := stringOrEmpty a.a9, param2 := stringOrEmpty a.a10,
    param3 := stringOrEmpty a.a11, record_time := a.a12 }

/-- Function `hooked_sendData`, on the file `request_1000.cache`. -/
def hooked_sendData (file : FileSlot) (u : Indeterminate) (a : SendDataArgs) : SendDataRun :=
  if a.a2 = 1000 then
    let file_exists := file.content.isSome
    if !file_exists then
      ⟨saveRequestToFile file (capturedRequest a), a, false⟩
    else replayFromFile file u a
  else
    if has_key_fields a.a9 then replayFromFile file u a
    else ⟨file, a, false⟩

/-! ## Modified-state flag file (`main.cpp` 363-456) -/

/-- Marker text of the money flag. -/
def moneyMark : Str := "money=1".toList

/-- Marker text of the gold flag. -/
def goldMark : Str := "gold=1".toList

/-- Read loop of `isCurrencyModified`: the pair holds `money_modified` and
`gold_modified`. -/
def scanModified : List Str → Bool × Bool → Bool × Bool
  | [], flags => flags
  | line :: rest, flags =>
    scanModified rest
      (if contains line moneyMark then true else flags.1,
        if contains line goldMark then true else flags.2)

/-- Function `isCurrencyModified` on the flag file. -/
def isCurrencyModified (state : FileSlot) : Bool :=
  match state.content with
  | none => false
  | some s =>
    let flags := scanModified (getlines s) (false, false)
    flags.1 && flags.2

/-- Read loop of `markMoneyModified` and `markGoldModified`: whether some line
contains the marker of the other flag. -/
def scanMark (mark : Str) : List Str → Bool → Bool
  | [], already => already
  | line :: rest, already => scanMark mark rest (if contains line mark then true else already)

/-- Function `markMoneyModified` on the flag file. -/
def markMoneyModified (state : FileSlot) : FileSlot :=
  let gold_already_marked :=
    match state.content with
    | some s => scanMark goldMark (getlines s) false
    | none => false
  if state.writable then
    { state with
      content := some (moneyMark ++ '\n' :: (if gold_already_marked then goldMark ++ ['\n'] else [])) }
  else state

/-- Function `markGoldModified` on the flag file. -/
def markGoldModified (state : FileSlot) : FileSlot :=
  let money_already_marked :=
    match state.content with
    | some s => scanMark moneyMark (getlines s) false
    | none => false
  if state.writable then
    { state with
      content := some ((if money_already_marked then moneyMark ++ ['\n'] else []) ++
        (goldMark ++ ['\n'])) }
  else state

/-- A flag is recorded in the flag file: the file opens and some line contains its
marker. -/
def flagRecorded (mark : Str) (state : FileSlot) : Bool :=
  match state.content with
  | none => false
  | some s => (getlines s).any (fun line => contains line mark)

/-! ## Sequences of interceptions -/

/-- The file `request_1000.cache` after a sequence of calls went through
`hooked_sendData`, each with its own indeterminate values. -/
def interceptAll (file : FileSlot) : List (Indeterminate × SendDataArgs) → FileSlot
  | [] => file
  | c :: rest => interceptAll (hooked_sendData file c.1 c.2).file rest

/-! ### Worked-example data -/

/-- A call with the given id and strings, fixed scalars and the time flag set. -/
def exampleCall (a2 : Int) (a9 a10 a11 : Option Str) : SendDataArgs :=
  ⟨1, a2, 2, -3, 4, 5, 6, 7, a9, a10, a11, true⟩

/-- Indeterminate values, all chosen as 7. -/
def exampleJunk : Indeterminate := ⟨7, 7, 7, 7, 7, 7, 7, true, 7, 7, 7, 7⟩

/-- A string of 100000 bytes. -/
def longText : Str := List.replicate 100000 'a'

/-- A module for worked examples whose interception primitive accepts the hook at
exactly one address. -/
def exampleModuleAt (exports : List GumExportDetails) (accepted : GumAddress) : GumModule :=
  ⟨exports, true, fun target => decide (target = accepted), 0, 65536, fun _ _ => []⟩

/-- A module for worked examples with a given scan report and a uniform answer of the
interception primitive. -/
def exampleModuleScan (exports : List GumExportDetails) (install : Bool)
    (found : List GumAddress) : GumModule :=
  ⟨exports, true, fun _ => install, 0, 65536, fun _ _ => found⟩

/-- A string of 100009 bytes that starts with the line "7" and the bytes "abcdefg". -/
def digitsText : Str := "7\nabcdefg".toList ++ longText

/-! # Theorems -/

/-! ## Symbol cache file: helper lemmas -/

theorem findChar_append_cons (ch : Char) (a b : Str) (h : ch ∉ a) :
    findChar ch (a ++ ch :: b) = some a.length := by
  induction a with
  | nil => simp [findChar]
  | cons c t ih =>
    have hc : c ≠ ch := fun e => h (by simp [e])
    have ht : ch ∉ t := fun e => h (by simp [e])
    simp [findChar, hc, ih ht]

theorem findChar_take_not_mem (ch : Char) (s : Str) (n : Nat) (h : findChar ch s = some n) :
    ch ∉ s.take n := by
  induction s generalizing n with
  | nil => simp [findChar] at h
  | cons c t ih =>
    by_cases hc : c = ch
    · simp [findChar, hc] at h
      subst h
      simp
    · simp only [findChar, hc, if_false, Option.map_eq_some'] at h
      obtain ⟨k, hk, rfl⟩ := h
      simp only [List.take_succ_cons, List.mem_cons, not_or]
      exact ⟨fun e => hc e.symm, ih k hk⟩

theorem take_length_append (k : Str) (c : Char) (d : Str) :
    (k ++ c :: d).take k.length = k := by
  induction k with
  | nil => simp
  | cons x t ih => simp [ih]

theorem drop_length_succ_append (k : Str) (c : Char) (d : Str) :
    (k ++ c :: d).drop (k.length + 1) = d := by
  induction k with
  | nil => simp
  | cons x t ih => simp [ih]

theorem getlinesFrom_not_mem (cur s : Str) (l : Str) (hcur : '\n' ∉ cur)
    (hl : l ∈ getlinesFrom cur s) : '\n' ∉ l := by
  induction s generalizing cur with
  | nil =>
    by_cases he : cur.isEmpty
    · simp [getlinesFrom, he] at hl
    · simp only [getlinesFrom, he, Bool.false_eq_true, if_false, List.mem_singleton] at hl
      subst hl
      simpa using hcur
  | cons c t ih =>
    by_cases hc : c = '\n'
    · simp only [getlinesFrom, hc, if_true, List.mem_cons] at hl
      rcases hl with rfl | hl
      · simpa using hcur
      · exact ih [] (by simp) hl
    · simp only [getlinesFrom, hc, if_false] at hl
      exact ih (c :: cur) (by simp [hcur, Ne.symm hc]) hl

theorem getlines_not_mem (s l : Str) (hl : l ∈ getlines s) : '\n' ∉ l :=
  getlinesFrom_not_mem [] s l (by simp) hl

theorem getlinesFrom_line (cur line rest : Str) (h : '\n' ∉ line) :
    getlinesFrom cur (line ++ '\n' :: rest) = (cur.reverse ++ line) :: getlinesFrom [] rest := by
  induction line generalizing cur with
  | nil => simp [getlinesFrom]
  | cons c t ih =>
    have hc : c ≠ '\n' := fun e => h (by simp [e])
    have ht : '\n' ∉ t := fun e => h (by simp [e])
    simp [getlinesFrom, hc, ih _ ht]

theorem getlines_renderSymbols (m : SymbolMap)
    (h : ∀ kv ∈ m, '\n' ∉ kv.1 ∧ '\n' ∉ kv.2) :
    getlines (renderSymbols m) = m.map (fun kv => kv.1 ++ '=' :: kv.2) := by
  induction m with
  | nil => simp [getlines, renderSymbols, getlinesFrom]
  | cons kv t ih =>
    have h1 := h kv (by simp)
    have hline : '\n' ∉ kv.1 ++ '=' :: kv.2 := by
      simp only [List.mem_append, List.mem_cons, not_or]
      exact ⟨h1.1, by decide, h1.2⟩
    have ht := ih (fun x hx => h x (by simp [hx]))
    have e : ∀ X : Str, kv.1 ++ '=' :: kv.2 ++ ['\n'] ++ X
        = (kv.1 ++ '=' :: kv.2) ++ '\n' :: X := by
      intro X
      simp
    simp only [getlines, renderSymbols, List.flatMap_cons, List.map_cons] at ht ⊢
    rw [e, getlinesFrom_line [] _ _ hline, ht]
    simp

theorem SymbolMap.assign_keys_mem (key data : Str) (m : SymbolMap) (k : Str) :
    k ∈ (SymbolMap.assign key data m).map Prod.fst ↔ k = key ∨ k ∈ m.map Prod.fst := by
  induction m with
  | nil => simp [SymbolMap.assign]
  | cons kv t ih =>
    obtain ⟨k1, v1⟩ := kv
    by_cases hk : k1 = key
    · simp [SymbolMap.assign, hk]
    · simp only [SymbolMap.assign, hk, if_false, List.map_cons, List.mem_cons, ih]
      tauto

theorem SymbolMap.assign_mem (key data : Str) (m : SymbolMap) (kv : Str × Str)
    (h : kv ∈ SymbolMap.assign key data m) : kv = (key, data) ∨ kv ∈ m := by
  induction m with
  | nil => simpa [SymbolMap.assign] using h
  | cons x t ih =>
    obtain ⟨k1, v1⟩ := x
    by_cases hk : k1 = key
    · simp only [SymbolMap.assign, hk, if_true, List.mem_cons] at h
      rcases h with h | h
      · exact Or.inl h
      · exact Or.inr (by simp [h])
    · simp only [SymbolMap.assign, hk, if_false, List.mem_cons] at h
      rcases h with h | h
      · exact Or.inr (by simp [h])
      · rcases ih h with h | h
        · exact Or.inl h
        · exact Or.inr (by simp [h])

theorem SymbolMap.mem_assign_self (key data : Str) (m : SymbolMap) :
    (key, data) ∈ SymbolMap.assign key data m := by
  induction m with
  | nil => simp [SymbolMap.assign]
  | cons x t ih =>
    obtain ⟨k1, v1⟩ := x
    by_cases hk : k1 = key
    · simp [SymbolMap.assign, hk]
    · simp [SymbolMap.assign, hk, ih]

theorem SymbolMap.assign_nodup (key data : Str) (m : SymbolMap)
    (h : (m.map Prod.fst).Nodup) : ((SymbolMap.assign key data m).map Prod.fst).Nodup := by
  induction m with
  | nil => simp [SymbolMap.assign]
  | cons x t ih =>
    obtain ⟨k1, v1⟩ := x
    simp only [List.map_cons, List.nodup_cons] at h
    by_cases hk : k1 = key
    · subst hk
      simp only [SymbolMap.assign, if_true, List.map_cons, List.nodup_cons]
      exact h
    · simp only [SymbolMap.assign, hk, if_false, List.map_cons, List.nodup_cons]
      refine ⟨?_, ih h.2⟩
      rw [SymbolMap.assign_keys_mem]
      rintro (e | e)
      · exact hk e
      · exact h.1 e

theorem SymbolMap.assign_WF (key data : Str) (m : SymbolMap) (hm : m.WF)
    (h1 : '=' ∉ key) (h2 : '\n' ∉ key) (h3 : '\n' ∉ data) :
    (SymbolMap.assign key data m).WF := by
  refine ⟨SymbolMap.assign_nodup key data m hm.1, fun kv hkv => ?_⟩
  rcases SymbolMap.assign_mem key data m kv hkv with rfl | h
  · exact ⟨h1, h2, h3⟩
  · exact hm.2 kv h

theorem loadSymbols_WF (lines : List Str) (m : SymbolMap) (hm : m.WF)
    (hl : ∀ l ∈ lines, '\n' ∉ l) : (loadSymbols lines m).WF := by
  induction lines generalizing m with
  | nil => simpa [loadSymbols] using hm
  | cons line rest ih =>
    have hline := hl line (by simp)
    have hrest : ∀ l ∈ rest, '\n' ∉ l := fun l h => hl l (by simp [h])
    cases hf : findChar '=' line with
    | none => simpa [loadSymbols, hf] using ih m hm hrest
    | some pos =>
      simp only [loadSymbols, hf]
      refine ih _ (SymbolMap.assign_WF _ _ m hm ?_ ?_ ?_) hrest
      · exact findChar_take_not_mem '=' line pos hf
      · exact fun e => hline (List.mem_of_mem_take e)
      · exact fun e => hline (List.mem_of_mem_drop e)

theorem SymbolMap.WF_nil : SymbolMap.WF [] := by
  simp [SymbolMap.WF]

theorem SymbolMap.WF_perm (a b : SymbolMap) (hp : a.Perm b) (hb : b.WF) : a.WF := by
  refine ⟨?_, fun kv hkv => hb.2 kv (hp.mem_iff.mp hkv)⟩
  exact (hp.map Prod.fst).nodup_iff.mpr hb.1

theorem saveToCache_content (order : SymbolMap → SymbolMap) (cache : FileSlot)
    (cache_key : Str) (type : CacheType) (value : Str) (hw : cache.writable = true) :
    saveToCache order cache cache_key type value =
      ⟨some (renderSymbols (order (mergedSymbols cache cache_key type value))), true⟩ := by
  simp [saveToCache, mergedSymbols, hw]

theorem mergedSymbols_WF (cache : FileSlot) (cache_key : Str) (type : CacheType)
    (value : Str) (h1 : '=' ∉ cache_key) (h2 : '\n' ∉ cache_key) (h3 : '\n' ∉ value) :
    (mergedSymbols cache cache_key type value).WF := by
  unfold mergedSymbols
  apply SymbolMap.assign_WF _ _ _ _ h1 h2
  · by_cases ht : type = CacheType.SYMBOL
    · simp only [ht, if_true, List.mem_append, List.mem_cons, not_or]
      exact ⟨by decide, by decide, h3⟩
    · simp only [ht, if_false, List.mem_append, List.mem_cons, not_or]
      exact ⟨by decide, by decide, h3⟩
  · cases hc : cache.content with
    | none => exact SymbolMap.WF_nil
    | some s => exact loadSymbols_WF _ _ SymbolMap.WF_nil (fun l hl => getlines_not_mem s l hl)

theorem lineKey_render (k v : Str) (h : '=' ∉ k) : lineKey (k ++ '=' :: v) = some k := by
  simp [lineKey, findChar_append_cons '=' k v h]

theorem filterMap_lineKey_render (m : SymbolMap) (h : ∀ kv ∈ m, '=' ∉ kv.1) :
    (m.map (fun kv => kv.1 ++ '=' :: kv.2)).filterMap lineKey = m.map Prod.fst := by
  induction m with
  | nil => simp
  | cons kv t ih =>
    have h1 := h kv (by simp)
    simp only [List.map_cons, List.filterMap_cons, lineKey_render kv.1 kv.2 h1]
    rw [ih (fun x hx => h x (by simp [hx]))]

theorem readFromCacheLines_render (m : SymbolMap) (hm : m.WF) (k d : Str) (e : CacheEntry)
    (hmem : (k, d) ∈ m) (he : entryOfData d = some e) :
    readFromCacheLines k (m.map (fun kv => kv.1 ++ '=' :: kv.2)) = e := by
  induction m with
  | nil => simp at hmem
  | cons kv t ih =>
    obtain ⟨k1, v1⟩ := kv
    have hk1 := (hm.2 (k1, v1) (by simp)).1
    have hnd := hm.1
    simp only [List.map_cons, List.nodup_cons] at hnd
    simp only [List.map_cons, readFromCacheLines, findChar_append_cons '=' k1 v1 hk1,
      take_length_append, drop_length_succ_append]
    by_cases hk : k1 = k
    · subst hk
      have hd : d = v1 := by
        simp only [List.mem_cons, Prod.mk.injEq, true_and] at hmem
        rcases hmem with h | h
        · exact h
        · exact absurd (List.mem_map_of_mem Prod.fst h) hnd.1
      subst hd
      simp only [if_true]
      unfold entryOfData at he
      cases hf : findChar ':' d with
      | none => simp [hf] at he
      | some p =>
        simp only [hf, Option.some.injEq] at he
        simp only [← he]
    · simp only [hk, if_false]
      apply ih ⟨hnd.2, fun x hx => hm.2 x (by simp [hx])⟩
      simp only [List.mem_cons, Prod.mk.injEq] at hmem
      rcases hmem with h | h
      · exact absurd h.1.symm hk
      · exact h

theorem entryOfData_typed (type : CacheType) (value : Str) (ht : type ≠ CacheType.NONE) :
    entryOfData ((if type = CacheType.SYMBOL then "symbol".toList else "offset".toList)
      ++ ':' :: value) = some ⟨type, value⟩ := by
  cases type with
  | NONE => exact absurd rfl ht
  | SYMBOL =>
    have h : findChar ':' ("symbol".toList ++ ':' :: value) = some 6 :=
      findChar_append_cons ':' "symbol".toList value (by decide)
    simp only [if_true, entryOfData, h]
    simp
  | OFFSET =>
    have h : findChar ':' ("offset".toList ++ ':' :: value) = some 6 :=
      findChar_append_cons ':' "offset".toList value (by decide)
    have hne : CacheType.OFFSET ≠ CacheType.SYMBOL := by decide
    simp only [hne, if_false, entryOfData, h]
    simp

theorem readFromCache_saveToCache (order : SymbolMap → SymbolMap)
    (hord : ∀ l, (order l).Perm l) (cache : FileSlot) (hw : cache.writable = true)
    (key value : Str) (type : CacheType) (h1 : '=' ∉ key) (h2 : '\n' ∉ key)
    (h3 : '\n' ∉ value) (ht : type ≠ CacheType.NONE) :
    readFromCache (saveToCache order cache key type value) key = ⟨type, value⟩ := by
  have hwf := mergedSymbols_WF cache key type value h1 h2 h3
  have hwf2 := SymbolMap.WF_perm _ _ (hord _) hwf
  rw [saveToCache_content order cache key type value hw]
  simp only [readFromCache]
  rw [getlines_renderSymbols _ (fun kv hkv => (hwf2.2 kv hkv).2)]
  apply readFromCacheLines_render _ hwf2 key _ _ _ (entryOfData_typed type value ht)
  exact (hord _).mem_iff.mpr (SymbolMap.mem_assign_self _ _ _)

theorem saveToCache_keys (order : SymbolMap → SymbolMap)
    (hord : ∀ l, (order l).Perm l) (cache : FileSlot) (hw : cache.writable = true)
    (key value : Str) (type : CacheType) (h1 : '=' ∉ key) (h2 : '\n' ∉ key)
    (h3 : '\n' ∉ value) :
    ∃ text, (saveToCache order cache key type value).content = some text ∧
      ((getlines text).filterMap lineKey).Nodup ∧ key ∈ (getlines text).filterMap lineKey := by
  have hwf := mergedSymbols_WF cache key type value h1 h2 h3
  have hwf2 := SymbolMap.WF_perm _ _ (hord _) hwf
  rw [saveToCache_content order cache key type value hw]
  refine ⟨_, rfl, ?_, ?_⟩
  · rw [getlines_renderSymbols _ (fun kv hkv => (hwf2.2 kv hkv).2),
      filterMap_lineKey_render _ (fun kv hkv => (hwf2.2 kv hkv).1)]
    exact hwf2.1
  · rw [getlines_renderSymbols _ (fun kv hkv => (hwf2.2 kv hkv).2),
      filterMap_lineKey_render _ (fun kv hkv => (hwf2.2 kv hkv).1)]
    exact List.mem_map_of_mem Prod.fst
      ((hord _).mem_iff.mpr (SymbolMap.mem_assign_self _ _ _))

theorem filter_lineKey_length (ls : List Str) (k : Str) :
    (ls.filter (fun l => decide (lineKey l = some k))).length =
      @List.count Str instBEqOfDecidableEq k (ls.filterMap lineKey) := by
  induction ls with
  | nil => simp
  | cons l t ih =>
    cases hl : lineKey l with
    | none => simp [List.filter_cons, List.filterMap_cons, hl, ih]
    | some k1 =>
      by_cases hk : k1 = k
      · simp [List.filter_cons, List.filterMap_cons, hl, ih, hk]
      · simp [List.filter_cons, List.filterMap_cons, hl, ih, hk, List.count_cons]

/-! ## Tiered resolvers: helper lemmas -/

theorem HookRun.after_cache (before : List GumCall) (r : HookRun) :
    (r.after before).cache = r.cache := rfl

theorem HookRun.after_hooked (before : List GumCall) (r : HookRun) :
    (r.after before).hooked = r.hooked := rfl

theorem enumerateExportsHook_some (order : SymbolMap → SymbolMap) (m : GumModule)
    (pre post cache_key : Str) (cache : FileSlot) (exports : List GumExportDetails)
    (d : GumExportDetails)
    (h : exports.find? (fun x => regexSearch pre post x.name && m.replace_fast x.address)
      = some d) :
    (enumerateExportsHook order m pre post cache_key cache exports).cache
        = saveSymbolNameToCache order cache cache_key d.name ∧
    (enumerateExportsHook order m pre post cache_key cache exports).hooked
        = some d.address := by
  induction exports with
  | nil => simp at h
  | cons x t ih =>
    by_cases h1 : regexSearch pre post x.name = true
    · by_cases h2 : m.replace_fast x.address = true
      · simp only [List.find?_cons, h1, h2, Bool.and_self, Option.some.injEq] at h
        subst h
        simp [enumerateExportsHook, h1, h2]
      · simp only [List.find?_cons, h1, h2, Bool.and_false, Bool.true_and] at h
        simp only [enumerateExportsHook, h1, h2, if_true, Bool.false_eq_true, if_false,
          HookRun.after_cache, HookRun.after_hooked]
        exact ih h
    · simp only [List.find?_cons, h1, Bool.false_and] at h
      simp only [enumerateExportsHook, h1, Bool.false_eq_true, if_false]
      exact ih h

theorem enumerateExportsHook_none (order : SymbolMap → SymbolMap) (m : GumModule)
    (pre post cache_key : Str) (cache : FileSlot) (exports : List GumExportDetails)
    (h : exports.find? (fun x => regexSearch pre post x.name && m.replace_fast x.address)
      = none) :
    (enumerateExportsHook order m pre post cache_key cache exports).cache = cache ∧
    (enumerateExportsHook order m pre post cache_key cache exports).hooked = none := by
  induction exports with
  | nil => simp [enumerateExportsHook]
  | cons x t ih =>
    by_cases h1 : regexSearch pre post x.name = true
    · by_cases h2 : m.replace_fast x.address = true
      · simp [List.find?_cons, h1, h2] at h
      · simp only [List.find?_cons, h1, h2, Bool.and_false, Bool.true_and] at h
        simp only [enumerateExportsHook, h1, h2, if_true, Bool.false_eq_true, if_false,
          HookRun.after_cache, HookRun.after_hooked]
        exact ih h
    · simp only [List.find?_cons, h1, Bool.false_and] at h
      simp only [enumerateExportsHook, h1, Bool.false_eq_true, if_false]
      exact ih h

theorem find?_unique_match (exports : List GumExportDetails) (p : GumExportDetails → Bool)
    (d : GumExportDetails) (hmem : d ∈ exports) (hp : p d = true)
    (huniq : ∀ x ∈ exports, p x = true → x = d) : exports.find? p = some d := by
  induction exports with
  | nil => simp at hmem
  | cons x t ih =>
    by_cases hx : p x = true
    · have hxd := huniq x (by simp) hx
      subst hxd
      simp [List.find?_cons, hx]
    · simp only [List.find?_cons, hx]
      simp only [List.mem_cons] at hmem
      rcases hmem with rfl | hmem
      · exact absurd hp hx
      · exact ih hmem (fun y hy => huniq y (by simp [hy]))

theorem hookCocos2dxUpdate_stale (order : SymbolMap → SymbolMap) (m : GumModule)
    (cache : FileSlot)
    (hstale : gum_module_find_export_by_name m
      (cstr (readSymbolNameFromCache cache updateKey)) = 0) :
    ∃ before, hookCocos2dxUpdate order m cache =
      (enumerateExportsHook order m updatePre updatePost
        updateKey cache m.exports).after (before ++ [GumCall.enumerate_exports]) := by
  unfold hookCocos2dxUpdate
  by_cases h : readSymbolNameFromCache cache updateKey = []
  · exact ⟨[], by simp [h]⟩
  · exact ⟨[GumCall.find_export_by_name
      (cstr (readSymbolNameFromCache cache updateKey))], by simp [h, hstale]⟩

theorem evalStringSearch_hooked (order : SymbolMap → SymbolMap) (m : GumModule)
    (cache_key : Str) (cache : FileSlot) (before : List GumCall) (target : GumAddress)
    (h : (enumerateExportsHook order m evalStringPre evalStringPost cache_key
      cache m.exports).hooked = some target) :
    (evalStringSearch order m cache_key cache before).cache =
      (enumerateExportsHook order m evalStringPre evalStringPost cache_key
        cache m.exports).cache ∧
    (evalStringSearch order m cache_key cache before).hooked = some target := by
  simp [evalStringSearch, h]

theorem hookCocosEvalString_stale (order : SymbolMap → SymbolMap) (m : GumModule)
    (cache : FileSlot)
    (htype : (readFromCache cache evalStringKey).type = CacheType.SYMBOL)
    (hstale : dlsym m (cstr (readFromCache cache evalStringKey).value) = 0) :
    ∃ before, hookCocosEvalString order m cache =
      evalStringSearch order m evalStringKey cache before := by
  unfold hookCocosEvalString
  by_cases h : m.dlopen_handle = true
  · exact ⟨_, by simp [htype, h, hstale]; rfl⟩
  · exact ⟨[GumCall.dlopen], by simp [htype, h]⟩

theorem readFromCache_none (cache : FileSlot) (key : Str)
    (h : cache.content = none ∨ cache.content = some []) :
    readFromCache cache key = ⟨CacheType.NONE, []⟩ := by
  rcases h with h | h <;> simp [readFromCache, h, getlines, getlinesFrom, readFromCacheLines]

theorem saveToCache_empty (order : SymbolMap → SymbolMap) (hord : ∀ l, (order l).Perm l)
    (cache : FileSlot) (hw : cache.writable = true)
    (h : cache.content = none ∨ cache.content = some []) (key value : Str) :
    saveToCache order cache key CacheType.SYMBOL value =
      ⟨some (key ++ '=' :: ("symbol".toList ++ ':' :: value) ++ ['\n']), true⟩ := by
  have hm : mergedSymbols cache key CacheType.SYMBOL value
      = [(key, "symbol".toList ++ ':' :: value)] := by
    rcases h with h | h <;>
      simp [mergedSymbols, h, getlines, getlinesFrom, loadSymbols, SymbolMap.assign]
  rw [saveToCache_content order cache key CacheType.SYMBOL value hw, hm,
    List.perm_singleton.mp (hord _)]
  simp [renderSymbols]

theorem cstr_eq_self (s : Str) (h : '\x00' ∉ s) : cstr s = s := by
  unfold cstr
  rw [List.takeWhile_eq_self_iff]
  intro c hc
  simp only [ne_eq, decide_eq_true_eq]
  exact fun e => h (e ▸ hc)

theorem readSymbolNameFromCache_symbol (cache : FileSlot) (key : Str)
    (h : (readFromCache cache key).type = CacheType.SYMBOL) :
    readSymbolNameFromCache cache key = (readFromCache cache key).value := by
  simp [readSymbolNameFromCache, h]

theorem saved_symbol_entry (order : SymbolMap → SymbolMap) (hord : ∀ l, (order l).Perm l)
    (cache : FileSlot) (hw : cache.writable = true) (key name : Str)
    (h1 : '=' ∉ key) (h2 : '\n' ∉ key) (h3 : '\n' ∉ name) :
    readFromCache (saveSymbolNameToCache order cache key name) key
        = ⟨CacheType.SYMBOL, name⟩ ∧
    ∃ text, (saveSymbolNameToCache order cache key name).content = some text ∧
      ((getlines text).filter (fun l => decide (lineKey l = some key))).length = 1 := by
  unfold saveSymbolNameToCache
  refine ⟨readFromCache_saveToCache order hord cache hw key name CacheType.SYMBOL h1 h2 h3
    (by decide), ?_⟩
  obtain ⟨text, htext, hnd, hmem⟩ :=
    saveToCache_keys order hord cache hw key name CacheType.SYMBOL h1 h2 h3
  refine ⟨text, htext, ?_⟩
  rw [filter_lineKey_length]
  exact List.count_eq_one_of_mem hnd hmem

theorem hookCocos2dxUpdate_cached (order : SymbolMap → SymbolMap) (m : GumModule)
    (cache : FileSlot) (htype : (readFromCache cache updateKey).type = CacheType.SYMBOL)
    (hne : (readFromCache cache updateKey).value ≠ [])
    (haddr : gum_module_find_export_by_name m (cstr (readFromCache cache updateKey).value) ≠ 0)
    (hok : m.replace_fast
      (gum_module_find_export_by_name m (cstr (readFromCache cache updateKey).value)) = true) :
    hookCocos2dxUpdate order m cache =
      ⟨cache,
        some (gum_module_find_export_by_name m (cstr (readFromCache cache updateKey).value)),
        [GumCall.find_export_by_name (cstr (readFromCache cache updateKey).value),
          GumCall.replace_fast
            (gum_module_find_export_by_name m (cstr (readFromCache cache updateKey).value))]⟩ := by
  have hs := readSymbolNameFromCache_symbol cache updateKey htype
  unfold hookCocos2dxUpdate
  simp only [hs]
  rw [if_pos hne, if_pos haddr, if_pos hok]

theorem hookCocosEvalString_cached (order : SymbolMap → SymbolMap) (m : GumModule)
    (cache : FileSlot) (htype : (readFromCache cache evalStringKey).type = CacheType.SYMBOL)
    (hopen : m.dlopen_handle = true)
    (haddr : dlsym m (cstr (readFromCache cache evalStringKey).value) ≠ 0)
    (hok : m.replace_fast (dlsym m (cstr (readFromCache cache evalStringKey).value)) = true) :
    hookCocosEvalString order m cache =
      ⟨cache, some (dlsym m (cstr (readFromCache cache evalStringKey).value)),
        [GumCall.dlopen, GumCall.dlsym (cstr (readFromCache cache evalStringKey).value),
          GumCall.replace_fast (dlsym m (cstr (readFromCache cache evalStringKey).value))]⟩ := by
  unfold hookCocosEvalString
  simp only [htype]
  rw [if_pos hopen, if_pos haddr, if_pos hok]

theorem hookCocos2dxUpdate_no_entry (order : SymbolMap → SymbolMap) (m : GumModule)
    (cache : FileSlot) (h : readFromCache cache updateKey = ⟨CacheType.NONE, []⟩) :
    hookCocos2dxUpdate order m cache =
      (enumerateExportsHook order m updatePre updatePost updateKey cache m.exports).after
        [GumCall.enumerate_exports] := by
  simp [hookCocos2dxUpdate, readSymbolNameFromCache, h]

theorem hookCocosEvalString_no_entry (order : SymbolMap → SymbolMap) (m : GumModule)
    (cache : FileSlot) (h : readFromCache cache evalStringKey = ⟨CacheType.NONE, []⟩) :
    hookCocosEvalString order m cache = evalStringSearch order m evalStringKey cache [] := by
  simp [hookCocosEvalString, h]

theorem first_resolution (order : SymbolMap → SymbolMap) (hord : ∀ l, (order l).Perm l)
    (m : GumModule) (pre post key : Str) (cache : FileSlot)
    (hempty : cache.content = none ∨ cache.content = some []) (hw : cache.writable = true)
    (N : Str) (A : GumAddress) (hmem : (⟨N, A⟩ : GumExportDetails) ∈ m.exports)
    (hok : m.replace_fast A = true) (hmatch : regexSearch pre post N = true)
    (huniq : ∀ x ∈ m.exports, regexSearch pre post x.name = true → x = ⟨N, A⟩) :
    (enumerateExportsHook order m pre post key cache m.exports).cache
        = ⟨some (key ++ '=' :: ("symbol".toList ++ ':' :: N) ++ ['\n']), true⟩ ∧
    (enumerateExportsHook order m pre post key cache m.exports).hooked = some A := by
  have hfind : m.exports.find?
      (fun x => regexSearch pre post x.name && m.replace_fast x.address) = some ⟨N, A⟩ := by
    apply find?_unique_match _ _ _ hmem
    · simp [hmatch, hok]
    · intro x hx hp
      simp only [Bool.and_eq_true] at hp
      exact huniq x hx hp.1
  obtain ⟨hc, hh⟩ := enumerateExportsHook_some order m pre post key cache m.exports _ hfind
  refine ⟨?_, hh⟩
  rw [hc]
  exact saveToCache_empty order hord cache hw hempty key N

/-! ## Request cache file: helper lemmas -/

theorem digitChar_isDigit (k : Nat) (h : k < 10) :
    (Nat.digitChar k).isDigit = true ∧ (Nat.digitChar k).toNat - '0'.toNat = k := by
  interval_cases k <;> decide

theorem digitsValue_snoc (l : Str) (c : Char) :
    digitsValue (l ++ [c]) = digitsValue l * 10 + (c.toNat - '0'.toNat) := by
  simp [digitsValue, List.foldl_append]

theorem toDigitsCore_spec (fuel : Nat) : ∀ (n : Nat) (ds : Str), n < fuel →
    ∃ l : Str, Nat.toDigitsCore 10 fuel n ds = l ++ ds ∧ l ≠ [] ∧
      (∀ c ∈ l, c.isDigit = true) ∧ digitsValue l = n := by
  induction fuel with
  | zero => intro n ds h; omega
  | succ fuel ih =>
    intro n ds h
    have hd := digitChar_isDigit (n % 10) (Nat.mod_lt n (by decide))
    by_cases hq : n / 10 = 0
    · refine ⟨[Nat.digitChar (n % 10)], ?_, by simp, ?_, ?_⟩
      · simp [Nat.toDigitsCore, hq]
      · intro c hc
        simp only [List.mem_singleton] at hc
        rw [hc]
        exact hd.1
      · have hn : n % 10 = n := Nat.mod_eq_of_lt (by omega)
        have h2 : digitsValue [Nat.digitChar (n % 10)] = n % 10 := by
          simpa [digitsValue] using hd.2
        rw [h2]
        exact hn
    · obtain ⟨l, hl, _, hdig, hval⟩ := ih (n / 10) (Nat.digitChar (n % 10) :: ds) (by omega)
      refine ⟨l ++ [Nat.digitChar (n % 10)], ?_, by simp, ?_, ?_⟩
      · simp [Nat.toDigitsCore, hq, hl]
      · intro c hc
        simp only [List.mem_append, List.mem_singleton] at hc
        rcases hc with hc | hc
        · exact hdig c hc
        · rw [hc]
          exact hd.1
      · rw [digitsValue_snoc, hval, hd.2]
        omega

theorem toDigits_spec (n : Nat) :
    Nat.toDigits 10 n ≠ [] ∧ (∀ c ∈ Nat.toDigits 10 n, c.isDigit = true) ∧
      digitsValue (Nat.toDigits 10 n) = n := by
  obtain ⟨l, hl, hne, hdig, hval⟩ := toDigitsCore_spec (n + 1) n [] (by omega)
  have e : Nat.toDigits 10 n = l := by
    simp [Nat.toDigits, hl]
  rw [e]
  exact ⟨hne, hdig, hval⟩

theorem takeWhile_digits (l rest : Str) (c : Char) (hl : ∀ x ∈ l, x.isDigit = true)
    (hc : c.isDigit = false) :
    (l ++ c :: rest).takeWhile Char.isDigit = l ∧
    (l ++ c :: rest).dropWhile Char.isDigit = c :: rest := by
  induction l with
  | nil => simp [List.takeWhile_cons, List.dropWhile_cons, hc]
  | cons x t ih =>
    have hx := hl x (by simp)
    have ht := ih (fun y hy => hl y (by simp [hy]))
    simp [List.takeWhile_cons, List.dropWhile_cons, hx, ht.1, ht.2]

theorem isspace_of_isDigit (c : Char) (h : c.isDigit = true) : isspace c = false := by
  by_contra hs
  simp only [Bool.not_eq_false, isspace, Bool.or_eq_true, decide_eq_true_eq] at hs
  rcases hs with ((((rfl | rfl) | rfl) | rfl) | rfl) | rfl <;> exact absurd h (by decide)

theorem not_sign_of_isDigit (c : Char) (h : c.isDigit = true) : c ≠ '-' ∧ c ≠ '+' := by
  constructor <;> rintro rfl <;> exact absurd h (by decide)

theorem takeNumber_digits (l rest : Str) (hne : l ≠ [])
    (hl : ∀ x ∈ l, x.isDigit = true) :
    takeNumber (l ++ '\n' :: rest) = (false, l, '\n' :: rest) := by
  have htw := takeWhile_digits l rest '\n' hl (by decide)
  cases l with
  | nil => exact absurd rfl hne
  | cons x t =>
    have hx := not_sign_of_isDigit x (hl x (by simp))
    have e : takeNumber (x :: t ++ '\n' :: rest) =
        (false, (x :: t ++ '\n' :: rest).takeWhile Char.isDigit,
          (x :: t ++ '\n' :: rest).dropWhile Char.isDigit) := by
      simp only [List.cons_append]
      unfold takeNumber
      split
      · rename_i heq
        exact absurd (List.cons.inj heq).1 hx.1
      · rename_i heq
        exact absurd (List.cons.inj heq).1 hx.2
      · rfl
    rw [e, htw.1, htw.2]

theorem takeNumber_minus (l rest : Str) (hl : ∀ x ∈ l, x.isDigit = true) :
    takeNumber ('-' :: (l ++ '\n' :: rest)) = (true, l, '\n' :: rest) := by
  have htw := takeWhile_digits l rest '\n' hl (by decide)
  simp [takeNumber, htw.1, htw.2]

theorem sentry_digits (l rest : Str) (hne : l ≠ []) (hl : ∀ x ∈ l, x.isDigit = true) :
    IStream.sentry ⟨l ++ rest, false, false⟩ = (true, ⟨l ++ rest, false, false⟩) := by
  cases l with
  | nil => exact absurd rfl hne
  | cons x t =>
    have hx := isspace_of_isDigit x (hl x (by simp))
    simp [IStream.sentry, IStream.good, List.dropWhile_cons, hx]

theorem sentry_newline_digits (l rest : Str) (hne : l ≠ [])
    (hl : ∀ x ∈ l, x.isDigit = true) :
    IStream.sentry ⟨'\n' :: (l ++ rest), false, false⟩ = (true, ⟨l ++ rest, false, false⟩) := by
  cases l with
  | nil => exact absurd rfl hne
  | cons x t =>
    have hx := isspace_of_isDigit x (hl x (by simp))
    have hn : isspace '\n' = true := by decide
    simp [IStream.sentry, IStream.good, List.dropWhile_cons, hx, hn]

theorem sentry_minus (rest : Str) :
    IStream.sentry ⟨'-' :: rest, false, false⟩ = (true, ⟨'-' :: rest, false, false⟩) := by
  have hm : isspace '-' = false := by decide
  simp [IStream.sentry, IStream.good, List.dropWhile_cons, hm]

theorem sentry_newline_minus (rest : Str) :
    IStream.sentry ⟨'\n' :: '-' :: rest, false, false⟩
      = (true, ⟨'-' :: rest, false, false⟩) := by
  have hm : isspace '-' = false := by decide
  have hn : isspace '\n' = true := by decide
  simp [IStream.sentry, IStream.good, List.dropWhile_cons, hm, hn]

theorem extractInt_core (s : IStream) (old v : Int) (b l rest : Str) (neg : Bool)
    (hs : s.sentry = (true, ⟨b, false, false⟩))
    (hnum : takeNumber b = (neg, l, '\n' :: rest)) (hne : l ≠ [])
    (hv : (if neg = true then -(digitsValue l : Int) else (digitsValue l : Int)) = v)
    (hr : isInt32 v) :
    s.extractInt old = (v, ⟨'\n' :: rest, false, false⟩) := by
  unfold isInt32 at hr
  unfold IStream.extractInt
  rw [hs]
  simp only [hnum, hne, if_false, List.isEmpty_cons, hv]
  rw [if_neg (by omega), if_neg (by omega)]

theorem extractSize_core (s : IStream) (old : Nat) (b l rest : Str)
    (hs : s.sentry = (true, ⟨b, false, false⟩))
    (hnum : takeNumber b = (false, l, '\n' :: rest)) (hne : l ≠ [])
    (hr : digitsValue l < 2 ^ 64) :
    s.extractSize old = (digitsValue l, ⟨'\n' :: rest, false, false⟩) := by
  unfold IStream.extractSize
  rw [hs]
  simp only [hnum, hne, if_false, List.isEmpty_cons]
  rw [if_neg (by omega)]
  simp

theorem printInt_cases (x : Int) :
    (0 ≤ x ∧ printInt x = Nat.toDigits 10 x.natAbs ∧ (x.natAbs : Int) = x) ∨
    (x < 0 ∧ printInt x = '-' :: Nat.toDigits 10 x.natAbs ∧ -(x.natAbs : Int) = x) := by
  by_cases h : x < 0
  · right
    refine ⟨h, by simp [printInt, h], ?_⟩
    omega
  · left
    refine ⟨by omega, by simp [printInt, h], ?_⟩
    omega

theorem extractInt_line (x : Int) (hx : isInt32 x) (rest : Str) (old : Int) :
    IStream.extractInt ⟨printInt x ++ '\n' :: rest, false, false⟩ old
      = (x, ⟨'\n' :: rest, false, false⟩) := by
  obtain ⟨hne, hdig, hval⟩ := toDigits_spec x.natAbs
  rcases printInt_cases x with ⟨_, hp, hv⟩ | ⟨_, hp, hv⟩
  · rw [hp]
    exact extractInt_core ⟨Nat.toDigits 10 x.natAbs ++ '\n' :: rest, false, false⟩ old x _
      (Nat.toDigits 10 x.natAbs) rest false (sentry_digits _ _ hne hdig)
      (takeNumber_digits _ rest hne hdig) hne
      (by rw [if_neg Bool.false_ne_true, hval]; exact hv) hx
  · rw [hp]
    exact extractInt_core ⟨'-' :: (Nat.toDigits 10 x.natAbs ++ '\n' :: rest), false, false⟩
      old x _ (Nat.toDigits 10 x.natAbs) rest true (sentry_minus _)
      (takeNumber_minus _ rest hdig) hne (by rw [if_pos rfl, hval]; exact hv) hx

theorem extractInt_next (x : Int) (hx : isInt32 x) (rest : Str) (old : Int) :
    IStream.extractInt ⟨'\n' :: (printInt x ++ '\n' :: rest), false, false⟩ old
      = (x, ⟨'\n' :: rest, false, false⟩) := by
  obtain ⟨hne, hdig, hval⟩ := toDigits_spec x.natAbs
  rcases printInt_cases x with ⟨_, hp, hv⟩ | ⟨_, hp, hv⟩
  · rw [hp]
    exact extractInt_core
      ⟨'\n' :: (Nat.toDigits 10 x.natAbs ++ '\n' :: rest), false, false⟩ old x _
      (Nat.toDigits 10 x.natAbs) rest false (sentry_newline_digits _ _ hne hdig)
      (takeNumber_digits _ rest hne hdig) hne
      (by rw [if_neg Bool.false_ne_true, hval]; exact hv) hx
  · rw [hp]
    exact extractInt_core
      ⟨'\n' :: ('-' :: (Nat.toDigits 10 x.natAbs ++ '\n' :: rest)), false, false⟩
      old x _ (Nat.toDigits 10 x.natAbs) rest true (sentry_newline_minus _)
      (takeNumber_minus _ rest hdig) hne (by rw [if_pos rfl, hval]; exact hv) hx

theorem extractSize_line (n : Nat) (hn : n < 2 ^ 64) (rest : Str) (old : Nat) :
    IStream.extractSize ⟨printSize n ++ '\n' :: rest, false, false⟩ old
      = (n, ⟨'\n' :: rest, false, false⟩) := by
  obtain ⟨hne, hdig, hval⟩ := toDigits_spec n
  have := extractSize_core ⟨Nat.toDigits 10 n ++ '\n' :: rest, false, false⟩ old _
    (Nat.toDigits 10 n) rest (sentry_digits _ _ hne hdig)
    (takeNumber_digits _ rest hne hdig) hne (by rw [hval]; exact hn)
  rw [hval] at this
  exact this

theorem ignore_cons (c : Char) (rest : Str) :
    IStream.ignore ⟨c :: rest, false, false⟩ = ⟨rest, false, false⟩ := by
  simp [IStream.ignore, IStream.good]

theorem loadParam_printParam (p rest p0 : Str) (len0 : Nat) (hp : p.length < 100000) :
    loadParam ⟨printParam p ++ rest, false, false⟩ p0 len0 = (p, ⟨rest, false, false⟩) := by
  have hsz := extractSize_line p.length (by omega)
  by_cases he : p = []
  · subst he
    have e : printParam [] ++ rest = printSize ([] : Str).length ++ '\n' :: rest := by
      simp [printParam]
    rw [e]
    unfold loadParam
    rw [hsz]
    simp [ignore_cons]
  · have e : printParam p ++ rest = printSize p.length ++ '\n' :: (p ++ '\n' :: rest) := by
      simp [printParam, he]
    have hpos : 0 < p.length := List.length_pos.mpr he
    rw [e]
    unfold loadParam
    rw [hsz]
    simp only [ignore_cons, hpos, hp, and_self, if_true]
    have hread : IStream.read ⟨p ++ '\n' :: rest, false, false⟩ (resize p0 p.length) p.length
        = (p, ⟨'\n' :: rest, false, false⟩) := by
      simp [IStream.read, IStream.good]
    rw [hread]
    simp [ignore_cons]

theorem loadRequestFromFile_saved (r req0 : CachedRequest) (u : Indeterminate) (w : Bool)
    (hints : r.wellTyped) (h1 : r.param1.length < 100000) (h2 : r.param2.length < 100000)
    (h3 : r.param3.length < 100000) :
    loadRequestFromFile ⟨some (saveRequestBytes r), w⟩ req0 u = (true, r) := by
  obtain ⟨i0, i1, i2, i3, i4, i5, i6⟩ := hints
  have i7 : isInt32 (if r.record_time = true then 1 else 0) := by
    cases r.record_time <;> decide
  have hrt : decide ((if r.record_time = true then (1 : Int) else 0) ≠ 0) = r.record_time := by
    cases r.record_time <;> decide
  unfold loadRequestFromFile saveRequestBytes putLine
  simp only [extractInt_line _ i0, extractInt_next _ i1, extractInt_next _ i2,
    extractInt_next _ i3, extractInt_next _ i4, extractInt_next _ i5, extractInt_next _ i6,
    extractInt_next _ i7, ignore_cons, loadParam_printParam _ _ _ _ h1,
    loadParam_printParam _ _ _ _ h2]
  have e3 : loadParam ⟨printParam r.param3, false, false⟩ req0.param3 u.len3
      = (r.param3, ⟨[], false, false⟩) := by
    have := loadParam_printParam r.param3 [] req0.param3 u.len3 h3
    simpa using this
  simp only [e3, hrt, Bool.false_eq_true, if_false]

theorem loadParam_too_long (p rest p0 : Str) (len0 : Nat) (hp : 100000 ≤ p.length)
    (h64 : p.length < 2 ^ 64) :
    (loadParam ⟨printParam p ++ rest, false, false⟩ p0 len0).1 = [] := by
  have hsz := extractSize_line p.length h64
  have e : ∃ tail, printParam p ++ rest = printSize p.length ++ '\n' :: tail := by
    exact ⟨(if p = [] then [] else p ++ ['\n']) ++ rest, by simp [printParam]⟩
  obtain ⟨tail, ht⟩ := e
  rw [ht]
  unfold loadParam
  rw [hsz]
  simp only [ignore_cons]
  rw [if_neg (by omega)]

theorem loadRequestFromFile_saved_param1 (r req0 : CachedRequest) (u : Indeterminate)
    (w : Bool) (hints : r.wellTyped) :
    (loadRequestFromFile ⟨some (saveRequestBytes r), w⟩ req0 u).1 = true ∧
    (loadRequestFromFile ⟨some (saveRequestBytes r), w⟩ req0 u).2.param1 =
      (loadParam ⟨printParam r.param1 ++ (printParam r.param2 ++ printParam r.param3),
        false, false⟩ req0.param1 u.len1).1 := by
  obtain ⟨i0, i1, i2, i3, i4, i5, i6⟩ := hints
  have i7 : isInt32 (if r.record_time = true then 1 else 0) := by
    cases r.record_time <;> decide
  unfold loadRequestFromFile saveRequestBytes putLine
  simp only [extractInt_line _ i0, extractInt_next _ i1, extractInt_next _ i2,
    extractInt_next _ i3, extractInt_next _ i4, extractInt_next _ i5, extractInt_next _ i6,
    extractInt_next _ i7, ignore_cons, Bool.false_eq_true, if_false, and_self]

theorem replayFromFile_saved (file : FileSlot) (r : CachedRequest) (u : Indeterminate)
    (a : SendDataArgs) (hfile : file.content = some (saveRequestBytes r))
    (hr : r.wellTyped) (h1 : r.param1.length < 100000) (h2 : r.param2.length < 100000)
    (h3 : r.param3.length < 100000) :
    replayFromFile file u a =
      ⟨file, a.withStrings (ptrOrNull r.param1) (ptrOrNull r.param2) (ptrOrNull r.param3),
        true⟩ := by
  obtain ⟨c, w⟩ := file
  simp only at hfile
  subst hfile
  unfold replayFromFile
  rw [loadRequestFromFile_saved r _ u _ hr h1 h2 h3]
  rfl

theorem hooked_sendData_replays (file : FileSlot) (u : Indeterminate) (a : SendDataArgs)
    (hex : file.content.isSome = true)
    (htrig : a.a2 = 1000 ∨ (a.a2 ≠ 1000 ∧ has_key_fields a.a9 = true)) :
    hooked_sendData file u a = replayFromFile file u a := by
  unfold hooked_sendData
  rcases htrig with h | ⟨h, hk⟩
  · simp [h, hex]
  · simp [h, hk]

theorem ptrOrNull_cstring (s : Str) (h : '\x00' ∉ s) :
    ptrOrNull s = if s = [] then none else some s := by
  unfold ptrOrNull
  rw [cstr_eq_self s h]

/-! ## Request cache and replay: claims -/

/-- C1 (as stated, refuted): a first call with id 1000 whose first string has 100000
bytes is captured, so a persisted record exists; the next call with id 1000 is then
forwarded with a null first string, not with the persisted one. Likewise a record
captured with an empty second string is replayed with a null second string. -/
theorem replay_misses_persisted_string :
    (hooked_sendData ⟨none, true⟩ exampleJunk
        (exampleCall 1000 (some longText) (some ['b']) (some ['c']))).file
      = ⟨some (saveRequestBytes
          (capturedRequest (exampleCall 1000 (some longText) (some ['b']) (some ['c'])))),
        true⟩ ∧
    (capturedRequest (exampleCall 1000 (some longText) (some ['b']) (some ['c']))).param1
      = longText ∧
    (hooked_sendData
        ⟨some (saveRequestBytes
          (capturedRequest (exampleCall 1000 (some longText) (some ['b']) (some ['c'])))),
          true⟩
        exampleJunk (exampleCall 1000 (some ['x']) (some ['y']) (some ['z']))).forwarded.a9
      = none ∧
    (hooked_sendData
        (hooked_sendData ⟨none, true⟩ exampleJunk
          (exampleCall 1000 (some ['a']) (some []) (some ['c']))).file
        exampleJunk (exampleCall 1000 (some ['x']) (some ['y']) (some ['z']))).forwarded.a10
      = none := by
  have hlen : longText.length = 100000 := by
    rw [longText, List.length_replicate]
  have hr : (capturedRequest
      (exampleCall 1000 (some longText) (some ['b']) (some ['c']))).wellTyped := by decide
  obtain ⟨hok, hp1⟩ := loadRequestFromFile_saved_param1 _ (uninitRequest exampleJunk)
    exampleJunk true hr
  have hp : (loadRequestFromFile
      ⟨some (saveRequestBytes
        (capturedRequest (exampleCall 1000 (some longText) (some ['b']) (some ['c'])))), true⟩
      (uninitRequest exampleJunk) exampleJunk).2.param1 = [] := by
    rw [hp1]
    apply loadParam_too_long
    · show 100000 ≤ longText.length
      omega
    · show longText.length < 2 ^ 64
      omega
  refine ⟨rfl, rfl, ?_, by decide⟩
  rw [hooked_sendData_replays
    ⟨some (saveRequestBytes
      (capturedRequest (exampleCall 1000 (some longText) (some ['b']) (some ['c'])))), true⟩
    _ _ rfl (Or.inl rfl)]
  unfold replayFromFile
  simp only [hok, hp, if_true]
  rfl

/-- C1 (amended): for every intercepted call made while the file holds a persisted
record whose three strings are C strings (free of NUL) each shorter than 100000 bytes,
if the call's id is 1000, or its id differs and its first string argument contains all
of "uid", "money" and "gold", then each forwarded string argument is the persisted
string when that is not empty and a null pointer when it is empty, whatever the
call's own string arguments were. -/
theorem replay_forwards_persisted (file : FileSlot) (r : CachedRequest) (u : Indeterminate)
    (a : SendDataArgs) (hfile : file.content = some (saveRequestBytes r))
    (hr : r.wellTyped) (hc : r.cStrings)
    (h1 : r.param1.length < 100000) (h2 : r.param2.length < 100000)
    (h3 : r.param3.length < 100000)
    (htrig : a.a2 = 1000 ∨ (a.a2 ≠ 1000 ∧ ∃ s, a.a9 = some s ∧
      contains s "uid".toList = true ∧ contains s "money".toList = true ∧
      contains s "gold".toList = true)) :
    (hooked_sendData file u a).forwarded.a9 = (if r.param1 = [] then none else some r.param1) ∧
    (hooked_sendData file u a).forwarded.a10 = (if r.param2 = [] then none else some r.param2) ∧
    (hooked_sendData file u a).forwarded.a11 = (if r.param3 = [] then none else some r.param3) := by
  have htrig2 : a.a2 = 1000 ∨ (a.a2 ≠ 1000 ∧ has_key_fields a.a9 = true) := by
    rcases htrig with h | ⟨h, s, hs, k1, k2, k3⟩
    · exact Or.inl h
    · refine Or.inr ⟨h, ?_⟩
      rw [hs]
      simp only [has_key_fields, k1, k2, k3, Bool.and_self]
  rw [hooked_sendData_replays file u a (by simp [hfile]) htrig2,
    replayFromFile_saved file r u a hfile hr h1 h2 h3]
  exact ⟨ptrOrNull_cstring _ hc.1, ptrOrNull_cstring _ hc.2.1, ptrOrNull_cstring _ hc.2.2⟩

/-- Witness of C1 (amended): the record captured from ("a","","c") is replayed into a
call with another id whose first string carries the three markers. -/
theorem replay_forwards_persisted_witness :
    (hooked_sendData
        ⟨some (saveRequestBytes
          (capturedRequest (exampleCall 1000 (some ['a']) (some []) (some ['c'])))), true⟩
        exampleJunk (exampleCall 7 (some "uid,money,gold".toList) none none)).forwarded.a9
      = (if ['a'] = ([] : Str) then none else some ['a']) ∧
    (hooked_sendData
        ⟨some (saveRequestBytes
          (capturedRequest (exampleCall 1000 (some ['a']) (some []) (some ['c'])))), true⟩
        exampleJunk (exampleCall 7 (some "uid,money,gold".toList) none none)).forwarded.a10
      = (if ([] : Str) = [] then none else some []) ∧
    (hooked_sendData
        ⟨some (saveRequestBytes
          (capturedRequest (exampleCall 1000 (some ['a']) (some []) (some ['c'])))), true⟩
        exampleJunk (exampleCall 7 (some "uid,money,gold".toList) none none)).forwarded.a11
      = (if ['c'] = ([] : Str) then none else some ['c']) :=
  replay_forwards_persisted _
    (capturedRequest (exampleCall 1000 (some ['a']) (some []) (some ['c']))) exampleJunk
    (exampleCall 7 (some "uid,money,gold".toList) none none) rfl (by decide) (by decide)
    (by decide) (by decide) (by decide)
    (Or.inr ⟨by decide, "uid,money,gold".toList, rfl, by decide, by decide, by decide⟩)

/-- C2 (as stated, refuted): no record file exists and the file cannot be opened for
writing; after the call with id 1000 there is still no record file. Also, on a
writable file, a call whose second string is null and one whose second string is empty
leave the same record file. -/
theorem capture_unwritable_leaves_no_record :
    (exampleCall 1000 (some ['a']) (some ['b']) (some ['c'])).a2 = 1000 ∧
    (hooked_sendData ⟨none, false⟩ exampleJunk
      (exampleCall 1000 (some ['a']) (some ['b']) (some ['c']))).file.content = none ∧
    (hooked_sendData ⟨none, true⟩ exampleJunk
        (exampleCall 1000 (some ['a']) none (some ['c']))).file
      = (hooked_sendData ⟨none, true⟩ exampleJunk
        (exampleCall 1000 (some ['a']) (some []) (some ['c']))).file := by
  decide

/-- C2 (amended): for every call with id 1000 made when no record file exists and the
file can be opened for writing, the call is forwarded with exactly its original
arguments, and afterwards the file holds the bytes `saveRequestToFile` writes for the
record whose id, operation type, five integers, record-time flag and three strings are
those of the call (a null string being recorded as the empty string);
`loadRequestFromFile` reads that record back when each string is shorter than 100000
bytes. -/
theorem first_sighting_capture (file : FileSlot) (u : Indeterminate) (a : SendDataArgs)
    (hid : a.a2 = 1000) (hno : file.content = none) (hw : file.writable = true) :
    (hooked_sendData file u a).forwarded = a ∧
    (hooked_sendData file u a).file.content = some (saveRequestBytes (capturedRequest a)) ∧
    capturedRequest a = ⟨a.a2, a.a3, a.a4, a.a5, a.a6, a.a7, a.a8, a.a9.getD [],
      a.a10.getD [], a.a11.getD [], a.a12⟩ ∧
    (a.wellTyped → (a.a9.getD []).length < 100000 → (a.a10.getD []).length < 100000 →
      (a.a11.getD []).length < 100000 → ∀ req0 v,
        loadRequestFromFile (hooked_sendData file u a).file req0 v = (true, capturedRequest a)) := by
  have hrun : hooked_sendData file u a
      = ⟨⟨some (saveRequestBytes (capturedRequest a)), true⟩, a, false⟩ := by
    obtain ⟨c, w⟩ := file
    simp only at hno hw
    subst hno hw
    simp [hooked_sendData, hid, saveRequestToFile]
  rw [hrun]
  refine ⟨rfl, rfl, rfl, ?_⟩
  intro hwt l1 l2 l3 req0 v
  exact loadRequestFromFile_saved (capturedRequest a) req0 v true hwt l1 l2 l3

/-- Witness of C2 (amended): the call (1000, "a", "b", "c") on a missing, writable
file. -/
theorem first_sighting_capture_witness :
    (hooked_sendData ⟨none, true⟩ exampleJunk
      (exampleCall 1000 (some ['a']) (some ['b']) (some ['c']))).file.content
      = some (saveRequestBytes
        (capturedRequest (exampleCall 1000 (some ['a']) (some ['b']) (some ['c'])))) :=
  (first_sighting_capture ⟨none, true⟩ exampleJunk
    (exampleCall 1000 (some ['a']) (some ['b']) (some ['c'])) rfl rfl rfl).2.1

/-- C3 (as stated, refuted): no record file exists and the file cannot be opened
for writing; the call (1000, "a", "b", "c") is forwarded unchanged but persists
nothing, and the following call (1000, "x", "y", "z") is forwarded with its own
strings ("x", "y", "z"). The same happens when the record file exists with no bytes in
it: the first call is not captured and the second keeps its own strings. -/
theorem capture_then_replay_unwritable :
    (hooked_sendData ⟨none, false⟩ exampleJunk
      (exampleCall 1000 (some ['a']) (some ['b']) (some ['c']))).forwarded
      = exampleCall 1000 (some ['a']) (some ['b']) (some ['c']) ∧
    (hooked_sendData ⟨none, false⟩ exampleJunk
      (exampleCall 1000 (some ['a']) (some ['b']) (some ['c']))).file = ⟨none, false⟩ ∧
    (hooked_sendData (hooked_sendData ⟨none, false⟩ exampleJunk
        (exampleCall 1000 (some ['a']) (some ['b']) (some ['c']))).file exampleJunk
      (exampleCall 1000 (some ['x']) (some ['y']) (some ['z']))).forwarded
      = exampleCall 1000 (some ['x']) (some ['y']) (some ['z']) ∧
    (hooked_sendData ⟨some [], true⟩ exampleJunk
      (exampleCall 1000 (some ['a']) (some ['b']) (some ['c']))).file = ⟨some [], true⟩ ∧
    (hooked_sendData (hooked_sendData ⟨some [], true⟩ exampleJunk
        (exampleCall 1000 (some ['a']) (some ['b']) (some ['c']))).file exampleJunk
      (exampleCall 1000 (some ['x']) (some ['y']) (some ['z']))).forwarded
      = exampleCall 1000 (some ['x']) (some ['y']) (some ['z']) := by
  decide

/-- C3 (amended): starting from a request cache with no record file, in a directory
where the file can be created, intercepting a call with id 1000 and strings
("a","b","c") forwards it unchanged, hence with ("a","b","c"), and persists the record
of that call; a following intercept with id 1000, whatever its strings (in particular
("x","y","z")), is forwarded with the strings ("a","b","c"). -/
theorem capture_then_replay (file : FileSlot) (u1 u2 : Indeterminate) (c1 c2 : SendDataArgs)
    (hno : file.content = none) (hw : file.writable = true)
    (ht : c1.wellTyped) (hid1 : c1.a2 = 1000)
    (hs : c1.a9 = some ['a'] ∧ c1.a10 = some ['b'] ∧ c1.a11 = some ['c'])
    (hid2 : c2.a2 = 1000) :
    (hooked_sendData file u1 c1).forwarded = c1 ∧
    (hooked_sendData file u1 c1).file.content
      = some (saveRequestBytes (capturedRequest c1)) ∧
    (capturedRequest c1).param1 = ['a'] ∧ (capturedRequest c1).param2 = ['b'] ∧
    (capturedRequest c1).param3 = ['c'] ∧
    (hooked_sendData (hooked_sendData file u1 c1).file u2 c2).forwarded.a9
      = some ['a'] ∧
    (hooked_sendData (hooked_sendData file u1 c1).file u2 c2).forwarded.a10
      = some ['b'] ∧
    (hooked_sendData (hooked_sendData file u1 c1).file u2 c2).forwarded.a11
      = some ['c'] := by
  obtain ⟨s1, s2, s3⟩ := hs
  have hrun : hooked_sendData file u1 c1
      = ⟨⟨some (saveRequestBytes (capturedRequest c1)), true⟩, c1, false⟩ := by
    obtain ⟨c, w⟩ := file
    simp only at hno hw
    subst hno hw
    simp [hooked_sendData, hid1, saveRequestToFile]
  have p1 : (capturedRequest c1).param1 = ['a'] := by simp [capturedRequest, stringOrEmpty, s1]
  have p2 : (capturedRequest c1).param2 = ['b'] := by simp [capturedRequest, stringOrEmpty, s2]
  have p3 : (capturedRequest c1).param3 = ['c'] := by simp [capturedRequest, stringOrEmpty, s3]
  rw [hrun]
  refine ⟨rfl, rfl, p1, p2, p3, ?_⟩
  rw [hooked_sendData_replays ⟨some (saveRequestBytes (capturedRequest c1)), true⟩ u2 c2 rfl
      (Or.inl hid2),
    replayFromFile_saved _ (capturedRequest c1) u2 c2 rfl ht (by rw [p1]; decide)
      (by rw [p2]; decide) (by rw [p3]; decide), p1, p2, p3]
  exact ⟨rfl, rfl, rfl⟩

/-- Witness of C3 (amended): the calls (1000, "a", "b", "c") and then
(1000, "x", "y", "z") on a missing, creatable record file. -/
theorem capture_then_replay_witness :
    (hooked_sendData (hooked_sendData ⟨none, true⟩ exampleJunk
        (exampleCall 1000 (some ['a']) (some ['b']) (some ['c']))).file exampleJunk
      (exampleCall 1000 (some ['x']) (some ['y']) (some ['z']))).forwarded.a9 = some ['a'] ∧
    (hooked_sendData (hooked_sendData ⟨none, true⟩ exampleJunk
        (exampleCall 1000 (some ['a']) (some ['b']) (some ['c']))).file exampleJunk
      (exampleCall 1000 (some ['x']) (some ['y']) (some ['z']))).forwarded.a10 = some ['b'] ∧
    (hooked_sendData (hooked_sendData ⟨none, true⟩ exampleJunk
        (exampleCall 1000 (some ['a']) (some ['b']) (some ['c']))).file exampleJunk
      (exampleCall 1000 (some ['x']) (some ['y']) (some ['z']))).forwarded.a11 = some ['c'] :=
  (capture_then_replay ⟨none, true⟩ exampleJunk exampleJunk
    (exampleCall 1000 (some ['a']) (some ['b']) (some ['c']))
    (exampleCall 1000 (some ['x']) (some ['y']) (some ['z']))
    rfl rfl (by decide) rfl ⟨rfl, rfl, rfl⟩ rfl).2.2.2.2.2

/-! ## Symbol cache file: claims -/

/-- C4 (as stated, refuted): with the key "a=b" the entry written by `saveToCache`
is not found by `readFromCache`, and a second identical write leaves two lines; with
a newline in the key or in the value, or a cache file that cannot be opened for
writing, `readFromCache` does not return the written kind and value either. -/
theorem saveToCache_twice_fails :
    readFromCache (saveToCache id ⟨none, true⟩ "a=b".toList CacheType.SYMBOL "v".toList)
        "a=b".toList ≠ ⟨CacheType.SYMBOL, "v".toList⟩ ∧
    (saveToCache id (saveToCache id ⟨none, true⟩ "a=b".toList CacheType.SYMBOL "v".toList)
        "a=b".toList CacheType.SYMBOL "v".toList).content
      = some "a=b=symbol:v\na=b=symbol:v\n".toList ∧
    readFromCache (saveToCache id ⟨none, true⟩ "k\n".toList CacheType.SYMBOL "v".toList)
        "k\n".toList ≠ ⟨CacheType.SYMBOL, "v".toList⟩ ∧
    readFromCache (saveToCache id ⟨none, true⟩ "k".toList CacheType.SYMBOL "v\nw".toList)
        "k".toList ≠ ⟨CacheType.SYMBOL, "v\nw".toList⟩ ∧
    readFromCache (saveToCache id ⟨none, false⟩ "k".toList CacheType.SYMBOL "v".toList)
        "k".toList ≠ ⟨CacheType.SYMBOL, "v".toList⟩ := by
  decide

/-- C4 (amended): for every key free of `=` and of newlines, every kind Symbol or
Offset, every value free of newlines and every prior cache file that can be opened
for writing, whatever the order in which the map is written out: `readFromCache`
returns that kind and value after the first `saveToCache` and again after the second,
and the file left by the second has exactly one line whose key is that key. -/
theorem saveToCache_twice (order : SymbolMap → SymbolMap) (hord : ∀ l, (order l).Perm l)
    (cache : FileSlot) (hw : cache.writable = true) (key value : Str) (type : CacheType)
    (h1 : '=' ∉ key) (h2 : '\n' ∉ key) (h3 : '\n' ∉ value) (ht : type ≠ CacheType.NONE) :
    readFromCache (saveToCache order cache key type value) key = ⟨type, value⟩ ∧
    readFromCache (saveToCache order (saveToCache order cache key type value)
      key type value) key = ⟨type, value⟩ ∧
    ∃ text, (saveToCache order (saveToCache order cache key type value)
        key type value).content = some text ∧
      ((getlines text).filter (fun l => decide (lineKey l = some key))).length = 1 := by
  have hw1 : (saveToCache order cache key type value).writable = true := by
    rw [saveToCache_content order cache key type value hw]
  refine ⟨readFromCache_saveToCache order hord cache hw key value type h1 h2 h3 ht,
    readFromCache_saveToCache order hord _ hw1 key value type h1 h2 h3 ht, ?_⟩
  obtain ⟨text, htext, hnd, hmem⟩ := saveToCache_keys order hord _ hw1 key value type h1 h2 h3
  refine ⟨text, htext, ?_⟩
  rw [filter_lineKey_length]
  exact List.count_eq_one_of_mem hnd hmem

/-- Witness of C4 (amended): key "k", kind Symbol, value "v", no prior file. -/
theorem saveToCache_twice_witness :
    readFromCache (saveToCache id ⟨none, true⟩ "k".toList CacheType.SYMBOL "v".toList)
      "k".toList = ⟨CacheType.SYMBOL, "v".toList⟩ ∧
    readFromCache (saveToCache id (saveToCache id ⟨none, true⟩ "k".toList CacheType.SYMBOL
      "v".toList) "k".toList CacheType.SYMBOL "v".toList) "k".toList
      = ⟨CacheType.SYMBOL, "v".toList⟩ ∧
    ∃ text, (saveToCache id (saveToCache id ⟨none, true⟩ "k".toList CacheType.SYMBOL
        "v".toList) "k".toList CacheType.SYMBOL "v".toList).content = some text ∧
      ((getlines text).filter (fun l => decide (lineKey l = some "k".toList))).length = 1 :=
  saveToCache_twice id (fun l => List.Perm.refl l) ⟨none, true⟩ rfl "k".toList "v".toList
    CacheType.SYMBOL (by decide) (by decide) (by decide) (by decide)

/-- C5 (as stated, refuted): writing the key "a=b" over a file holding "a=x", the
key "a\nb" over a file holding "b=1", or the value "v\nk=w" under the key "k" leaves
two lines with the same key; and a file with duplicate lines that cannot be opened
for writing keeps them. -/
theorem saveToCache_duplicate_keys :
    (∃ text, (saveToCache id ⟨some "a=x\n".toList, true⟩ "a=b".toList CacheType.SYMBOL
        "v".toList).content = some text ∧ ¬((getlines text).filterMap lineKey).Nodup) ∧
    (∃ text, (saveToCache id ⟨some "b=1\n".toList, true⟩ "a\nb".toList CacheType.SYMBOL
        "v".toList).content = some text ∧ ¬((getlines text).filterMap lineKey).Nodup) ∧
    (∃ text, (saveToCache id ⟨none, true⟩ "k".toList CacheType.SYMBOL
        "v\nk=w".toList).content = some text ∧ ¬((getlines text).filterMap lineKey).Nodup) ∧
    (∃ text, (saveToCache id ⟨some "k=1\nk=2\n".toList, false⟩ "k".toList CacheType.SYMBOL
        "v".toList).content = some text ∧ ¬((getlines text).filterMap lineKey).Nodup) := by
  refine ⟨⟨_, rfl, by decide⟩, ⟨_, rfl, by decide⟩, ⟨_, rfl, by decide⟩, ⟨_, rfl, by decide⟩⟩

/-- C5 (amended): for every prior cache file content (duplicate lines included) that
can be opened for writing, every key free of `=` and of newlines, every kind and
every value free of newlines, whatever the order in which the map is written out, the
file left by `saveToCache` has at most one line per key, a line's key being the text
before its first `=`. -/
theorem saveToCache_one_line_per_key (order : SymbolMap → SymbolMap)
    (hord : ∀ l, (order l).Perm l) (cache : FileSlot) (hw : cache.writable = true)
    (key value : Str) (type : CacheType) (h1 : '=' ∉ key) (h2 : '\n' ∉ key)
    (h3 : '\n' ∉ value) :
    ∃ text, (saveToCache order cache key type value).content = some text ∧
      ((getlines text).filterMap lineKey).Nodup ∧
      ∀ k, ((getlines text).filter (fun l => decide (lineKey l = some k))).length ≤ 1 := by
  obtain ⟨text, htext, hnd, _⟩ := saveToCache_keys order hord cache hw key value type h1 h2 h3
  refine ⟨text, htext, hnd, fun k => ?_⟩
  rw [filter_lineKey_length]
  exact List.nodup_iff_count_le_one.mp hnd k

/-- Witness of C5 (amended): the key "k" written over a file with two lines for "k". -/
theorem saveToCache_one_line_per_key_witness :
    ∃ text, (saveToCache id ⟨some "k=1\nk=2\n".toList, true⟩ "k".toList CacheType.OFFSET
        "0x10".toList).content = some text ∧
      ((getlines text).filterMap lineKey).Nodup ∧
      ∀ k, ((getlines text).filter (fun l => decide (lineKey l = some k))).length ≤ 1 :=
  saveToCache_one_line_per_key id (fun l => List.Perm.refl l) ⟨some "k=1\nk=2\n".toList, true⟩
    rfl "k".toList "0x10".toList CacheType.OFFSET (by decide) (by decide) (by decide)

/-! ## Tiered resolvers: claims -/

/-- C6 (as stated, refuted): the cache holds a Symbol entry whose name "foo" resolves
to the live address 4096, the interception primitive rejects the hook there, and both
resolvers go on to enumerate the exports; `hookCocosEvalString` also runs the memory
scan. -/
theorem cached_symbol_rejected_install_searches :
    readFromCache ⟨some "Scheduler_update=symbol:foo\n".toList, true⟩ updateKey
      = ⟨CacheType.SYMBOL, "foo".toList⟩ ∧
    gum_module_find_export_by_name
      (exampleModule [⟨"foo".toList, 4096⟩, ⟨jniAnchor, 8192⟩] false) "foo".toList = 4096 ∧
    GumCall.enumerate_exports ∈
      (hookCocos2dxUpdate id (exampleModule [⟨"foo".toList, 4096⟩, ⟨jniAnchor, 8192⟩] false)
        ⟨some "Scheduler_update=symbol:foo\n".toList, true⟩).calls ∧
    readFromCache ⟨some "ScriptEngine_evalString=symbol:foo\n".toList, true⟩ evalStringKey
      = ⟨CacheType.SYMBOL, "foo".toList⟩ ∧
    dlsym (exampleModule [⟨"foo".toList, 4096⟩, ⟨jniAnchor, 8192⟩] false) "foo".toList
      = 4096 ∧
    GumCall.enumerate_exports ∈
      (hookCocosEvalString id (exampleModule [⟨"foo".toList, 4096⟩, ⟨jniAnchor, 8192⟩] false)
        ⟨some "ScriptEngine_evalString=symbol:foo\n".toList, true⟩).calls ∧
    GumCall.memory_scan 8192 57344 ∈
      (hookCocosEvalString id (exampleModule [⟨"foo".toList, 4096⟩, ⟨jniAnchor, 8192⟩] false)
        ⟨some "ScriptEngine_evalString=symbol:foo\n".toList, true⟩).calls := by
  decide

/-- C6 (amended): for every cache state holding a Symbol entry for the target whose
name resolves to a live address (for `hookCocos2dxUpdate` a non-empty name that
`gum_module_find_export_by_name` resolves; for `hookCocosEvalString` a name that
`dlsym` resolves on the handle `dlopen` returned) at which the interception primitive
accepts the hook, the resolver hooks that address and invokes neither the export
enumeration nor the memory scan. -/
theorem cached_symbol_short_circuit (order : SymbolMap → SymbolMap) (m : GumModule)
    (cache : FileSlot) :
    ((readFromCache cache updateKey).type = CacheType.SYMBOL →
      (readFromCache cache updateKey).value ≠ [] →
      gum_module_find_export_by_name m (cstr (readFromCache cache updateKey).value) ≠ 0 →
      m.replace_fast
        (gum_module_find_export_by_name m (cstr (readFromCache cache updateKey).value)) = true →
      (hookCocos2dxUpdate order m cache).hooked =
          some (gum_module_find_export_by_name m (cstr (readFromCache cache updateKey).value)) ∧
        GumCall.enumerate_exports ∉ (hookCocos2dxUpdate order m cache).calls ∧
        ∀ base size, GumCall.memory_scan base size ∉ (hookCocos2dxUpdate order m cache).calls) ∧
    ((readFromCache cache evalStringKey).type = CacheType.SYMBOL →
      m.dlopen_handle = true →
      dlsym m (cstr (readFromCache cache evalStringKey).value) ≠ 0 →
      m.replace_fast (dlsym m (cstr (readFromCache cache evalStringKey).value)) = true →
      (hookCocosEvalString order m cache).hooked =
          some (dlsym m (cstr (readFromCache cache evalStringKey).value)) ∧
        GumCall.enumerate_exports ∉ (hookCocosEvalString order m cache).calls ∧
        ∀ base size, GumCall.memory_scan base size ∉ (hookCocosEvalString order m cache).calls) := by
  constructor
  · intro htype hne haddr hok
    rw [hookCocos2dxUpdate_cached order m cache htype hne haddr hok]
    simp
  · intro htype hopen haddr hok
    rw [hookCocosEvalString_cached order m cache htype hopen haddr hok]
    simp

/-- Witness of C6 (amended): the cached name "foo" is exported at 4096 and the hook is
accepted; both resolvers hook 4096 without enumerating or scanning. -/
theorem cached_symbol_short_circuit_witness :
    ((hookCocos2dxUpdate id (exampleModule [⟨"foo".toList, 4096⟩] true)
        ⟨some "Scheduler_update=symbol:foo\n".toList, true⟩).hooked = some 4096 ∧
      GumCall.enumerate_exports ∉
        (hookCocos2dxUpdate id (exampleModule [⟨"foo".toList, 4096⟩] true)
          ⟨some "Scheduler_update=symbol:foo\n".toList, true⟩).calls ∧
      ∀ base size, GumCall.memory_scan base size ∉
        (hookCocos2dxUpdate id (exampleModule [⟨"foo".toList, 4096⟩] true)
          ⟨some "Scheduler_update=symbol:foo\n".toList, true⟩).calls) ∧
    ((hookCocosEvalString id (exampleModule [⟨"foo".toList, 4096⟩] true)
        ⟨some "ScriptEngine_evalString=symbol:foo\n".toList, true⟩).hooked = some 4096 ∧
      GumCall.enumerate_exports ∉
        (hookCocosEvalString id (exampleModule [⟨"foo".toList, 4096⟩] true)
          ⟨some "ScriptEngine_evalString=symbol:foo\n".toList, true⟩).calls ∧
      ∀ base size, GumCall.memory_scan base size ∉
        (hookCocosEvalString id (exampleModule [⟨"foo".toList, 4096⟩] true)
          ⟨some "ScriptEngine_evalString=symbol:foo\n".toList, true⟩).calls) :=
  ⟨(cached_symbol_short_circuit id (exampleModule [⟨"foo".toList, 4096⟩] true)
      ⟨some "Scheduler_update=symbol:foo\n".toList, true⟩).1
      (by decide) (by decide) (by decide) (by decide),
    (cached_symbol_short_circuit id (exampleModule [⟨"foo".toList, 4096⟩] true)
      ⟨some "ScriptEngine_evalString=symbol:foo\n".toList, true⟩).2
      (by decide) (by decide) (by decide) (by decide)⟩

/-- C7 (as stated, refuted): the cached name "old" is not exported any more and the
enumeration yields the matching name "Scheduler_update_v2" (resp.
"ScriptEngine_evalString_v2"). When the interception primitive rejects the hook, or
when the cache file cannot be opened for writing, the resolver ends with the cache
still holding the old value. -/
theorem stale_symbol_not_replaced :
    gum_module_find_export_by_name
      (exampleModule [⟨"Scheduler_update_v2".toList, 4096⟩] false) "old".toList = 0 ∧
    regexSearch updatePre updatePost "Scheduler_update_v2".toList = true ∧
    readFromCache (hookCocos2dxUpdate id
        (exampleModule [⟨"Scheduler_update_v2".toList, 4096⟩] false)
        ⟨some "Scheduler_update=symbol:old\n".toList, true⟩).cache updateKey
      = ⟨CacheType.SYMBOL, "old".toList⟩ ∧
    readFromCache (hookCocos2dxUpdate id
        (exampleModule [⟨"Scheduler_update_v2".toList, 4096⟩] true)
        ⟨some "Scheduler_update=symbol:old\n".toList, false⟩).cache updateKey
      = ⟨CacheType.SYMBOL, "old".toList⟩ ∧
    regexSearch evalStringPre evalStringPost "ScriptEngine_evalString_v2".toList = true ∧
    readFromCache (hookCocosEvalString id
        (exampleModule [⟨"ScriptEngine_evalString_v2".toList, 4096⟩] false)
        ⟨some "ScriptEngine_evalString=symbol:old\n".toList, true⟩).cache evalStringKey
      = ⟨CacheType.SYMBOL, "old".toList⟩ ∧
    readFromCache (hookCocosEvalString id
        (exampleModule [⟨"ScriptEngine_evalString_v2".toList, 4096⟩] true)
        ⟨some "ScriptEngine_evalString=symbol:old\n".toList, false⟩).cache evalStringKey
      = ⟨CacheType.SYMBOL, "old".toList⟩ := by
  decide

/-- C7 (amended): whenever the cached Symbol entry for a target no longer resolves
live, the cache file can be opened for writing, and `d` is the first export in
enumeration order whose name matches the target's pattern and at which the
interception primitive accepts the hook, its name being free of newlines, the resolver
hooks `d` and ends with the cache holding exactly one line for the target, read back
as kind Symbol with the name of `d` as value. -/
theorem stale_symbol_fallback (order : SymbolMap → SymbolMap) (hord : ∀ l, (order l).Perm l)
    (m : GumModule) (cache : FileSlot) (hw : cache.writable = true) (d : GumExportDetails)
    (hnl : '\n' ∉ d.name) :
    ((readFromCache cache updateKey).type = CacheType.SYMBOL →
      gum_module_find_export_by_name m (cstr (readFromCache cache updateKey).value) = 0 →
      m.exports.find? (fun x => regexSearch updatePre updatePost x.name && m.replace_fast x.address)
        = some d →
      (hookCocos2dxUpdate order m cache).hooked = some d.address ∧
      readFromCache (hookCocos2dxUpdate order m cache).cache updateKey
        = ⟨CacheType.SYMBOL, d.name⟩ ∧
      ∃ text, (hookCocos2dxUpdate order m cache).cache.content = some text ∧
        ((getlines text).filter (fun l => decide (lineKey l = some updateKey))).length = 1) ∧
    ((readFromCache cache evalStringKey).type = CacheType.SYMBOL →
      dlsym m (cstr (readFromCache cache evalStringKey).value) = 0 →
      m.exports.find?
          (fun x => regexSearch evalStringPre evalStringPost x.name && m.replace_fast x.address)
        = some d →
      (hookCocosEvalString order m cache).hooked = some d.address ∧
      readFromCache (hookCocosEvalString order m cache).cache evalStringKey
        = ⟨CacheType.SYMBOL, d.name⟩ ∧
      ∃ text, (hookCocosEvalString order m cache).cache.content = some text ∧
        ((getlines text).filter
          (fun l => decide (lineKey l = some evalStringKey))).length = 1) := by
  constructor
  · intro htype hstale hfind
    rw [← readSymbolNameFromCache_symbol cache updateKey htype] at hstale
    obtain ⟨before, hrun⟩ := hookCocos2dxUpdate_stale order m cache hstale
    obtain ⟨hc, hh⟩ := enumerateExportsHook_some order m updatePre updatePost updateKey cache
      m.exports d hfind
    have hsaved := saved_symbol_entry order hord cache hw updateKey d.name
      (by decide) (by decide) hnl
    rw [hrun, HookRun.after_cache, HookRun.after_hooked, hc, hh]
    exact ⟨rfl, hsaved⟩
  · intro htype hstale hfind
    obtain ⟨before, hrun⟩ := hookCocosEvalString_stale order m cache htype hstale
    obtain ⟨hc, hh⟩ := enumerateExportsHook_some order m evalStringPre evalStringPost
      evalStringKey cache m.exports d hfind
    obtain ⟨hc2, hh2⟩ := evalStringSearch_hooked order m evalStringKey cache before
      d.address hh
    have hsaved := saved_symbol_entry order hord cache hw evalStringKey d.name
      (by decide) (by decide) hnl
    rw [hrun, hc2, hh2, hc]
    exact ⟨rfl, hsaved⟩

/-- Witness of C7 (amended): the stale name "old" is replaced by the name of the
matching export, for both resolvers. -/
theorem stale_symbol_fallback_witness :
    ((hookCocos2dxUpdate id (exampleModule [⟨"Scheduler_update_v2".toList, 4096⟩] true)
        ⟨some "Scheduler_update=symbol:old\n".toList, true⟩).hooked = some 4096 ∧
      readFromCache (hookCocos2dxUpdate id
          (exampleModule [⟨"Scheduler_update_v2".toList, 4096⟩] true)
          ⟨some "Scheduler_update=symbol:old\n".toList, true⟩).cache updateKey
        = ⟨CacheType.SYMBOL, "Scheduler_update_v2".toList⟩ ∧
      ∃ text, (hookCocos2dxUpdate id
          (exampleModule [⟨"Scheduler_update_v2".toList, 4096⟩] true)
          ⟨some "Scheduler_update=symbol:old\n".toList, true⟩).cache.content = some text ∧
        ((getlines text).filter (fun l => decide (lineKey l = some updateKey))).length = 1) ∧
    ((hookCocosEvalString id (exampleModule [⟨"ScriptEngine_evalString_v2".toList, 4096⟩] true)
        ⟨some "ScriptEngine_evalString=symbol:old\n".toList, true⟩).hooked = some 4096 ∧
      readFromCache (hookCocosEvalString id
          (exampleModule [⟨"ScriptEngine_evalString_v2".toList, 4096⟩] true)
          ⟨some "ScriptEngine_evalString=symbol:old\n".toList, true⟩).cache evalStringKey
        = ⟨CacheType.SYMBOL, "ScriptEngine_evalString_v2".toList⟩ ∧
      ∃ text, (hookCocosEvalString id
          (exampleModule [⟨"ScriptEngine_evalString_v2".toList, 4096⟩] true)
          ⟨some "ScriptEngine_evalString=symbol:old\n".toList, true⟩).cache.content
            = some text ∧
        ((getlines text).filter
          (fun l => decide (lineKey l = some evalStringKey))).length = 1) :=
  ⟨(stale_symbol_fallback id (fun l => List.Perm.refl l)
      (exampleModule [⟨"Scheduler_update_v2".toList, 4096⟩] true)
      ⟨some "Scheduler_update=symbol:old\n".toList, true⟩ rfl
      ⟨"Scheduler_update_v2".toList, 4096⟩ (by decide)).1 (by decide) (by decide) (by decide),
    (stale_symbol_fallback id (fun l => List.Perm.refl l)
      (exampleModule [⟨"ScriptEngine_evalString_v2".toList, 4096⟩] true)
      ⟨some "ScriptEngine_evalString=symbol:old\n".toList, true⟩ rfl
      ⟨"ScriptEngine_evalString_v2".toList, 4096⟩ (by decide)).2
      (by decide) (by decide) (by decide)⟩

/-- C8 (as stated, refuted): from an empty cache the first resolution hooks the only
matching export at 4096 and writes the line for it; a second resolution with an empty
export table hooks nothing, for both resolvers. -/
theorem second_resolution_needs_exports :
    (hookCocos2dxUpdate id (exampleModule [⟨"Scheduler_update".toList, 4096⟩] true)
      ⟨none, true⟩).hooked = some 4096 ∧
    (hookCocos2dxUpdate id (exampleModule [⟨"Scheduler_update".toList, 4096⟩] true)
      ⟨none, true⟩).cache.content = some "Scheduler_update=symbol:Scheduler_update\n".toList ∧
    (hookCocos2dxUpdate id (exampleModule [] true)
      (hookCocos2dxUpdate id (exampleModule [⟨"Scheduler_update".toList, 4096⟩] true)
        ⟨none, true⟩).cache).hooked = none ∧
    (hookCocosEvalString id (exampleModule [⟨"ScriptEngine_evalString".toList, 4096⟩] true)
      ⟨none, true⟩).hooked = some 4096 ∧
    (hookCocosEvalString id (exampleModule [⟨"ScriptEngine_evalString".toList, 4096⟩] true)
      ⟨none, true⟩).cache.content
      = some "ScriptEngine_evalString=symbol:ScriptEngine_evalString\n".toList ∧
    (hookCocosEvalString id (exampleModule [] true)
      (hookCocosEvalString id (exampleModule [⟨"ScriptEngine_evalString".toList, 4096⟩] true)
        ⟨none, true⟩).cache).hooked = none := by
  decide

/-- C8 (amended): with an empty cache file that can be opened for writing, resolving a
target whose pattern is matched by exactly one export, named `N` (free of newline and
NUL) at the non-null address `A` where the hook is accepted, hooks `A` and leaves the
cache file holding exactly the line `<target>=symbol:N`; a second resolution of the
same target in a module where `N` still resolves to `A` (and, for
`hookCocosEvalString`, `dlopen` returns a handle) and the hook is accepted hooks `A`
again, served from the cache without enumerating the exports. -/
theorem resolve_then_cached (order : SymbolMap → SymbolMap) (hord : ∀ l, (order l).Perm l)
    (m m2 : GumModule) (cache : FileSlot)
    (hempty : cache.content = none ∨ cache.content = some []) (hw : cache.writable = true)
    (N : Str) (A : GumAddress) (hA : A ≠ 0) (hnl : '\n' ∉ N) (hnul : '\x00' ∉ N)
    (hmem : (⟨N, A⟩ : GumExportDetails) ∈ m.exports) (hok : m.replace_fast A = true)
    (hok2 : m2.replace_fast A = true) :
    (regexSearch updatePre updatePost N = true →
      (∀ x ∈ m.exports, regexSearch updatePre updatePost x.name = true → x = ⟨N, A⟩) →
      (hookCocos2dxUpdate order m cache).hooked = some A ∧
      (hookCocos2dxUpdate order m cache).cache.content
        = some (updateKey ++ "=symbol:".toList ++ N ++ ['\n']) ∧
      (gum_module_find_export_by_name m2 N = A →
        (hookCocos2dxUpdate order m2 (hookCocos2dxUpdate order m cache).cache).hooked = some A ∧
        GumCall.enumerate_exports ∉
          (hookCocos2dxUpdate order m2 (hookCocos2dxUpdate order m cache).cache).calls)) ∧
    (regexSearch evalStringPre evalStringPost N = true →
      (∀ x ∈ m.exports, regexSearch evalStringPre evalStringPost x.name = true → x = ⟨N, A⟩) →
      (hookCocosEvalString order m cache).hooked = some A ∧
      (hookCocosEvalString order m cache).cache.content
        = some (evalStringKey ++ "=symbol:".toList ++ N ++ ['\n']) ∧
      (m2.dlopen_handle = true → dlsym m2 N = A →
        (hookCocosEvalString order m2 (hookCocosEvalString order m cache).cache).hooked
          = some A ∧
        GumCall.enumerate_exports ∉
          (hookCocosEvalString order m2 (hookCocosEvalString order m cache).cache).calls)) := by
  have hcstr := cstr_eq_self N hnul
  constructor
  · intro hmatch huniq
    have hN : N ≠ [] := by
      rintro rfl
      exact absurd hmatch (by decide)
    obtain ⟨hc, hh⟩ := first_resolution order hord m updatePre updatePost updateKey cache
      hempty hw N A hmem hok hmatch huniq
    have hrun := hookCocos2dxUpdate_no_entry order m cache (readFromCache_none cache _ hempty)
    have hcache : (hookCocos2dxUpdate order m cache).cache
        = saveSymbolNameToCache order cache updateKey N := by
      rw [hrun, HookRun.after_cache, hc]
      exact (saveToCache_empty order hord cache hw hempty updateKey N).symm
    have hread := (saved_symbol_entry order hord cache hw updateKey N
      (by decide) (by decide) hnl).1
    rw [← hcache] at hread
    refine ⟨by rw [hrun, HookRun.after_hooked, hh], ?_, ?_⟩
    · rw [hrun, HookRun.after_cache, hc]
      rfl
    · intro hfind
      have htype : (readFromCache (hookCocos2dxUpdate order m cache).cache updateKey).type
          = CacheType.SYMBOL := by rw [hread]
      have hval : (readFromCache (hookCocos2dxUpdate order m cache).cache updateKey).value
          = N := by rw [hread]
      rw [hookCocos2dxUpdate_cached order m2 _ htype (by rw [hval]; exact hN)
        (by rw [hval, hcstr, hfind]; exact hA) (by rw [hval, hcstr, hfind]; exact hok2)]
      simp [hval, hcstr, hfind]
  · intro hmatch huniq
    obtain ⟨hc, hh⟩ := first_resolution order hord m evalStringPre evalStringPost
      evalStringKey cache hempty hw N A hmem hok hmatch huniq
    have hrun := hookCocosEvalString_no_entry order m cache
      (readFromCache_none cache _ hempty)
    obtain ⟨hc2, hh2⟩ := evalStringSearch_hooked order m evalStringKey cache [] A hh
    have hcache : (hookCocosEvalString order m cache).cache
        = saveSymbolNameToCache order cache evalStringKey N := by
      rw [hrun, hc2, hc]
      exact (saveToCache_empty order hord cache hw hempty evalStringKey N).symm
    have hread := (saved_symbol_entry order hord cache hw evalStringKey N
      (by decide) (by decide) hnl).1
    rw [← hcache] at hread
    refine ⟨by rw [hrun, hh2], ?_, ?_⟩
    · rw [hrun, hc2, hc]
      rfl
    · intro hopen hfind
      have htype : (readFromCache (hookCocosEvalString order m cache).cache evalStringKey).type
          = CacheType.SYMBOL := by rw [hread]
      have hval : (readFromCache (hookCocosEvalString order m cache).cache evalStringKey).value
          = N := by rw [hread]
      rw [hookCocosEvalString_cached order m2 _ htype hopen
        (by rw [hval, hcstr, hfind]; exact hA) (by rw [hval, hcstr, hfind]; exact hok2)]
      simp [hval, hcstr, hfind]

/-- Witness of C8 (amended): the only matching export is hooked at 4096 from an empty
cache, and a second resolution in the same module is served from the cache, for both
resolvers. -/
theorem resolve_then_cached_witness :
    ((hookCocos2dxUpdate id (exampleModule [⟨"Scheduler_update".toList, 4096⟩] true)
        ⟨none, true⟩).hooked = some 4096 ∧
      (hookCocos2dxUpdate id (exampleModule [⟨"Scheduler_update".toList, 4096⟩] true)
        ⟨none, true⟩).cache.content
        = some (updateKey ++ "=symbol:".toList ++ "Scheduler_update".toList ++ ['\n']) ∧
      (gum_module_find_export_by_name
          (exampleModule [⟨"Scheduler_update".toList, 4096⟩] true) "Scheduler_update".toList
          = 4096 →
        (hookCocos2dxUpdate id (exampleModule [⟨"Scheduler_update".toList, 4096⟩] true)
          (hookCocos2dxUpdate id (exampleModule [⟨"Scheduler_update".toList, 4096⟩] true)
            ⟨none, true⟩).cache).hooked = some 4096 ∧
        GumCall.enumerate_exports ∉
          (hookCocos2dxUpdate id (exampleModule [⟨"Scheduler_update".toList, 4096⟩] true)
            (hookCocos2dxUpdate id (exampleModule [⟨"Scheduler_update".toList, 4096⟩] true)
              ⟨none, true⟩).cache).calls)) ∧
    ((hookCocosEvalString id (exampleModule [⟨"ScriptEngine_evalString".toList, 4096⟩] true)
        ⟨some [], true⟩).hooked = some 4096 ∧
      (hookCocosEvalString id (exampleModule [⟨"ScriptEngine_evalString".toList, 4096⟩] true)
        ⟨some [], true⟩).cache.content
        = some (evalStringKey ++ "=symbol:".toList ++ "ScriptEngine_evalString".toList
            ++ ['\n']) ∧
      ((exampleModule [⟨"ScriptEngine_evalString".toList, 4096⟩] true).dlopen_handle = true →
        dlsym (exampleModule [⟨"ScriptEngine_evalString".toList, 4096⟩] true)
          "ScriptEngine_evalString".toList = 4096 →
        (hookCocosEvalString id
          (exampleModule [⟨"ScriptEngine_evalString".toList, 4096⟩] true)
          (hookCocosEvalString id
            (exampleModule [⟨"ScriptEngine_evalString".toList, 4096⟩] true)
            ⟨some [], true⟩).cache).hooked = some 4096 ∧
        GumCall.enumerate_exports ∉
          (hookCocosEvalString id
            (exampleModule [⟨"ScriptEngine_evalString".toList, 4096⟩] true)
            (hookCocosEvalString id
              (exampleModule [⟨"ScriptEngine_evalString".toList, 4096⟩] true)
              ⟨some [], true⟩).cache).calls)) :=
  ⟨(resolve_then_cached id (fun l => List.Perm.refl l)
      (exampleModule [⟨"Scheduler_update".toList, 4096⟩] true)
      (exampleModule [⟨"Scheduler_update".toList, 4096⟩] true) ⟨none, true⟩ (Or.inl rfl) rfl
      "Scheduler_update".toList 4096 (by decide) (by decide) (by decide) (by decide) rfl rfl).1
      (by decide) (by decide),
    (resolve_then_cached id (fun l => List.Perm.refl l)
      (exampleModule [⟨"ScriptEngine_evalString".toList, 4096⟩] true)
      (exampleModule [⟨"ScriptEngine_evalString".toList, 4096⟩] true) ⟨some [], true⟩
      (Or.inr rfl) rfl "ScriptEngine_evalString".toList 4096 (by decide) (by decide)
      (by decide) (by decide) rfl rfl).2 (by decide) (by decide)⟩

/-! ## Engine identification -/

theorem toLowerStr_eq_lowercased (s : Str) : toLowerStr s = lowercased s := by
  unfold toLowerStr lowercased
  apply List.map_congr_left
  intro c _
  rfl

/-- C10: `identifyGameEngine` is the fixed-order decision list over the lowercased
module name, the lowercased name being the name with each letter A-Z replaced by a-z
and every other byte kept: it agrees with the decision list of the specification on
every name; a name with "il2cpp" or "unity" is Unity; otherwise one with "ue4", "ue5"
or "unreal" is Unreal; otherwise one with "cocos" is Cocos2d-js exactly when it equals
"libcocos.so" or "libcocos2djs.so" and Cocos2d-x otherwise; otherwise one with "godot"
is Godot; otherwise Unknown. A name matching two kinds gets the earlier one. The
function is evaluated on names in upper and mixed case, one for each branch and three
matching two kinds. -/
theorem identifyGameEngine_decision_list (module_name : Str) :
    identifyGameEngine module_name = identifySpec module_name ∧
    ((contains (lowercased module_name) "il2cpp".toList = true ∨
        contains (lowercased module_name) "unity".toList = true) →
      identifyGameEngine module_name = GameEngine.UNITY) ∧
    (¬(contains (lowercased module_name) "il2cpp".toList = true ∨
        contains (lowercased module_name) "unity".toList = true) →
      ((contains (lowercased module_name) "ue4".toList = true ∨
        contains (lowercased module_name) "ue5".toList = true ∨
        contains (lowercased module_name) "unreal".toList = true) →
        identifyGameEngine module_name = GameEngine.UNREAL) ∧
      (¬(contains (lowercased module_name) "ue4".toList = true ∨
        contains (lowercased module_name) "ue5".toList = true ∨
        contains (lowercased module_name) "unreal".toList = true) →
        (contains (lowercased module_name) "cocos".toList = true →
          ((lowercased module_name = "libcocos.so".toList ∨
              lowercased module_name = "libcocos2djs.so".toList) →
            identifyGameEngine module_name = GameEngine.COCOS2D_JS) ∧
          (¬(lowercased module_name = "libcocos.so".toList ∨
              lowercased module_name = "libcocos2djs.so".toList) →
            identifyGameEngine module_name = GameEngine.COCOS2D_CPP)) ∧
        (¬contains (lowercased module_name) "cocos".toList = true →
          (contains (lowercased module_name) "godot".toList = true →
            identifyGameEngine module_name = GameEngine.GODOT) ∧
          (¬contains (lowercased module_name) "godot".toList = true →
            identifyGameEngine module_name = GameEngine.UNKNOWN)))) ∧
    lowercased "LibIL2CPP_59.so".toList = "libil2cpp_59.so".toList ∧
    identifyGameEngine "LIBIL2CPP.SO".toList = GameEngine.UNITY ∧
    identifyGameEngine "libUnity.so".toList = GameEngine.UNITY ∧
    identifyGameEngine "libUE4.so".toList = GameEngine.UNREAL ∧
    identifyGameEngine "LibUnreal.so".toList = GameEngine.UNREAL ∧
    identifyGameEngine "libcocos.so".toList = GameEngine.COCOS2D_JS ∧
    identifyGameEngine "LibCocos2dJS.so".toList = GameEngine.COCOS2D_JS ∧
    identifyGameEngine "libcocos2djs.so.1".toList = GameEngine.COCOS2D_CPP ∧
    identifyGameEngine "libCOCOS2Dcpp.so".toList = GameEngine.COCOS2D_CPP ∧
    identifyGameEngine "libGodot_android.so".toList = GameEngine.GODOT ∧
    identifyGameEngine "libmain.so".toList = GameEngine.UNKNOWN ∧
    identifyGameEngine "libCocos_Unity.so".toList = GameEngine.UNITY ∧
    identifyGameEngine "libGodot_UE5.so".toList = GameEngine.UNREAL ∧
    identifyGameEngine "libGODOT_cocos.so".toList = GameEngine.COCOS2D_CPP := by
  refine ⟨?_, ?_, ?_, by decide, by decide, by decide, by decide, by decide, by decide,
    by decide, by decide, by decide, by decide, by decide, by decide, by decide, by decide⟩
  · simp only [identifyGameEngine, identifySpec, engineRules, firstRule, Bool.or_eq_true,
      decide_eq_true_eq, toLowerStr_eq_lowercased]
  · intro h
    simp only [identifyGameEngine, Bool.or_eq_true, toLowerStr_eq_lowercased]
    rw [if_pos h]
  · intro h1
    simp only [identifyGameEngine, Bool.or_eq_true, decide_eq_true_eq, or_assoc,
      toLowerStr_eq_lowercased]
    rw [if_neg h1]
    refine ⟨fun h2 => by rw [if_pos h2], fun h2 => ?_⟩
    rw [if_neg h2]
    refine ⟨fun h3 => ?_, fun h3 => ?_⟩
    · rw [if_pos h3]
      exact ⟨fun h4 => by rw [if_pos h4], fun h4 => by rw [if_neg h4]⟩
    · rw [if_neg h3]
      exact ⟨fun h4 => by rw [if_pos h4], fun h4 => by rw [if_neg h4]⟩

/-- Witness of C10: the name "LIBIL2CPP.SO" contains "il2cpp" once lowercased, so it is
Unity; "libGodot_Cocos.so" matches Cocos and Godot and gets the earlier kind. -/
theorem identifyGameEngine_decision_list_witness :
    identifyGameEngine "LIBIL2CPP.SO".toList = GameEngine.UNITY ∧
    identifyGameEngine "libGodot_Cocos.so".toList = GameEngine.COCOS2D_CPP :=
  ⟨(identifyGameEngine_decision_list "LIBIL2CPP.SO".toList).2.1 (Or.inl (by decide)),
    ((((identifyGameEngine_decision_list "libGodot_Cocos.so".toList).2.2.1 (by decide)).2
      (by decide)).1 (by decide)).2 (by decide)⟩

/-! ## JSON handle tracker -/

/-- C9 (as stated, refuted): the empty text has length 0, below the ceiling, yet after
`hooked_json_create` produced the non-null handle 1 from it the lookup of the parse
hook finds no entry. -/
theorem json_create_empty_text_untracked :
    (1 : Nat) ≠ 0 ∧ ([] : Str).length < 50000 ∧
    hooked_parseJson_lookup (hooked_json_create JsonMap.empty 1 (some [])).2 1 ≠ some [] := by
  decide

/-- C9 (amended): for every non-null handle `h` and every text `t` of at least one
byte and fewer than 50000 bytes, after `hooked_json_create` produced `h` from `t` the
lookup of the parse hook yields exactly `t`, and after `hooked_json_dispose h` a
further lookup of `h` finds no entry. -/
theorem json_create_parse_dispose (m : JsonMap) (h : Nat) (t : Str) (hh : h ≠ 0)
    (hpos : 0 < t.length) (hlt : t.length < 50000) :
    hooked_parseJson_lookup (hooked_json_create m h (some t)).2 h = some t ∧
    hooked_parseJson_lookup
      (hooked_json_dispose (hooked_json_create m h (some t)).2 h) h = none := by
  have hlen : strnlen t 50000 = t.length := by
    unfold strnlen; omega
  have hcreate : (hooked_json_create m h (some t)).2 =
      fun k => if k = h then some t else m k := by
    simp [hooked_json_create, hh, hlen, hpos, hlt]
  rw [hcreate]
  constructor
  · simp [hooked_parseJson_lookup]
  · simp [hooked_parseJson_lookup, hooked_json_dispose]

/-- Witness of C9 (amended) on the handle 1 and the text "x". -/
theorem json_create_parse_dispose_witness :
    hooked_parseJson_lookup (hooked_json_create JsonMap.empty 1 (some ['x'])).2 1 = some ['x'] ∧
    hooked_parseJson_lookup
      (hooked_json_dispose (hooked_json_create JsonMap.empty 1 (some ['x'])).2 1) 1 = none :=
  json_create_parse_dispose JsonMap.empty 1 ['x'] (by decide) (by decide) (by decide)

/-! ## Cached offset and scan tiers: helper lemmas -/

theorem hexDigitVal_digitChar (k : Nat) (h : k < 16) :
    hexDigitVal (Nat.digitChar k) = some k ∧ Nat.digitChar k ≠ '\n' ∧
      Nat.digitChar k ≠ '\x00' := by
  interval_cases k <;> decide

theorem hexAccum_snoc (l : Str) (c : Char) (v acc : Nat)
    (hl : ∀ x ∈ l, (hexDigitVal x).isSome = true) (hc : hexDigitVal c = some v) :
    hexAccum acc (l ++ [c]) = hexAccum acc l * 16 + v := by
  induction l generalizing acc with
  | nil => simp [hexAccum, hc]
  | cons x t ih =>
    have hx := hl x (by simp)
    obtain ⟨w, hw⟩ := Option.isSome_iff_exists.mp hx
    simp only [List.cons_append, hexAccum, hw]
    exact ih _ (fun y hy => hl y (by simp [hy]))

theorem toDigitsCore_hex (fuel : Nat) : ∀ (n : Nat) (ds : Str), n < fuel →
    ∃ l : Str, Nat.toDigitsCore 16 fuel n ds = l ++ ds ∧ l ≠ [] ∧
      (∀ c ∈ l, (hexDigitVal c).isSome = true ∧ c ≠ '\n' ∧ c ≠ '\x00') ∧
      hexAccum 0 l = n := by
  induction fuel with
  | zero => intro n ds h; omega
  | succ fuel ih =>
    intro n ds h
    have hd := hexDigitVal_digitChar (n % 16) (Nat.mod_lt n (by decide))
    by_cases hq : n / 16 = 0
    · refine ⟨[Nat.digitChar (n % 16)], ?_, by simp, ?_, ?_⟩
      · simp [Nat.toDigitsCore, hq]
      · intro c hc
        simp only [List.mem_singleton] at hc
        rw [hc]
        exact ⟨by rw [hd.1]; rfl, hd.2⟩
      · have hn : n % 16 = n := Nat.mod_eq_of_lt (by omega)
        simp only [hexAccum, hd.1]
        omega
    · obtain ⟨l, hl, _, hdig, hval⟩ := ih (n / 16) (Nat.digitChar (n % 16) :: ds) (by omega)
      refine ⟨l ++ [Nat.digitChar (n % 16)], ?_, by simp, ?_, ?_⟩
      · simp [Nat.toDigitsCore, hq, hl]
      · intro c hc
        simp only [List.mem_append, List.mem_singleton] at hc
        rcases hc with hc | hc
        · exact hdig c hc
        · rw [hc]
          exact ⟨by rw [hd.1]; rfl, hd.2⟩
      · rw [hexAccum_snoc l _ (n % 16) 0 (fun x hx => (hdig x hx).1) hd.1, hval]
        omega

theorem toDigits_hex (n : Nat) :
    ∃ c t, Nat.toDigits 16 n = c :: t ∧ (hexDigitVal c).isSome = true ∧
      (∀ x ∈ Nat.toDigits 16 n, x ≠ '\n' ∧ x ≠ '\x00') ∧
      hexAccum 0 (Nat.toDigits 16 n) = n := by
  obtain ⟨l, hl, hne, hdig, hval⟩ := toDigitsCore_hex (n + 1) n [] (by omega)
  have e : Nat.toDigits 16 n = l := by
    simp [Nat.toDigits, hl]
  rw [e]
  cases l with
  | nil => exact absurd rfl hne
  | cons c t =>
    exact ⟨c, t, rfl, (hdig c (by simp)).1, fun x hx => (hdig x hx).2, hval⟩

theorem offsetStr_clean (d : Nat) : '\n' ∉ offsetStr d ∧ '\x00' ∉ offsetStr d := by
  obtain ⟨_, _, _, _, hclean, _⟩ := toDigits_hex d
  unfold offsetStr
  constructor
  · intro h
    simp only [List.mem_cons] at h
    rcases h with h | h | h
    · exact absurd h (by decide)
    · exact absurd h (by decide)
    · exact (hclean _ h).1 rfl
  · intro h
    simp only [List.mem_cons] at h
    rcases h with h | h | h
    · exact absurd h (by decide)
    · exact absurd h (by decide)
    · exact (hclean _ h).2 rfl

theorem strtoull16_offsetStr (d : Nat) (hd : d < 2 ^ 64) :
    strtoull16 (cstr (offsetStr d)) = d := by
  rw [cstr_eq_self _ (offsetStr_clean d).2]
  obtain ⟨c, t, hct, hc, _, hval⟩ := toDigits_hex d
  have hsp : isspace '0' = false := by decide
  unfold strtoull16 offsetStr
  rw [hct] at hval ⊢
  simp only [List.dropWhile_cons, hsp]
  simp [hc, hval]
  omega

theorem find?_hookable_first (m : GumModule) (pre post : Str)
    (front back : List GumExportDetails) (d : GumExportDetails)
    (hfront : ∀ x ∈ front, hookable m pre post x = false)
    (hd : hookable m pre post d = true) :
    (front ++ d :: back).find?
      (fun x => regexSearch pre post x.name && m.replace_fast x.address) = some d := by
  induction front with
  | nil =>
    unfold hookable at hd
    simp [List.find?_cons, hd]
  | cons x t ih =>
    have hx := hfront x (by simp)
    unfold hookable at hx
    simp only [List.cons_append, List.find?_cons, hx]
    exact ih (fun y hy => hfront y (by simp [hy]))

theorem find?_none_of_no_match (m : GumModule) (pre post : Str)
    (exports : List GumExportDetails)
    (h : ∀ x ∈ exports, regexSearch pre post x.name = false) :
    exports.find? (fun x => regexSearch pre post x.name && m.replace_fast x.address) = none := by
  rw [List.find?_eq_none]
  intro x hx
  simp [h x hx]

theorem hookCocosEvalString_miss (order : SymbolMap → SymbolMap) (m : GumModule)
    (cache : FileSlot) (hmiss : evalStringCacheMiss m cache) :
    ∃ before, hookCocosEvalString order m cache =
      evalStringSearch order m evalStringKey cache before := by
  unfold evalStringCacheMiss at hmiss
  unfold hookCocosEvalString
  cases ht : (readFromCache cache evalStringKey).type with
  | NONE => exact ⟨[], by simp only [ht]⟩
  | SYMBOL =>
    simp only [ht] at hmiss ⊢
    by_cases h1 : m.dlopen_handle = true
    · rw [if_pos h1]
      by_cases h2 : dlsym m (cstr (readFromCache cache evalStringKey).value) = 0
      · rw [if_neg (not_not.mpr h2)]
        exact ⟨_, rfl⟩
      · rw [if_pos h2]
        have h3 : ¬ m.replace_fast (dlsym m (cstr (readFromCache cache evalStringKey).value))
            = true := by
          rcases hmiss with h | h | h
          · rw [h1] at h
            exact absurd h (by decide)
          · exact absurd h h2
          · simp [h]
        rw [if_neg h3]
        exact ⟨_, rfl⟩
    · rw [if_neg h1]
      exact ⟨_, rfl⟩
  | OFFSET =>
    simp only [ht] at hmiss ⊢
    by_cases h1 : gum_module_find_export_by_name m jniAnchor = 0
    · rw [if_pos h1]
      exact ⟨_, rfl⟩
    · rw [if_neg h1]
      have h3 : ¬ m.replace_fast
          (wrap64 (gum_module_find_export_by_name m jniAnchor +
            strtoull16 (cstr (readFromCache cache evalStringKey).value))) = true := by
        rcases hmiss with h | h
        · exact absurd h h1
        · unfold offsetTarget anchorAddr at h
          simp [h]
      rw [if_neg h3]
      exact ⟨_, rfl⟩

theorem evalStringSearch_before (order : SymbolMap → SymbolMap) (m : GumModule)
    (cache_key : Str) (cache : FileSlot) (before : List GumCall) (c : GumCall)
    (hc : c ∈ before) : c ∈ (evalStringSearch order m cache_key cache before).calls := by
  unfold evalStringSearch
  simp only []
  split
  · simp [hc]
  · split
    · simp [hc]
    · split
      · simp [hc]
      · split <;> simp [hc]

theorem evalStringSearch_fail (order : SymbolMap → SymbolMap) (m : GumModule)
    (cache : FileSlot) (before : List GumCall)
    (henum : m.exports.find?
      (fun x => regexSearch evalStringPre evalStringPost x.name && m.replace_fast x.address)
        = none)
    (hscan : anchorAddr m = 0 ∨ m.memory_scan (anchorAddr m) (scanSize m) = []) :
    (evalStringSearch order m evalStringKey cache before).cache = cache ∧
    (evalStringSearch order m evalStringKey cache before).hooked = none := by
  obtain ⟨hc, hh⟩ := enumerateExportsHook_none order m evalStringPre evalStringPost
    evalStringKey cache m.exports henum
  unfold scanSize anchorAddr at hscan
  unfold evalStringSearch
  simp only [hh]
  by_cases h0 : gum_module_find_export_by_name m jniAnchor = 0
  · rw [if_pos h0]
    exact ⟨hc, rfl⟩
  · rw [if_neg h0]
    have hs := hscan.resolve_left h0
    rw [hs]
    exact ⟨hc, rfl⟩

theorem evalStringSearch_scan (order : SymbolMap → SymbolMap) (m : GumModule)
    (cache : FileSlot) (before : List GumCall) (first : GumAddress) (others : List GumAddress)
    (henum : m.exports.find?
      (fun x => regexSearch evalStringPre evalStringPost x.name && m.replace_fast x.address)
        = none)
    (hanchor : anchorAddr m ≠ 0)
    (hscan : m.memory_scan (anchorAddr m) (scanSize m) = first :: others)
    (hok : m.replace_fast (wrap64 (first + 0xc)) = true) :
    (evalStringSearch order m evalStringKey cache before).hooked = some (wrap64 (first + 0xc)) ∧
    (evalStringSearch order m evalStringKey cache before).cache =
      saveToCache order cache evalStringKey CacheType.OFFSET
        (offsetStr (wrap64 (wrap64 (first + 0xc) + 2 ^ 64 - anchorAddr m))) := by
  obtain ⟨hc, hh⟩ := enumerateExportsHook_none order m evalStringPre evalStringPost
    evalStringKey cache m.exports henum
  unfold scanSize anchorAddr at hscan
  unfold anchorAddr at hanchor ⊢
  unfold evalStringSearch
  simp only [hh]
  rw [if_neg hanchor, hscan]
  simp only []
  rw [if_pos hok, hc]
  exact ⟨rfl, rfl⟩

theorem hookCocosEvalString_offset (order : SymbolMap → SymbolMap) (m : GumModule)
    (cache : FileSlot) (htype : (readFromCache cache evalStringKey).type = CacheType.OFFSET)
    (hanchor : anchorAddr m ≠ 0) :
    (m.replace_fast (offsetTarget m cache) = true →
      hookCocosEvalString order m cache =
        ⟨cache, some (offsetTarget m cache),
          [GumCall.find_export_by_name jniAnchor,
            GumCall.replace_fast (offsetTarget m cache)]⟩) ∧
    GumCall.replace_fast (offsetTarget m cache) ∈ (hookCocosEvalString order m cache).calls := by
  unfold offsetTarget anchorAddr
  unfold anchorAddr at hanchor
  unfold hookCocosEvalString
  simp only [htype]
  rw [if_neg hanchor]
  by_cases hok : m.replace_fast (wrap64 (gum_module_find_export_by_name m jniAnchor +
      strtoull16 (cstr (readFromCache cache evalStringKey).value))) = true
  · rw [if_pos hok]
    exact ⟨fun _ => rfl, by simp⟩
  · rw [if_neg hok]
    exact ⟨fun h => absurd h hok, evalStringSearch_before _ _ _ _ _ _ (by simp)⟩

theorem hookCocos2dxUpdate_miss (order : SymbolMap → SymbolMap) (m : GumModule)
    (cache : FileSlot) (hmiss : updateCacheMiss m cache) :
    ∃ before, hookCocos2dxUpdate order m cache =
      (enumerateExportsHook order m updatePre updatePost updateKey cache m.exports).after
        (before ++ [GumCall.enumerate_exports]) := by
  unfold updateCacheMiss at hmiss
  unfold hookCocos2dxUpdate
  simp only []
  by_cases h1 : readSymbolNameFromCache cache updateKey = []
  · rw [if_neg (not_not.mpr h1)]
    exact ⟨[], rfl⟩
  · rw [if_pos h1]
    by_cases h2 : gum_module_find_export_by_name m
        (cstr (readSymbolNameFromCache cache updateKey)) = 0
    · rw [if_neg (not_not.mpr h2)]
      exact ⟨_, rfl⟩
    · rw [if_pos h2]
      have h3 : ¬ m.replace_fast (gum_module_find_export_by_name m
          (cstr (readSymbolNameFromCache cache updateKey))) = true := by
        rcases hmiss with h | h | h
        · exact absurd h h1
        · exact absurd h h2
        · simp [h]
      rw [if_neg h3]
      exact ⟨_, rfl⟩

theorem wrap64_sub (a first : Nat) (hge : a ≤ first) (h64 : first < 2 ^ 64) :
    wrap64 (wrap64 (first + 0xc) + 2 ^ 64 - a) = wrap64 (first + 0xc - a) := by
  unfold wrap64
  omega

theorem wrap64_add_wrap64 (a x : Nat) : wrap64 (a + wrap64 x) = wrap64 (a + x) := by
  unfold wrap64
  omega

theorem wrap64_lt (x : Nat) : wrap64 x < 2 ^ 64 := by
  unfold wrap64
  omega

/-! ## Cached offset, pattern search and scan tiers: claims -/

/-- C11 (as stated, refuted): the cache holds an Offset entry for the target; when the
anchor export is missing, and when the anchor resolves but the interception primitive
rejects the hook, `hookCocosEvalString` hooks no address. -/
theorem cached_offset_may_not_resolve :
    readFromCache ⟨some "ScriptEngine_evalString=offset:0x10\n".toList, true⟩ evalStringKey
      = ⟨CacheType.OFFSET, "0x10".toList⟩ ∧
    (hookCocosEvalString id (exampleModule [] true)
      ⟨some "ScriptEngine_evalString=offset:0x10\n".toList, true⟩).hooked = none ∧
    anchorAddr (exampleModule [⟨jniAnchor, 4096⟩] false) = 4096 ∧
    (hookCocosEvalString id (exampleModule [⟨jniAnchor, 4096⟩] false)
      ⟨some "ScriptEngine_evalString=offset:0x10\n".toList, true⟩).hooked = none := by
  decide

/-- C11 (amended): for every cached entry of kind Offset for the target, when the
anchor export resolves to a non-null address the cached-offset tier attempts the hook
at the anchor's address plus the cached delta (read by `strtoull` in base 16; it is `d`
when the cached text is the `0x` text of a 64-bit `d`) modulo 2^64; when the
interception primitive accepts it, that address is the one hooked, the cache file is
left as it was and neither the enumeration nor the scan runs. -/
theorem cached_offset_tier (order : SymbolMap → SymbolMap) (m : GumModule) (cache : FileSlot)
    (htype : (readFromCache cache evalStringKey).type = CacheType.OFFSET)
    (hanchor : anchorAddr m ≠ 0) :
    offsetTarget m cache =
      wrap64 (anchorAddr m + strtoull16 (cstr (readFromCache cache evalStringKey).value)) ∧
    (∀ d, d < 2 ^ 64 → (readFromCache cache evalStringKey).value = offsetStr d →
      offsetTarget m cache = wrap64 (anchorAddr m + d)) ∧
    GumCall.replace_fast (offsetTarget m cache) ∈ (hookCocosEvalString order m cache).calls ∧
    (m.replace_fast (offsetTarget m cache) = true →
      (hookCocosEvalString order m cache).hooked = some (offsetTarget m cache) ∧
      (hookCocosEvalString order m cache).cache = cache ∧
      GumCall.enumerate_exports ∉ (hookCocosEvalString order m cache).calls ∧
      ∀ base size, GumCall.memory_scan base size ∉ (hookCocosEvalString order m cache).calls) := by
  obtain ⟨hrun, hcall⟩ := hookCocosEvalString_offset order m cache htype hanchor
  refine ⟨rfl, ?_, hcall, ?_⟩
  · intro d hd hval
    unfold offsetTarget
    rw [hval, strtoull16_offsetStr d hd]
  · intro hok
    rw [hrun hok]
    simp

/-- Witness of C11 (amended): anchor at 4096, cached text "0x10", hook accepted: the
address hooked is 4112. -/
theorem cached_offset_tier_witness :
    (hookCocosEvalString id (exampleModule [⟨jniAnchor, 4096⟩] true)
      ⟨some "ScriptEngine_evalString=offset:0x10\n".toList, true⟩).hooked = some 4112 :=
  ((cached_offset_tier id (exampleModule [⟨jniAnchor, 4096⟩] true)
    ⟨some "ScriptEngine_evalString=offset:0x10\n".toList, true⟩ (by decide)
    (by decide)).2.2.2 (by decide)).1

/-- C12 (as stated, refuted): two exports match the pattern and the interception
primitive rejects the hook at the first one (4096) and accepts it at the second
(8192): the export hooked is the second, not the first whose name matches. With a
cache file that cannot be opened for writing the hook succeeds and the cache holds no
entry. -/
theorem pattern_search_skips_rejected_match :
    regexSearch updatePre updatePost "Scheduler_update_a".toList = true ∧
    (hookCocos2dxUpdate id
      (exampleModuleAt [⟨"Scheduler_update_a".toList, 4096⟩,
        ⟨"Scheduler_update_b".toList, 8192⟩] 8192) ⟨none, true⟩).hooked = some 8192 ∧
    regexSearch evalStringPre evalStringPost "ScriptEngine_evalString_a".toList = true ∧
    (hookCocosEvalString id
      (exampleModuleAt [⟨"ScriptEngine_evalString_a".toList, 4096⟩,
        ⟨"ScriptEngine_evalString_b".toList, 8192⟩] 8192) ⟨none, true⟩).hooked = some 8192 ∧
    (hookCocos2dxUpdate id (exampleModule [⟨"Scheduler_update_a".toList, 4096⟩] true)
      ⟨none, false⟩).hooked = some 4096 ∧
    readFromCache (hookCocos2dxUpdate id
      (exampleModule [⟨"Scheduler_update_a".toList, 4096⟩] true) ⟨none, false⟩).cache updateKey
      = ⟨CacheType.NONE, []⟩ := by
  decide

/-- C12 (amended): for every export table, when the pattern search runs (the cached
tiers installed nothing), the export it hooks is the first one in enumeration order
whose name matches the target's pattern and at which the interception primitive
accepts the hook; the name of that export is then saved as a Symbol entry for the
target, and the cache holds that entry when the cache file can be opened for writing
and the name is free of newlines. -/
theorem pattern_search_first_hookable (order : SymbolMap → SymbolMap)
    (hord : ∀ l, (order l).Perm l) (m : GumModule) (cache : FileSlot)
    (front back : List GumExportDetails) (d : GumExportDetails)
    (hexports : m.exports = front ++ d :: back) :
    (updateCacheMiss m cache →
      (∀ x ∈ front, hookable m updatePre updatePost x = false) →
      hookable m updatePre updatePost d = true →
      (hookCocos2dxUpdate order m cache).hooked = some d.address ∧
      (hookCocos2dxUpdate order m cache).cache
        = saveToCache order cache updateKey CacheType.SYMBOL d.name ∧
      (cache.writable = true → '\n' ∉ d.name →
        readFromCache (hookCocos2dxUpdate order m cache).cache updateKey
          = ⟨CacheType.SYMBOL, d.name⟩)) ∧
    (evalStringCacheMiss m cache →
      (∀ x ∈ front, hookable m evalStringPre evalStringPost x = false) →
      hookable m evalStringPre evalStringPost d = true →
      (hookCocosEvalString order m cache).hooked = some d.address ∧
      (hookCocosEvalString order m cache).cache
        = saveToCache order cache evalStringKey CacheType.SYMBOL d.name ∧
      (cache.writable = true → '\n' ∉ d.name →
        readFromCache (hookCocosEvalString order m cache).cache evalStringKey
          = ⟨CacheType.SYMBOL, d.name⟩)) := by
  constructor
  · intro hmiss hfront hd
    have hfind := find?_hookable_first m updatePre updatePost front back d hfront hd
    rw [← hexports] at hfind
    obtain ⟨hc, hh⟩ := enumerateExportsHook_some order m updatePre updatePost updateKey cache
      m.exports d hfind
    obtain ⟨before, hrun⟩ := hookCocos2dxUpdate_miss order m cache hmiss
    rw [hrun, HookRun.after_cache, HookRun.after_hooked, hc, hh]
    refine ⟨rfl, rfl, fun hw hnl => ?_⟩
    exact (saved_symbol_entry order hord cache hw updateKey d.name (by decide) (by decide)
      hnl).1
  · intro hmiss hfront hd
    have hfind := find?_hookable_first m evalStringPre evalStringPost front back d hfront hd
    rw [← hexports] at hfind
    obtain ⟨hc, hh⟩ := enumerateExportsHook_some order m evalStringPre evalStringPost
      evalStringKey cache m.exports d hfind
    obtain ⟨before, hrun⟩ := hookCocosEvalString_miss order m cache hmiss
    obtain ⟨hc2, hh2⟩ := evalStringSearch_hooked order m evalStringKey cache before
      d.address hh
    rw [hrun, hc2, hh2, hc]
    refine ⟨rfl, rfl, fun hw hnl => ?_⟩
    exact (saved_symbol_entry order hord cache hw evalStringKey d.name (by decide) (by decide)
      hnl).1

/-- Witness of C12 (amended): the hook is rejected at the first matching export and
accepted at the second, which is hooked and cached, for both resolvers. -/
theorem pattern_search_first_hookable_witness :
    ((hookCocos2dxUpdate id
        (exampleModuleAt [⟨"Scheduler_update_a".toList, 4096⟩,
          ⟨"Scheduler_update_b".toList, 8192⟩] 8192) ⟨none, true⟩).hooked = some 8192 ∧
      (hookCocos2dxUpdate id
        (exampleModuleAt [⟨"Scheduler_update_a".toList, 4096⟩,
          ⟨"Scheduler_update_b".toList, 8192⟩] 8192) ⟨none, true⟩).cache
        = saveToCache id ⟨none, true⟩ updateKey CacheType.SYMBOL "Scheduler_update_b".toList ∧
      ((⟨none, true⟩ : FileSlot).writable = true → '\n' ∉ "Scheduler_update_b".toList →
        readFromCache (hookCocos2dxUpdate id
          (exampleModuleAt [⟨"Scheduler_update_a".toList, 4096⟩,
            ⟨"Scheduler_update_b".toList, 8192⟩] 8192) ⟨none, true⟩).cache updateKey
          = ⟨CacheType.SYMBOL, "Scheduler_update_b".toList⟩)) ∧
    ((hookCocosEvalString id
        (exampleModuleAt [⟨"ScriptEngine_evalString_a".toList, 4096⟩,
          ⟨"ScriptEngine_evalString_b".toList, 8192⟩] 8192) ⟨none, true⟩).hooked = some 8192 ∧
      (hookCocosEvalString id
        (exampleModuleAt [⟨"ScriptEngine_evalString_a".toList, 4096⟩,
          ⟨"ScriptEngine_evalString_b".toList, 8192⟩] 8192) ⟨none, true⟩).cache
        = saveToCache id ⟨none, true⟩ evalStringKey CacheType.SYMBOL
          "ScriptEngine_evalString_b".toList ∧
      ((⟨none, true⟩ : FileSlot).writable = true → '\n' ∉ "ScriptEngine_evalString_b".toList →
        readFromCache (hookCocosEvalString id
          (exampleModuleAt [⟨"ScriptEngine_evalString_a".toList, 4096⟩,
            ⟨"ScriptEngine_evalString_b".toList, 8192⟩] 8192) ⟨none, true⟩).cache evalStringKey
          = ⟨CacheType.SYMBOL, "ScriptEngine_evalString_b".toList⟩)) :=
  ⟨(pattern_search_first_hookable id (fun l => List.Perm.refl l)
      (exampleModuleAt [⟨"Scheduler_update_a".toList, 4096⟩,
        ⟨"Scheduler_update_b".toList, 8192⟩] 8192) ⟨none, true⟩
      [⟨"Scheduler_update_a".toList, 4096⟩] [] ⟨"Scheduler_update_b".toList, 8192⟩ rfl).1
      (by decide) (by decide) (by decide),
    (pattern_search_first_hookable id (fun l => List.Perm.refl l)
      (exampleModuleAt [⟨"ScriptEngine_evalString_a".toList, 4096⟩,
        ⟨"ScriptEngine_evalString_b".toList, 8192⟩] 8192) ⟨none, true⟩
      [⟨"ScriptEngine_evalString_a".toList, 4096⟩] []
      ⟨"ScriptEngine_evalString_b".toList, 8192⟩ rfl).2
      (by decide) (by decide) (by decide)⟩

theorem scan_run (order : SymbolMap → SymbolMap) (m : GumModule) (cache : FileSlot)
    (first : GumAddress) (others : List GumAddress) (hmiss : evalStringCacheMiss m cache)
    (henum : ∀ x ∈ m.exports, hookable m evalStringPre evalStringPost x = false)
    (hanchor : anchorAddr m ≠ 0)
    (hscan : m.memory_scan (anchorAddr m) (scanSize m) = first :: others)
    (hok : m.replace_fast (wrap64 (first + 0xc)) = true) :
    (hookCocosEvalString order m cache).hooked = some (wrap64 (first + 0xc)) ∧
    (hookCocosEvalString order m cache).cache =
      saveToCache order cache evalStringKey CacheType.OFFSET
        (offsetStr (wrap64 (wrap64 (first + 0xc) + 2 ^ 64 - anchorAddr m))) := by
  have hfind : m.exports.find?
      (fun x => regexSearch evalStringPre evalStringPost x.name && m.replace_fast x.address)
        = none := by
    rw [List.find?_eq_none]
    intro x hx
    have := henum x hx
    unfold hookable at this
    simp [this]
  obtain ⟨before, hrun⟩ := hookCocosEvalString_miss order m cache hmiss
  rw [hrun]
  exact evalStringSearch_scan order m cache before first others hfind hanchor hscan hok

/-- C14: for every anchor address `a`, first scan match `first` at or after `a` (a
64-bit address) and later anchor address `a2`: the Offset value the scan tier writes
under anchor `a` is the `0x` text of (first + 0xc - a) modulo 2^64; read back from the
cache file and parsed by `strtoull` it gives that delta again, so the cached-offset
tier under anchor `a2` attempts (and, when accepted, installs) the hook at
a2 + (first + 0xc - a) modulo 2^64; and a scan under another anchor with the same
delta writes the same text. -/
theorem offset_cache_base_independent (order : SymbolMap → SymbolMap)
    (hord : ∀ l, (order l).Perm l) (m m2 : GumModule) (cache : FileSlot)
    (hw : cache.writable = true) (first : GumAddress) (others : List GumAddress)
    (hmiss : evalStringCacheMiss m cache)
    (henum : ∀ x ∈ m.exports, hookable m evalStringPre evalStringPost x = false)
    (hanchor : anchorAddr m ≠ 0)
    (hscan : m.memory_scan (anchorAddr m) (scanSize m) = first :: others)
    (hok : m.replace_fast (wrap64 (first + 0xc)) = true)
    (hge : anchorAddr m ≤ first) (h64 : first < (2 ^ 64 : Nat))
    (hanchor2 : anchorAddr m2 ≠ 0) :
    readFromCache (hookCocosEvalString order m cache).cache evalStringKey =
      ⟨CacheType.OFFSET, offsetStr (wrap64 (first + 0xc - anchorAddr m))⟩ ∧
    strtoull16 (cstr (offsetStr (wrap64 (first + 0xc - anchorAddr m))))
      = wrap64 (first + 0xc - anchorAddr m) ∧
    offsetTarget m2 (hookCocosEvalString order m cache).cache
      = wrap64 (anchorAddr m2 + (first + 0xc - anchorAddr m)) ∧
    GumCall.replace_fast (wrap64 (anchorAddr m2 + (first + 0xc - anchorAddr m))) ∈
      (hookCocosEvalString order m2 (hookCocosEvalString order m cache).cache).calls ∧
    (m2.replace_fast (wrap64 (anchorAddr m2 + (first + 0xc - anchorAddr m))) = true →
      (hookCocosEvalString order m2 (hookCocosEvalString order m cache).cache).hooked
        = some (wrap64 (anchorAddr m2 + (first + 0xc - anchorAddr m)))) ∧
    (∀ a3 first3 : GumAddress, a3 ≤ first3 → first3 < (2 ^ 64 : Nat) →
      first3 + 0xc - a3 = first + 0xc - anchorAddr m →
      offsetStr (wrap64 (wrap64 (first3 + 0xc) + 2 ^ 64 - a3))
        = offsetStr (wrap64 (wrap64 (first + 0xc) + 2 ^ 64 - anchorAddr m))) := by
  obtain ⟨_, hc⟩ := scan_run order m cache first others hmiss henum hanchor hscan hok
  have hread : readFromCache (hookCocosEvalString order m cache).cache evalStringKey =
      ⟨CacheType.OFFSET, offsetStr (wrap64 (first + 0xc - anchorAddr m))⟩ := by
    rw [hc, wrap64_sub _ _ hge h64]
    exact readFromCache_saveToCache order hord cache hw evalStringKey _ CacheType.OFFSET
      (by decide) (by decide) (offsetStr_clean _).1 (by decide)
  have hparse := strtoull16_offsetStr (wrap64 (first + 0xc - anchorAddr m)) (wrap64_lt _)
  have htarget : offsetTarget m2 (hookCocosEvalString order m cache).cache
      = wrap64 (anchorAddr m2 + (first + 0xc - anchorAddr m)) := by
    unfold offsetTarget
    rw [hread]
    simp only []
    rw [hparse, wrap64_add_wrap64]
  have htype : (readFromCache (hookCocosEvalString order m cache).cache evalStringKey).type
      = CacheType.OFFSET := by rw [hread]
  obtain ⟨hrun2, hcall2⟩ := hookCocosEvalString_offset order m2
    (hookCocosEvalString order m cache).cache htype hanchor2
  rw [htarget] at hrun2 hcall2
  refine ⟨hread, hparse, htarget, hcall2, fun hok2 => by rw [hrun2 hok2], ?_⟩
  intro a3 first3 hge3 h643 hdelta
  rw [wrap64_sub _ _ hge3 h643, wrap64_sub _ _ hge h64, hdelta]

/-- Witness of C14: the offset written under anchor 4096 for a match at 5000 is
applied under anchor 8192 and lands at 8192 + 916. -/
theorem offset_cache_base_independent_witness :
    GumCall.replace_fast (wrap64 (8192 + (5000 + 0xc - 4096))) ∈
      (hookCocosEvalString id (exampleModule [⟨jniAnchor, 8192⟩] true)
        (hookCocosEvalString id (exampleModuleScan [⟨jniAnchor, 4096⟩] true [5000, 6000])
          ⟨none, true⟩).cache).calls :=
  (offset_cache_base_independent id (fun l => List.Perm.refl l)
    (exampleModuleScan [⟨jniAnchor, 4096⟩] true [5000, 6000])
    (exampleModule [⟨jniAnchor, 8192⟩] true) ⟨none, true⟩ rfl 5000 [6000]
    (by decide) (by decide) (by decide) (by decide) (by decide) (by decide) (by decide)
    (by decide)).2.2.2.1

/-- C15: when the cache has no usable entry for the target (no cached tier installs a
hook), no export name matches the pattern, and either the anchor export is missing or
the memory scan reports no match, `hookCocosEvalString` returns with no hook installed
and the cache file unchanged. -/
theorem total_failure_leaves_no_trace (order : SymbolMap → SymbolMap) (m : GumModule)
    (cache : FileSlot) (hmiss : evalStringCacheMiss m cache)
    (hnomatch : ∀ x ∈ m.exports, regexSearch evalStringPre evalStringPost x.name = false)
    (hscan : anchorAddr m = 0 ∨ m.memory_scan (anchorAddr m) (scanSize m) = []) :
    (hookCocosEvalString order m cache).hooked = none ∧
    (hookCocosEvalString order m cache).cache = cache := by
  obtain ⟨before, hrun⟩ := hookCocosEvalString_miss order m cache hmiss
  obtain ⟨hc, hh⟩ := evalStringSearch_fail order m cache before
    (find?_none_of_no_match m evalStringPre evalStringPost m.exports hnomatch) hscan
  rw [hrun]
  exact ⟨hh, hc⟩

/-- Witness of C15: a stale Symbol entry, no matching export and no anchor: nothing is
hooked and the cache file keeps its content. -/
theorem total_failure_leaves_no_trace_witness :
    (hookCocosEvalString id (exampleModule [⟨"foo".toList, 4096⟩] true)
      ⟨some "ScriptEngine_evalString=symbol:old\n".toList, true⟩).hooked = none ∧
    (hookCocosEvalString id (exampleModule [⟨"foo".toList, 4096⟩] true)
      ⟨some "ScriptEngine_evalString=symbol:old\n".toList, true⟩).cache
      = ⟨some "ScriptEngine_evalString=symbol:old\n".toList, true⟩ :=
  total_failure_leaves_no_trace id (exampleModule [⟨"foo".toList, 4096⟩] true)
    ⟨some "ScriptEngine_evalString=symbol:old\n".toList, true⟩ (by decide) (by decide)
    (by decide)

/-! ## Request cache file: round trip, malformed records, persistence -/

theorem hooked_sendData_file_exists (file : FileSlot) (u : Indeterminate) (a : SendDataArgs)
    (hex : file.content.isSome = true) : (hooked_sendData file u a).file = file := by
  have hreplay : (replayFromFile file u a).file = file := by
    unfold replayFromFile
    simp only []
    split <;> rfl
  unfold hooked_sendData
  by_cases h : a.a2 = 1000
  · simp only [h, if_true, hex, Bool.not_true, Bool.false_eq_true, if_false]
    exact hreplay
  · simp only [h, if_false]
    split
    · exact hreplay
    · rfl

theorem interceptAll_append (file : FileSlot) (front back : List (Indeterminate × SendDataArgs)) :
    interceptAll file (front ++ back) = interceptAll (interceptAll file front) back := by
  induction front generalizing file with
  | nil => rfl
  | cons c t ih => simp [interceptAll, ih]

theorem interceptAll_exists (file : FileSlot) (calls : List (Indeterminate × SendDataArgs))
    (hex : file.content.isSome = true) : interceptAll file calls = file := by
  induction calls with
  | nil => rfl
  | cons c t ih =>
    simp only [interceptAll]
    rw [hooked_sendData_file_exists file c.1 c.2 hex]
    exact ih

theorem loadRequestFromFile_header (r req0 : CachedRequest) (u : Indeterminate) (w : Bool)
    (tail : Str) (hints : r.wellTyped) :
    (loadRequestFromFile
      ⟨some (putLine (printInt r.request_id) <| putLine (printInt r.operation_type) <|
        putLine (printInt r.a4) <| putLine (printInt r.a5) <| putLine (printInt r.a6) <|
        putLine (printInt r.a7) <| putLine (printInt r.a8) <|
        putLine (printInt (if r.record_time then 1 else 0)) tail), w⟩ req0 u).1 = true ∧
    (loadRequestFromFile
      ⟨some (putLine (printInt r.request_id) <| putLine (printInt r.operation_type) <|
        putLine (printInt r.a4) <| putLine (printInt r.a5) <| putLine (printInt r.a6) <|
        putLine (printInt r.a7) <| putLine (printInt r.a8) <|
        putLine (printInt (if r.record_time then 1 else 0)) tail), w⟩ req0 u).2.param1
      = (loadParam ⟨tail, false, false⟩ req0.param1 u.len1).1 := by
  obtain ⟨i0, i1, i2, i3, i4, i5, i6⟩ := hints
  have i7 : isInt32 (if r.record_time = true then 1 else 0) := by
    cases r.record_time <;> decide
  unfold loadRequestFromFile putLine
  simp only [extractInt_line _ i0, extractInt_next _ i1, extractInt_next _ i2,
    extractInt_next _ i3, extractInt_next _ i4, extractInt_next _ i5, extractInt_next _ i6,
    extractInt_next _ i7, ignore_cons, Bool.false_eq_true, if_false, and_self]

theorem corrupt_length_line (u : Indeterminate) :
    (loadRequestFromFile ⟨some "1000\n2\n-3\n4\n5\n6\n7\n1\nxyz\n".toList, true⟩
      (uninitRequest u) u).1 = true ∧
    (loadRequestFromFile ⟨some "1000\n2\n-3\n4\n5\n6\n7\n1\nxyz\n".toList, true⟩
      (uninitRequest u) u).2.param1 = [] := by
  have hbytes : "1000\n2\n-3\n4\n5\n6\n7\n1\nxyz\n".toList =
      (putLine (printInt (1000 : Int)) <| putLine (printInt 2) <| putLine (printInt (-3)) <|
        putLine (printInt 4) <| putLine (printInt 5) <| putLine (printInt 6) <|
        putLine (printInt 7) <| putLine (printInt (if true = true then 1 else 0))
          "xyz\n".toList) := by decide
  have h := loadRequestFromFile_header ⟨1000, 2, -3, 4, 5, 6, 7, [], [], [], true⟩
    (uninitRequest u) u true "xyz\n".toList (by decide)
  rw [hbytes]
  refine ⟨h.1, ?_⟩
  rw [h.2]
  rfl

/-- C16: for every record whose three strings are each shorter than 100000 bytes (any
bytes), with `int` fields in the range of `int`, `loadRequestFromFile` applied to the
file written by `saveRequestToFile` succeeds and returns the saved record, equal in
every field, whatever the record passed in held before. -/
theorem request_round_trip (file : FileSlot) (r req0 : CachedRequest) (u : Indeterminate)
    (hw : file.writable = true) (ht : r.wellTyped) (h1 : r.param1.length < 100000)
    (h2 : r.param2.length < 100000) (h3 : r.param3.length < 100000) :
    (saveRequestToFile file r).content = some (saveRequestBytes r) ∧
    loadRequestFromFile (saveRequestToFile file r) req0 u = (true, r) := by
  have hsave : saveRequestToFile file r = ⟨some (saveRequestBytes r), file.writable⟩ := by
    simp [saveRequestToFile, hw]
  rw [hsave]
  exact ⟨rfl, loadRequestFromFile_saved r req0 u _ ht h1 h2 h3⟩

/-- Witness of C16: a record with a negative field and strings made of digits and
newlines, over a record that held other strings. -/
theorem request_round_trip_witness :
    loadRequestFromFile
      (saveRequestToFile ⟨none, true⟩
        ⟨1000, -2, 3, 4, 5, 6, 7, "12\n34".toList, [], "\n\n".toList, false⟩)
      ⟨0, 0, 0, 0, 0, 0, 0, "old".toList, "old".toList, "old".toList, true⟩ exampleJunk
      = (true, ⟨1000, -2, 3, 4, 5, 6, 7, "12\n34".toList, [], "\n\n".toList, false⟩) :=
  (request_round_trip ⟨none, true⟩
    ⟨1000, -2, 3, 4, 5, 6, 7, "12\n34".toList, [], "\n\n".toList, false⟩
    ⟨0, 0, 0, 0, 0, 0, 0, "old".toList, "old".toList, "old".toList, true⟩ exampleJunk rfl
    (by decide) (by decide) (by decide) (by decide)).2

/-- C17 (the code at the failing inputs): the record file has a corrupt first length
field (a non-numeric line, no line at all, or a length larger than the bytes that
follow). `loadRequestFromFile` reports success in all three cases, and the call
(1000, "x", "y", "z") is not forwarded with its own strings: with the non-numeric line
the first string forwarded is a null pointer whatever the uninitialised variables
hold. -/
theorem malformed_record_loads (u : Indeterminate) :
    (loadRequestFromFile ⟨some "1000\n2\n-3\n4\n5\n6\n7\n1\nxyz\n".toList, true⟩
      (uninitRequest u) u).1 = true ∧
    (hooked_sendData ⟨some "1000\n2\n-3\n4\n5\n6\n7\n1\nxyz\n".toList, true⟩ u
      (exampleCall 1000 (some ['x']) (some ['y']) (some ['z']))).forwarded.a9 = none ∧
    (loadRequestFromFile ⟨some "1000\n2\n-3\n4\n5\n6\n7\n1\n".toList, true⟩
      (uninitRequest exampleJunk) exampleJunk).1 = true ∧
    (hooked_sendData ⟨some "1000\n2\n-3\n4\n5\n6\n7\n1\n".toList, true⟩ exampleJunk
      (exampleCall 1000 (some ['x']) (some ['y']) (some ['z']))).forwarded.a9 = some [] ∧
    (loadRequestFromFile ⟨some "1000\n2\n-3\n4\n5\n6\n7\n1\n50\nabc".toList, true⟩
      (uninitRequest exampleJunk) exampleJunk).1 = true ∧
    (hooked_sendData ⟨some "1000\n2\n-3\n4\n5\n6\n7\n1\n50\nabc".toList, true⟩ exampleJunk
      (exampleCall 1000 (some ['x']) (some ['y']) (some ['z']))).forwarded.a9
      = some "abc".toList := by
  obtain ⟨hok, hp1⟩ := corrupt_length_line u
  refine ⟨hok, ?_, by decide, by decide, by decide, by decide⟩
  rw [hooked_sendData_replays
    ⟨some "1000\n2\n-3\n4\n5\n6\n7\n1\nxyz\n".toList, true⟩ u _ rfl (Or.inl rfl)]
  unfold replayFromFile
  simp only [hok, hp1, if_true]
  rfl

/-- C18: for every sequence of intercepted calls, once the record file for id 1000
exists (after any calls `front`), no later call to `hooked_sendData`, whatever its id
and strings, changes the file: a single further call leaves it as it is, and so does
every further sequence `back`. -/
theorem record_never_rewritten (file : FileSlot)
    (front back : List (Indeterminate × SendDataArgs))
    (hex : (interceptAll file front).content.isSome = true) :
    (∀ u a, (hooked_sendData (interceptAll file front) u a).file = interceptAll file front) ∧
    interceptAll file (front ++ back) = interceptAll file front := by
  refine ⟨fun u a => hooked_sendData_file_exists _ u a hex, ?_⟩
  rw [interceptAll_append]
  exact interceptAll_exists _ back hex

/-- Witness of C18: after the capture of (1000, "a", "b", "c"), a call with id 1000, a
call with the three markers and a call with neither leave the file as the capture
wrote it. -/
theorem record_never_rewritten_witness :
    interceptAll ⟨none, true⟩
      ([(exampleJunk, exampleCall 1000 (some ['a']) (some ['b']) (some ['c']))] ++
        [(exampleJunk, exampleCall 1000 (some ['x']) (some ['y']) (some ['z'])),
          (exampleJunk, exampleCall 7 (some "uid,money,gold".toList) none none),
          (exampleJunk, exampleCall 8 (some ['q']) none none)])
      = interceptAll ⟨none, true⟩
        [(exampleJunk, exampleCall 1000 (some ['a']) (some ['b']) (some ['c']))] :=
  (record_never_rewritten ⟨none, true⟩
    [(exampleJunk, exampleCall 1000 (some ['a']) (some ['b']) (some ['c']))]
    [(exampleJunk, exampleCall 1000 (some ['x']) (some ['y']) (some ['z'])),
      (exampleJunk, exampleCall 7 (some "uid,money,gold".toList) none none),
      (exampleJunk, exampleCall 8 (some ['q']) none none)] (by decide)).2

/-! ## Modified-state flag file -/

theorem scanModified_eq (lines : List Str) (flags : Bool × Bool) :
    scanModified lines flags =
      (flags.1 || lines.any (fun line => contains line moneyMark),
        flags.2 || lines.any (fun line => contains line goldMark)) := by
  induction lines generalizing flags with
  | nil => simp [scanModified]
  | cons line rest ih =>
    simp only [scanModified, ih, List.any_cons]
    cases flags.1 <;> cases flags.2 <;> cases contains line moneyMark <;>
      cases contains line goldMark <;> simp

theorem scanMark_eq (mark : Str) (lines : List Str) (already : Bool) :
    scanMark mark lines already = (already || lines.any (fun line => contains line mark)) := by
  induction lines generalizing already with
  | nil => simp [scanMark]
  | cons line rest ih =>
    simp only [scanMark, ih, List.any_cons]
    cases already <;> cases contains line mark <;> simp

theorem isCurrencyModified_eq (state : FileSlot) :
    isCurrencyModified state = (flagRecorded moneyMark state && flagRecorded goldMark state) := by
  unfold isCurrencyModified flagRecorded
  cases state.content with
  | none => rfl
  | some s => simp [scanModified_eq]

theorem markMoneyModified_writable (state : FileSlot) (hw : state.writable = true) :
    markMoneyModified state =
      ⟨some (moneyMark ++ '\n' ::
        (if flagRecorded goldMark state = true then goldMark ++ ['\n'] else [])), true⟩ := by
  unfold markMoneyModified flagRecorded
  cases hc : state.content with
  | none => simp [hw]
  | some s => simp [hw, scanMark_eq]

theorem markGoldModified_writable (state : FileSlot) (hw : state.writable = true) :
    markGoldModified state =
      ⟨some ((if flagRecorded moneyMark state = true then moneyMark ++ ['\n'] else []) ++
        (goldMark ++ ['\n'])), true⟩ := by
  unfold markGoldModified flagRecorded
  cases hc : state.content with
  | none => simp [hw]
  | some s => simp [hw, scanMark_eq]

/-- C19: for every flag-file content, `isCurrencyModified` returns true if and only if
the file opens and both flags are recorded (some line contains "money=1" and some line
contains "gold=1"); with a missing file, or with one of the flags not recorded, it
returns false. -/
theorem isCurrencyModified_iff (state : FileSlot) :
    (isCurrencyModified state = true ↔
      ∃ s, state.content = some s ∧
        (∃ line ∈ getlines s, contains line moneyMark = true) ∧
        (∃ line ∈ getlines s, contains line goldMark = true)) ∧
    (state.content = none → isCurrencyModified state = false) ∧
    (flagRecorded moneyMark state = false → isCurrencyModified state = false) ∧
    (flagRecorded goldMark state = false → isCurrencyModified state = false) := by
  refine ⟨?_, ?_, ?_, ?_⟩
  · rw [isCurrencyModified_eq]
    unfold flagRecorded
    cases state.content with
    | none => simp
    | some s => simp [List.any_eq_true]
  · intro h
    simp [isCurrencyModified, h]
  · intro h
    simp [isCurrencyModified_eq, h]
  · intro h
    simp [isCurrencyModified_eq, h]

/-- C20 (as stated, refuted): on a flag file that cannot be opened for writing
`markMoneyModified` leaves the money flag unset, `markGoldModified` leaves the gold flag
unset, and after both `isCurrencyModified` returns false. -/
theorem flag_write_unwritable :
    flagRecorded moneyMark (markMoneyModified ⟨none, false⟩) = false ∧
    flagRecorded goldMark (markGoldModified ⟨none, false⟩) = false ∧
    isCurrencyModified (markGoldModified (markMoneyModified ⟨none, false⟩)) = false ∧
    isCurrencyModified (markMoneyModified (markGoldModified ⟨none, false⟩)) = false := by
  decide

/-- C20 (amended): for every flag-file state that can be opened for writing,
`markMoneyModified` leaves the money flag set and the gold flag set exactly when it was
set before, and `markGoldModified` leaves the gold flag set and the money flag set
exactly when it was set before; hence after both have run, in either order,
`isCurrencyModified` returns true. -/
theorem flag_writes_merge (state : FileSlot) (hw : state.writable = true) :
    flagRecorded moneyMark (markMoneyModified state) = true ∧
    flagRecorded goldMark (markMoneyModified state) = flagRecorded goldMark state ∧
    flagRecorded goldMark (markGoldModified state) = true ∧
    flagRecorded moneyMark (markGoldModified state) = flagRecorded moneyMark state ∧
    isCurrencyModified (markGoldModified (markMoneyModified state)) = true ∧
    isCurrencyModified (markMoneyModified (markGoldModified state)) = true := by
  have hm := markMoneyModified_writable state hw
  have hg := markGoldModified_writable state hw
  have hm2 := markMoneyModified_writable (markGoldModified state) (by rw [hg])
  have hg2 := markGoldModified_writable (markMoneyModified state) (by rw [hm])
  rw [isCurrencyModified_eq, isCurrencyModified_eq, hg2, hm2]
  rw [hm, hg]
  cases flagRecorded goldMark state <;> cases flagRecorded moneyMark state <;> decide

/-- Witness of C20 (amended): from a file holding only the gold flag, marking money
keeps gold, and both orders end with both flags set. -/
theorem flag_writes_merge_witness :
    flagRecorded moneyMark (markMoneyModified ⟨some "gold=1\n".toList, true⟩) = true ∧
    flagRecorded goldMark (markMoneyModified ⟨some "gold=1\n".toList, true⟩)
      = flagRecorded goldMark ⟨some "gold=1\n".toList, true⟩ ∧
    flagRecorded goldMark (markGoldModified ⟨some "gold=1\n".toList, true⟩) = true ∧
    flagRecorded moneyMark (markGoldModified ⟨some "gold=1\n".toList, true⟩)
      = flagRecorded moneyMark ⟨some "gold=1\n".toList, true⟩ ∧
    isCurrencyModified (markGoldModified (markMoneyModified ⟨some "gold=1\n".toList, true⟩))
      = true ∧
    isCurrencyModified (markMoneyModified (markGoldModified ⟨some "gold=1\n".toList, true⟩))
      = true :=
  flag_writes_merge ⟨some "gold=1\n".toList, true⟩ rfl

/-! ## JSON handle tracker: size ceiling and disposal -/

theorem hooked_json_create_entry (m : JsonMap) (o : Nat) (js : Option Str) (h : Nat) (v : Str)
    (hv : (hooked_json_create m o js).2 h = some v) :
    m h = some v ∨ (h = o ∧ js = some v ∧ v.length < 50000) := by
  unfold hooked_json_create at hv
  cases js with
  | none => exact Or.inl hv
  | some s =>
    simp only [strnlen] at hv
    by_cases h1 : o ≠ 0
    · rw [if_pos h1] at hv
      by_cases h2 : 0 < min s.length 50000 ∧ min s.length 50000 < 50000
      · rw [if_pos h2] at hv
        by_cases e : h = o
        · simp only [e, if_true, Option.some.injEq] at hv
          have hlen : s.length < 50000 := by omega
          have hmin : min s.length 50000 = s.length := by omega
          rw [hmin, List.take_length] at hv
          subst hv
          exact Or.inr ⟨e, rfl, hlen⟩
        · simp only [e, if_false] at hv
          exact Or.inl hv
      · rw [if_neg h2] at hv
        exact Or.inl hv
    · rw [if_neg h1] at hv
      exact Or.inl hv

theorem hooked_json_dispose_entry (m : JsonMap) (o h : Nat) (v : Str)
    (hv : hooked_json_dispose m o h = some v) : m h = some v := by
  unfold hooked_json_dispose at hv
  cases hm : m o with
  | none =>
    rw [hm] at hv
    exact hv
  | some t =>
    rw [hm] at hv
    by_cases e : h = o
    · simp [e] at hv
    · simpa [e] using hv

theorem runJsonOps_entry (ops : List JsonOp) (m0 : JsonMap) (h : Nat) (v : Str)
    (hv : runJsonOps m0 ops h = some v) :
    m0 h = some v ∨ (v.length < 50000 ∧ JsonOp.create h (some v) ∈ ops) := by
  induction ops generalizing m0 with
  | nil => exact Or.inl hv
  | cons op rest ih =>
    rcases ih (JsonOp.apply m0 op) hv with h1 | ⟨h1, h2⟩
    · cases op with
      | create o js =>
        rcases hooked_json_create_entry m0 o js h v h1 with h3 | ⟨rfl, rfl, h5⟩
        · exact Or.inl h3
        · exact Or.inr ⟨h5, by simp⟩
      | dispose o => exact Or.inl (hooked_json_dispose_entry m0 o h v h1)
    · exact Or.inr ⟨h1, by simp [h2]⟩

/-- C21: a text of 50000 bytes or more leaves the handle map as it was, and in every
state reached from the empty map by create and dispose events each stored value is
shorter than 50000 bytes and is the complete text of a create event for that handle. -/
theorem json_size_ceiling (m : JsonMap) (json_object : Nat) (text : Str) (ops : List JsonOp) :
    (50000 ≤ text.length → (hooked_json_create m json_object (some text)).2 = m) ∧
    ∀ h v, runJsonOps JsonMap.empty ops h = some v →
      v.length < 50000 ∧ JsonOp.create h (some v) ∈ ops := by
  refine ⟨fun hlen => ?_, fun h v hv => ?_⟩
  · unfold hooked_json_create
    simp only [strnlen]
    have h2 : ¬ (0 < min text.length 50000 ∧ min text.length 50000 < 50000) := by omega
    rw [if_neg h2]
    split <;> rfl
  · rcases runJsonOps_entry ops JsonMap.empty h v hv with h1 | h1
    · simp [JsonMap.empty] at h1
    · exact h1

/-- Witness of C21: a text of 100000 bytes is not tracked; after creating handles 1
and 2 and disposing 2, the value of handle 1 is the text of its create event. -/
theorem json_size_ceiling_witness :
    (hooked_json_create JsonMap.empty 1 (some longText)).2 = JsonMap.empty ∧
    ("{}".toList.length < 50000 ∧
      JsonOp.create 1 (some "{}".toList) ∈
        [JsonOp.create 1 (some "{}".toList), JsonOp.create 2 (some "[]".toList),
          JsonOp.dispose 2]) :=
  ⟨(json_size_ceiling JsonMap.empty 1 longText []).1
      (by rw [longText, List.length_replicate]; decide),
    (json_size_ceiling JsonMap.empty 1 []
      [JsonOp.create 1 (some "{}".toList), JsonOp.create 2 (some "[]".toList),
        JsonOp.dispose 2]).2 1 "{}".toList rfl⟩

/-- C22: disposing a handle that has no entry leaves the map as it was, disposing a
handle twice gives the map of disposing it once, and disposing a handle leaves the
entry of every other handle as it was. -/
theorem json_dispose_idempotent_local (m : JsonMap) (h : Nat) :
    (m h = none → hooked_json_dispose m h = m) ∧
    hooked_json_dispose (hooked_json_dispose m h) h = hooked_json_dispose m h ∧
    ∀ other, other ≠ h → hooked_json_dispose m h other = m other := by
  have habsent : ∀ n : JsonMap, n h = none → hooked_json_dispose n h = n := by
    intro n hn
    unfold hooked_json_dispose
    rw [hn]
  have hgone : hooked_json_dispose m h h = none := by
    unfold hooked_json_dispose
    cases hm : m h with
    | none => exact hm
    | some t => simp
  refine ⟨habsent m, habsent _ hgone, fun other hne => ?_⟩
  unfold hooked_json_dispose
  cases hm : m h with
  | none => rfl
  | some t => simp [hne]

/-- Witness of C22: handle 5 is disposed on the empty map, and handle 5 is disposed
while handle 6 is tracked. -/
theorem json_dispose_idempotent_local_witness :
    hooked_json_dispose JsonMap.empty 5 = JsonMap.empty ∧
    hooked_json_dispose (hooked_json_create JsonMap.empty 6 (some "{}".toList)).2 5 6
      = (hooked_json_create JsonMap.empty 6 (some "{}".toList)).2 6 :=
  ⟨(json_dispose_idempotent_local JsonMap.empty 5).1 rfl,
    (json_dispose_idempotent_local (hooked_json_create JsonMap.empty 6 (some "{}".toList)).2
      5).2.2 6 (by decide)⟩

/-! ## Dispatch -/

/-- C23: for the Unknown engine `dispatchHook` makes no service call, installs nothing
and leaves the cache file; for Cocos2d-x (C++) its calls are those of
`hookCocos2dxUpdate` followed by those of `hookNetworkFunctions`, whatever the first
hooked; and `hookNetworkFunctions` attempts the six fixed-offset installs in the
order sendData, onHttpRequestCompleted, parseJson, Json_create, updateMoney,
updateGold, whatever the interception primitive answers at any address. -/
theorem dispatch_steps_independent (order : SymbolMap → SymbolMap) (m : GumModule)
    (cache : FileSlot) :
    (dispatchHook order GameEngine.UNKNOWN m cache).calls = [] ∧
    (dispatchHook order GameEngine.UNKNOWN m cache).installed = [] ∧
    (dispatchHook order GameEngine.UNKNOWN m cache).cache = cache ∧
    (dispatchHook order GameEngine.COCOS2D_CPP m cache).calls =
      (hookCocos2dxUpdate order m cache).calls ++ (hookNetworkFunctions m).calls ∧
    (([0x3b51dc, 0x3bafa4, 0x3b6e74, 0x62ad8c, 0x3880c0, 0x38813c] : List Nat).map
      (fun offset => GumCall.replace_fast (wrap64 (m.base_address + offset)))).Sublist
        (hookNetworkFunctions m).calls ∧
    ∀ other : GumModule, other.exports = m.exports → other.base_address = m.base_address →
      (hookNetworkFunctions other).calls = (hookNetworkFunctions m).calls := by
  refine ⟨rfl, rfl, rfl, rfl, ?_, ?_⟩
  · unfold hookNetworkFunctions
    simp only [List.map_cons, List.map_nil, List.cons_append, List.nil_append]
    refine List.Sublist.cons₂ _ (List.Sublist.cons₂ _ (List.Sublist.cons₂ _
      (List.Sublist.cons₂ _ (List.Sublist.cons _ ?_))))
    exact List.sublist_append_right _ _
  · intro other he hb
    unfold hookNetworkFunctions
    simp only [he, hb]

/-- Witness of C23: a module based at 0 whose interception primitive rejects every
hook; the six fixed-offset installs are all attempted, in order. -/
theorem dispatch_steps_independent_witness :
    [GumCall.replace_fast 0x3b51dc, GumCall.replace_fast 0x3bafa4,
      GumCall.replace_fast 0x3b6e74, GumCall.replace_fast 0x62ad8c,
      GumCall.replace_fast 0x3880c0, GumCall.replace_fast 0x38813c].Sublist
        (hookNetworkFunctions (exampleModule [] false)).calls ∧
    (dispatchHook id GameEngine.COCOS2D_CPP (exampleModule [] false) ⟨none, true⟩).calls =
      (hookCocos2dxUpdate id (exampleModule [] false) ⟨none, true⟩).calls ++
        (hookNetworkFunctions (exampleModule [] false)).calls :=
  ⟨(dispatch_steps_independent id (exampleModule [] false) ⟨none, true⟩).2.2.2.2.1,
    (dispatch_steps_independent id (exampleModule [] false) ⟨none, true⟩).2.2.2.1⟩

/-! ## The `sendData` hook: frame properties -/

/-- C27: for every intercepted call and every state of the request cache file, the
receiver, the request id, the operation type, the five integers and the record-time
flag forwarded to the original function are those of the incoming call; only the three
strings can differ. -/
theorem replay_substitutes_strings_only (file : FileSlot) (u : Indeterminate)
    (a : SendDataArgs) :
    (hooked_sendData file u a).forwarded.curl_http = a.curl_http ∧
    (hooked_sendData file u a).forwarded.a2 = a.a2 ∧
    (hooked_sendData file u a).forwarded.a3 = a.a3 ∧
    (hooked_sendData file u a).forwarded.a4 = a.a4 ∧
    (hooked_sendData file u a).forwarded.a5 = a.a5 ∧
    (hooked_sendData file u a).forwarded.a6 = a.a6 ∧
    (hooked_sendData file u a).forwarded.a7 = a.a7 ∧
    (hooked_sendData file u a).forwarded.a8 = a.a8 ∧
    (hooked_sendData file u a).forwarded.a12 = a.a12 := by
  have hreplay : ∀ f : FileSlot, (replayFromFile f u a).forwarded = a ∨
      ∃ x y z, (replayFromFile f u a).forwarded = a.withStrings x y z := by
    intro f
    unfold replayFromFile
    simp only []
    split
    · exact Or.inr ⟨_, _, _, rfl⟩
    · exact Or.inl rfl
  have hrun : (hooked_sendData file u a).forwarded = a ∨
      ∃ x y z, (hooked_sendData file u a).forwarded = a.withStrings x y z := by
    unfold hooked_sendData
    simp only []
    split
    · split
      · exact Or.inl rfl
      · exact hreplay file
    · split
      · exact hreplay file
      · exact Or.inl rfl
  rcases hrun with h | ⟨x, y, z, h⟩
  · rw [h]
    exact ⟨rfl, rfl, rfl, rfl, rfl, rfl, rfl, rfl, rfl⟩
  · rw [h]
    exact ⟨rfl, rfl, rfl, rfl, rfl, rfl, rfl, rfl, rfl⟩

/-- Witness of C27: the record captured from a call with receiver 1, operation type 2,
integers -3, 4, 5, 6, 7 and the flag set is replayed into a call with other scalars; the
first string is replaced and every scalar forwarded is that of the incoming call. -/
theorem replay_substitutes_strings_only_witness :
    (hooked_sendData
        ⟨some (saveRequestBytes
          (capturedRequest (exampleCall 1000 (some ['a']) (some ['b']) (some ['c'])))), true⟩
        exampleJunk
        ⟨9, 7, 20, 30, 40, 50, 60, 70, some "uid,money,gold".toList, none, none,
          false⟩).forwarded
      = ⟨9, 7, 20, 30, 40, 50, 60, 70, some ['a'], some ['b'], some ['c'], false⟩ ∧
    (hooked_sendData
        ⟨some (saveRequestBytes
          (capturedRequest (exampleCall 1000 (some ['a']) (some ['b']) (some ['c'])))), true⟩
        exampleJunk
        ⟨9, 7, 20, 30, 40, 50, 60, 70, some "uid,money,gold".toList, none, none,
          false⟩).forwarded.a12 = false :=
  ⟨by decide,
    (replay_substitutes_strings_only
      ⟨some (saveRequestBytes
        (capturedRequest (exampleCall 1000 (some ['a']) (some ['b']) (some ['c'])))), true⟩
      exampleJunk
      ⟨9, 7, 20, 30, 40, 50, 60, 70, some "uid,money,gold".toList, none, none,
        false⟩).2.2.2.2.2.2.2.2⟩

/-- C28: a call whose id is not 1000 and whose first string is null or lacks one of
"uid", "money", "gold" is forwarded with exactly its own arguments, and the request
cache file is left as it was, whatever it holds; the outcome does not depend on the
file. -/
theorem nonmatching_call_passes_through (file : FileSlot) (u : Indeterminate)
    (a : SendDataArgs) (hid : a.a2 ≠ 1000)
    (hkey : a.a9 = none ∨ ∃ s, a.a9 = some s ∧ (contains s "uid".toList = false ∨
      contains s "money".toList = false ∨ contains s "gold".toList = false)) :
    hooked_sendData file u a = ⟨file, a, false⟩ ∧
    ∀ (other : FileSlot) (v : Indeterminate),
      (hooked_sendData other v a).forwarded = (hooked_sendData file u a).forwarded := by
  have hk : has_key_fields a.a9 = false := by
    rcases hkey with h | ⟨s, hs, h⟩
    · rw [h]
      rfl
    · rw [hs]
      simp only [has_key_fields]
      rcases h with h | h | h
      · rw [h]
        rfl
      · rw [h, Bool.and_false]
        rfl
      · rw [h, Bool.and_false]
  have hrun : ∀ (f : FileSlot) (v : Indeterminate), hooked_sendData f v a = ⟨f, a, false⟩ := by
    intro f v
    unfold hooked_sendData
    simp [hid, hk]
  exact ⟨hrun file u, fun other v => by rw [hrun other v, hrun file u]⟩

/-- Witness of C28: a call with id 7 and first string "uid,money" while the file
holds a record. -/
theorem nonmatching_call_passes_through_witness :
    hooked_sendData
        ⟨some (saveRequestBytes
          (capturedRequest (exampleCall 1000 (some ['a']) (some ['b']) (some ['c'])))), true⟩
        exampleJunk (exampleCall 7 (some "uid,money".toList) (some ['y']) none)
      = ⟨⟨some (saveRequestBytes
          (capturedRequest (exampleCall 1000 (some ['a']) (some ['b']) (some ['c'])))), true⟩,
        exampleCall 7 (some "uid,money".toList) (some ['y']) none, false⟩ :=
  (nonmatching_call_passes_through _ exampleJunk
    (exampleCall 7 (some "uid,money".toList) (some ['y']) none) (by decide)
    (Or.inr ⟨"uid,money".toList, rfl, Or.inr (Or.inr (by decide))⟩)).1

/-! ## Symbol cache file: reads and merges -/

theorem readFromCacheLines_cons (k line : Str) (rest : List Str) :
    readFromCacheLines k (line :: rest) =
      match keyedEntry k line with
      | some e => e
      | none => readFromCacheLines k rest := by
  unfold keyedEntry lineKey lineData
  cases hf : findChar '=' line with
  | none => simp [readFromCacheLines, hf]
  | some pos =>
    by_cases hk : line.take pos = k
    · simp only [readFromCacheLines, hf, hk, if_true, Option.map_some', Option.some_bind]
      unfold entryOfData
      cases hc : findChar ':' (line.drop (pos + 1)) with
      | none => simp
      | some cp => simp
    · simp [readFromCacheLines, hf, hk]

theorem readFromCacheLines_no_entry (k : Str) (lines : List Str)
    (h : ∀ l ∈ lines, keyedEntry k l = none) :
    readFromCacheLines k lines = ⟨CacheType.NONE, []⟩ := by
  induction lines with
  | nil => rfl
  | cons l t ih =>
    rw [readFromCacheLines_cons, h l (by simp)]
    exact ih (fun x hx => h x (by simp [hx]))

theorem readFromCacheLines_first (k : Str) (front : List Str) (l : Str) (back : List Str)
    (e : CacheEntry) (hfront : ∀ x ∈ front, keyedEntry k x = none)
    (hl : keyedEntry k l = some e) :
    readFromCacheLines k (front ++ l :: back) = e := by
  induction front with
  | nil =>
    rw [List.nil_append, readFromCacheLines_cons, hl]
  | cons x t ih =>
    rw [List.cons_append, readFromCacheLines_cons, hfront x (by simp)]
    exact ih (fun y hy => hfront y (by simp [hy]))

theorem keyedEntry_of_lineKey_ne (k l : Str) (h : lineKey l ≠ some k) :
    keyedEntry k l = none := by
  unfold keyedEntry
  rw [if_neg h]

/-- C24 (as stated, refuted): in the file "k=junk", "k=symbol:v" the first line whose
key is "k" is "k=junk", which holds no entry; `readFromCache` does not answer "not
found" but returns the entry of the second line. -/
theorem readFromCache_skips_line_without_colon :
    (getlines "k=junk\nk=symbol:v\n".toList).find? (fun l => decide (lineKey l = some ['k']))
      = some "k=junk".toList ∧
    keyedEntry ['k'] "k=junk".toList = none ∧
    readFromCache ⟨some "k=junk\nk=symbol:v\n".toList, true⟩ ['k']
      = ⟨CacheType.SYMBOL, ['v']⟩ := by
  decide

/-- C24 (amended): for every cache file content and every key, `readFromCache`
returns the entry given by the first line, scanning top to bottom, whose key (the text
before its first `=`) equals the requested key exactly and whose text after that `=`
contains a `:`; it returns "not found" (kind NONE, empty value) when there is no such
line, in particular when no line has that key, or when the file is missing. -/
theorem readFromCache_first_match (cache : FileSlot) (cache_key : Str) :
    (cache.content = none → readFromCache cache cache_key = ⟨CacheType.NONE, []⟩) ∧
    ∀ s, cache.content = some s →
      (∀ front l back e, getlines s = front ++ l :: back →
        (∀ x ∈ front, keyedEntry cache_key x = none) → keyedEntry cache_key l = some e →
        readFromCache cache cache_key = e) ∧
      ((∀ l ∈ getlines s, keyedEntry cache_key l = none) →
        readFromCache cache cache_key = ⟨CacheType.NONE, []⟩) ∧
      ((∀ l ∈ getlines s, lineKey l ≠ some cache_key) →
        readFromCache cache cache_key = ⟨CacheType.NONE, []⟩) := by
  refine ⟨fun hnone => ?_, fun s hs => ⟨?_, ?_, ?_⟩⟩
  · simp [readFromCache, hnone]
  · intro front l back e hlines hfront hl
    simp only [readFromCache, hs, hlines]
    exact readFromCacheLines_first cache_key front l back e hfront hl
  · intro hno
    simp only [readFromCache, hs]
    exact readFromCacheLines_no_entry cache_key _ hno
  · intro hno
    simp only [readFromCache, hs]
    exact readFromCacheLines_no_entry cache_key _
      (fun l hl => keyedEntry_of_lineKey_ne cache_key l (hno l hl))

/-- Witness of C24 (amended): in the file "j=symbol:u", "k=junk", "k=offset:0x10",
"k=symbol:v" the key "k" reads as the Offset entry of the third line. -/
theorem readFromCache_first_match_witness :
    readFromCache ⟨some "j=symbol:u\nk=junk\nk=offset:0x10\nk=symbol:v\n".toList, true⟩ ['k']
      = ⟨CacheType.OFFSET, "0x10".toList⟩ :=
  ((readFromCache_first_match
      ⟨some "j=symbol:u\nk=junk\nk=offset:0x10\nk=symbol:v\n".toList, true⟩ ['k']).2
    _ rfl).1 ["j=symbol:u".toList, "k=junk".toList] "k=offset:0x10".toList
      ["k=symbol:v".toList] ⟨CacheType.OFFSET, "0x10".toList⟩ (by decide) (by decide)
      (by decide)

theorem SymbolMap.mem_assign_of_ne (key data : Str) (m : SymbolMap) (k d : Str)
    (hne : k ≠ key) (h : (k, d) ∈ m) : (k, d) ∈ SymbolMap.assign key data m := by
  induction m with
  | nil => simp at h
  | cons x t ih =>
    obtain ⟨k1, v1⟩ := x
    by_cases hk : k1 = key
    · simp only [SymbolMap.assign, hk, if_true, List.mem_cons, Prod.mk.injEq]
      simp only [List.mem_cons, Prod.mk.injEq] at h
      rcases h with ⟨h, _⟩ | h
      · exact absurd (h.trans hk) hne
      · exact Or.inr h
    · simp only [SymbolMap.assign, hk, if_false, List.mem_cons]
      simp only [List.mem_cons] at h
      rcases h with h | h
      · exact Or.inl h
      · exact Or.inr (ih h)

theorem SymbolMap.mem_assign_iff_of_ne (key data : Str) (m : SymbolMap) (k d : Str)
    (hne : k ≠ key) : (k, d) ∈ SymbolMap.assign key data m ↔ (k, d) ∈ m := by
  constructor
  · intro h
    rcases SymbolMap.assign_mem key data m (k, d) h with h | h
    · exact absurd (congrArg Prod.fst h) hne
    · exact h
  · exact SymbolMap.mem_assign_of_ne key data m k d hne

theorem loadSymbols_other_keys (k : Str) (lines : List Str) (m0 : SymbolMap)
    (hno : ∀ l ∈ lines, lineKey l ≠ some k) (d : Str) :
    (k, d) ∈ loadSymbols lines m0 ↔ (k, d) ∈ m0 := by
  induction lines generalizing m0 with
  | nil => simp [loadSymbols]
  | cons l t ih =>
    have hl := hno l (by simp)
    have ht : ∀ x ∈ t, lineKey x ≠ some k := fun x hx => hno x (by simp [hx])
    cases hf : findChar '=' l with
    | none =>
      simp only [loadSymbols, hf]
      exact ih m0 ht
    | some pos =>
      have hk : k ≠ l.take pos := by
        intro e
        apply hl
        simp [lineKey, hf, e]
      simp only [loadSymbols, hf]
      rw [ih _ ht]
      exact SymbolMap.mem_assign_iff_of_ne _ _ m0 k d hk

theorem read_load_agree (k : Str) (lines : List Str) (m0 : SymbolMap)
    (hm0 : k ∉ m0.map Prod.fst)
    (hone : (lines.filter (fun l => decide (lineKey l = some k))).length ≤ 1) :
    ∃ od : Option Str,
      readFromCacheLines k lines = (od.bind entryOfData).getD ⟨CacheType.NONE, []⟩ ∧
      ∀ d, (k, d) ∈ loadSymbols lines m0 ↔ od = some d := by
  induction lines generalizing m0 with
  | nil =>
    refine ⟨none, rfl, fun d => ?_⟩
    simp only [loadSymbols]
    constructor
    · intro h
      exact absurd (List.mem_map_of_mem Prod.fst h) hm0
    · intro h
      simp at h
  | cons l t ih =>
    cases hf : findChar '=' l with
    | none =>
      have hkey : lineKey l ≠ some k := by simp [lineKey, hf]
      have hone2 : (t.filter (fun l => decide (lineKey l = some k))).length ≤ 1 := by
        simpa [List.filter_cons, hkey] using hone
      obtain ⟨od, h1, h2⟩ := ih m0 hm0 hone2
      refine ⟨od, ?_, ?_⟩
      · rw [readFromCacheLines_cons, keyedEntry_of_lineKey_ne k l hkey]
        exact h1
      · simpa only [loadSymbols, hf] using h2
    | some pos =>
      by_cases hk : l.take pos = k
      · have hkey : lineKey l = some k := by simp [lineKey, hf, hk]
        have hnone : ∀ x ∈ t, lineKey x ≠ some k := by
          intro x hx e
          have hlen : (t.filter (fun l => decide (lineKey l = some k))).length = 0 := by
            simp only [List.filter_cons, hkey, decide_True, if_true, List.length_cons] at hone
            omega
          have hmem : x ∈ t.filter (fun l => decide (lineKey l = some k)) := by
            simp [List.mem_filter, hx, e]
          rw [List.length_eq_zero] at hlen
          rw [hlen] at hmem
          simp at hmem
        refine ⟨some (l.drop (pos + 1)), ?_, fun d => ?_⟩
        · rw [readFromCacheLines_cons]
          have hke : keyedEntry k l = entryOfData (l.drop (pos + 1)) := by
            simp [keyedEntry, hkey, lineData, hf]
          rw [hke]
          cases he : entryOfData (l.drop (pos + 1)) with
          | none =>
            simp only [Option.some_bind, he, Option.getD_none]
            exact readFromCacheLines_no_entry k t
              (fun x hx => keyedEntry_of_lineKey_ne k x (hnone x hx))
          | some e => simp [he]
        · simp only [loadSymbols, hf, hk]
          rw [loadSymbols_other_keys k t _ hnone d]
          constructor
          · intro h
            rcases SymbolMap.assign_mem _ _ m0 _ h with h | h
            · simp only [Prod.mk.injEq, true_and] at h
              rw [h]
            · exact absurd (List.mem_map_of_mem Prod.fst h) hm0
          · intro h
            simp only [Option.some.injEq] at h
            rw [← h]
            exact SymbolMap.mem_assign_self _ _ _
      · have hkey : lineKey l ≠ some k := by simp [lineKey, hf, hk]
        have hone2 : (t.filter (fun l => decide (lineKey l = some k))).length ≤ 1 := by
          simpa [List.filter_cons, hkey] using hone
        have hm1 : k ∉ (SymbolMap.assign (l.take pos) (l.drop (pos + 1)) m0).map Prod.fst := by
          rw [SymbolMap.assign_keys_mem]
          rintro (e | e)
          · exact hk e.symm
          · exact hm0 e
        obtain ⟨od, h1, h2⟩ := ih _ hm1 hone2
        refine ⟨od, ?_, ?_⟩
        · rw [readFromCacheLines_cons, keyedEntry_of_lineKey_ne k l hkey]
          exact h1
        · simpa only [loadSymbols, hf] using h2

theorem keyedEntry_render (k k1 v1 : Str) (h : '=' ∉ k1) :
    keyedEntry k (k1 ++ '=' :: v1) = if k1 = k then entryOfData v1 else none := by
  unfold keyedEntry lineData
  rw [lineKey_render k1 v1 h, findChar_append_cons '=' k1 v1 h]
  by_cases hk : k1 = k
  · simp [hk, drop_length_succ_append]
  · simp [hk]

theorem readFromCacheLines_render_absent (m : SymbolMap) (hm : m.WF) (k : Str)
    (hk : k ∉ m.map Prod.fst) :
    readFromCacheLines k (m.map (fun kv => kv.1 ++ '=' :: kv.2)) = ⟨CacheType.NONE, []⟩ := by
  apply readFromCacheLines_no_entry
  intro l hl
  simp only [List.mem_map] at hl
  obtain ⟨kv, hkv, rfl⟩ := hl
  rw [keyedEntry_render k kv.1 kv.2 (hm.2 kv hkv).1]
  have hne : kv.1 ≠ k := fun e => hk (e ▸ List.mem_map_of_mem Prod.fst hkv)
  rw [if_neg hne]

theorem readFromCacheLines_render_getD (m : SymbolMap) (hm : m.WF) (k d : Str)
    (hmem : (k, d) ∈ m) :
    readFromCacheLines k (m.map (fun kv => kv.1 ++ '=' :: kv.2))
      = (entryOfData d).getD ⟨CacheType.NONE, []⟩ := by
  induction m with
  | nil => simp at hmem
  | cons kv t ih =>
    obtain ⟨k1, v1⟩ := kv
    have hk1 := (hm.2 (k1, v1) (by simp)).1
    have hnd := hm.1
    simp only [List.map_cons, List.nodup_cons] at hnd
    have hwt : SymbolMap.WF t := ⟨hnd.2, fun x hx => hm.2 x (by simp [hx])⟩
    rw [List.map_cons, readFromCacheLines_cons, keyedEntry_render k k1 v1 hk1]
    by_cases hk : k1 = k
    · subst hk
      have hd : d = v1 := by
        simp only [List.mem_cons, Prod.mk.injEq, true_and] at hmem
        rcases hmem with h | h
        · exact h
        · exact absurd (List.mem_map_of_mem Prod.fst h) hnd.1
      subst hd
      rw [if_pos rfl]
      cases he : entryOfData d with
      | none =>
        simp only [Option.getD_none]
        exact readFromCacheLines_render_absent t hwt k1 hnd.1
      | some e => simp
    · rw [if_neg hk]
      apply ih hwt
      simp only [List.mem_cons, Prod.mk.injEq] at hmem
      rcases hmem with h | h
      · exact absurd h.1.symm hk
      · exact h

theorem readFromCache_loaded (cache : FileSlot) (k : Str)
    (hone : ∀ s, cache.content = some s →
      ((getlines s).filter (fun l => decide (lineKey l = some k))).length ≤ 1) :
    ∃ od : Option Str,
      readFromCache cache k = (od.bind entryOfData).getD ⟨CacheType.NONE, []⟩ ∧
      ∀ d, (k, d) ∈ (match cache.content with
        | some s => loadSymbols (getlines s) []
        | none => []) ↔ od = some d := by
  cases hc : cache.content with
  | none =>
    refine ⟨none, by simp [readFromCache, hc], fun d => by simp⟩
  | some s =>
    obtain ⟨od, h1, h2⟩ := read_load_agree k (getlines s) [] (by simp) (hone s hc)
    exact ⟨od, by simpa [readFromCache, hc] using h1, h2⟩

/-- C25 (as stated, refuted): over a file with two lines for "k2", writing "k" changes
what "k2" reads as (the first line before, the last line after); writing the key "a=b"
makes "a" read as an entry, writing the key "x\ny" makes "y" read as an entry, and
writing a value with a line break makes "z" read as an entry, where each was "not
found" before. -/
theorem saveToCache_changes_other_key :
    readFromCache ⟨some "k2=symbol:a\nk2=symbol:b\n".toList, true⟩ "k2".toList
      = ⟨CacheType.SYMBOL, ['a']⟩ ∧
    readFromCache (saveToCache id ⟨some "k2=symbol:a\nk2=symbol:b\n".toList, true⟩ ['k']
      CacheType.SYMBOL ['v']) "k2".toList = ⟨CacheType.SYMBOL, ['b']⟩ ∧
    readFromCache ⟨none, true⟩ ['a'] = ⟨CacheType.NONE, []⟩ ∧
    readFromCache (saveToCache id ⟨none, true⟩ "a=b".toList CacheType.SYMBOL ['v']) ['a']
      = ⟨CacheType.NONE, ['v']⟩ ∧
    readFromCache (saveToCache id ⟨none, true⟩ "x\ny".toList CacheType.SYMBOL ['v']) ['y']
      = ⟨CacheType.SYMBOL, ['v']⟩ ∧
    readFromCache (saveToCache id ⟨none, true⟩ ['k'] CacheType.SYMBOL "v\nz=offset:0x1".toList)
      ['z'] = ⟨CacheType.OFFSET, "0x1".toList⟩ := by
  decide

/-- C25 (amended): for every prior cache file content in which at most one line has
the key k', every key k free of `=` and of newlines and distinct from k', every kind
and every value free of newlines, whatever the order in which the merged map is
written out, `readFromCache` of k' returns the same entry after `saveToCache` of k as
it did before. -/
theorem saveToCache_keeps_other_keys (order : SymbolMap → SymbolMap)
    (hord : ∀ l, (order l).Perm l) (cache : FileSlot) (k other value : Str) (type : CacheType)
    (hne : k ≠ other) (h1 : '=' ∉ k) (h2 : '\n' ∉ k) (h3 : '\n' ∉ value)
    (hone : ∀ s, cache.content = some s →
      ((getlines s).filter (fun l => decide (lineKey l = some other))).length ≤ 1) :
    readFromCache (saveToCache order cache k type value) other = readFromCache cache other := by
  by_cases hw : cache.writable = true
  · have hwf := mergedSymbols_WF cache k type value h1 h2 h3
    have hwf2 := SymbolMap.WF_perm _ _ (hord _) hwf
    obtain ⟨od, hread, hload⟩ := readFromCache_loaded cache other hone
    have hmem : ∀ d, (other, d) ∈ order (mergedSymbols cache k type value) ↔ od = some d := by
      intro d
      rw [(hord _).mem_iff, ← hload d]
      unfold mergedSymbols
      exact SymbolMap.mem_assign_iff_of_ne _ _ _ other d (Ne.symm hne)
    rw [saveToCache_content order cache k type value hw, hread]
    simp only [readFromCache]
    rw [getlines_renderSymbols _ (fun kv hkv => (hwf2.2 kv hkv).2)]
    cases od with
    | none =>
      apply readFromCacheLines_render_absent _ hwf2
      intro hk
      simp only [List.mem_map] at hk
      obtain ⟨kv, hkv, hfst⟩ := hk
      obtain ⟨a, b⟩ := kv
      simp only at hfst
      subst hfst
      have := (hmem b).mp hkv
      simp at this
    | some d =>
      exact readFromCacheLines_render_getD _ hwf2 other d ((hmem d).mpr rfl)
  · simp [saveToCache, hw]

/-- Witness of C25 (amended): the key "k" is written over a file that holds one line
for "k2", a line for "k" and a line without entry. -/
theorem saveToCache_keeps_other_keys_witness :
    readFromCache (saveToCache id ⟨some "k=symbol:old\nk2=offset:0x10\njunk\n".toList, true⟩
        ['k'] CacheType.SYMBOL ['v']) "k2".toList
      = readFromCache ⟨some "k=symbol:old\nk2=offset:0x10\njunk\n".toList, true⟩ "k2".toList :=
  saveToCache_keeps_other_keys id (fun l => List.Perm.refl l)
    ⟨some "k=symbol:old\nk2=offset:0x10\njunk\n".toList, true⟩ ['k'] "k2".toList ['v']
    CacheType.SYMBOL (by decide) (by decide) (by decide) (by decide)
    (fun s hs => by
      have e : s = "k=symbol:old\nk2=offset:0x10\njunk\n".toList := by
        simp only [Option.some.injEq] at hs
        exact hs.symm
      subst e
      decide)

/-! ## Tiered resolvers: order of the tiers and cache writes -/

theorem enumerateExportsHook_calls (order : SymbolMap → SymbolMap) (m : GumModule)
    (pre post cache_key : Str) (cache : FileSlot) (exports : List GumExportDetails)
    (c : GumCall)
    (hc : c ∈ (enumerateExportsHook order m pre post cache_key cache exports).calls) :
    ∃ d ∈ exports, c = GumCall.replace_fast d.address := by
  induction exports with
  | nil => simp [enumerateExportsHook] at hc
  | cons x t ih =>
    by_cases h1 : regexSearch pre post x.name = true
    · by_cases h2 : m.replace_fast x.address = true
      · simp only [enumerateExportsHook, h1, h2, if_true, List.mem_singleton] at hc
        exact ⟨x, by simp, hc⟩
      · simp only [enumerateExportsHook, h1, h2, if_true, Bool.false_eq_true, if_false,
          HookRun.after, List.singleton_append, List.mem_cons] at hc
        rcases hc with hc | hc
        · exact ⟨x, by simp, hc⟩
        · obtain ⟨d, hd, e⟩ := ih hc
          exact ⟨d, by simp [hd], e⟩
    · simp only [enumerateExportsHook, h1, Bool.false_eq_true, if_false] at hc
      obtain ⟨d, hd, e⟩ := ih hc
      exact ⟨d, by simp [hd], e⟩

theorem enumerateExportsHook_outcome (order : SymbolMap → SymbolMap) (m : GumModule)
    (pre post cache_key : Str) (cache : FileSlot) (exports : List GumExportDetails) :
    ((enumerateExportsHook order m pre post cache_key cache exports).hooked = none ∧
      (enumerateExportsHook order m pre post cache_key cache exports).cache = cache) ∨
    ∃ d ∈ exports, regexSearch pre post d.name = true ∧ m.replace_fast d.address = true ∧
      (enumerateExportsHook order m pre post cache_key cache exports).hooked
        = some d.address ∧
      GumCall.replace_fast d.address ∈
        (enumerateExportsHook order m pre post cache_key cache exports).calls ∧
      (enumerateExportsHook order m pre post cache_key cache exports).cache
        = saveToCache order cache cache_key CacheType.SYMBOL d.name := by
  induction exports with
  | nil => exact Or.inl ⟨rfl, rfl⟩
  | cons x t ih =>
    by_cases h1 : regexSearch pre post x.name = true
    · by_cases h2 : m.replace_fast x.address = true
      · refine Or.inr ⟨x, by simp, h1, h2, ?_, ?_, ?_⟩ <;>
          simp [enumerateExportsHook, h1, h2, saveSymbolNameToCache]
      · simp only [enumerateExportsHook, h1, h2, if_true, Bool.false_eq_true, if_false,
          HookRun.after_cache, HookRun.after_hooked]
        rcases ih with h | ⟨d, hd, g1, g2, g3, g4, g5⟩
        · exact Or.inl h
        · exact Or.inr ⟨d, by simp [hd], g1, g2, g3, by simp [HookRun.after, g4], g5⟩
    · simp only [enumerateExportsHook, h1, Bool.false_eq_true, if_false]
      rcases ih with h | ⟨d, hd, g1, g2, g3, g4, g5⟩
      · exact Or.inl h
      · exact Or.inr ⟨d, by simp [hd], g1, g2, g3, g4, g5⟩

theorem hookCocos2dxUpdate_outcome (order : SymbolMap → SymbolMap) (m : GumModule)
    (cache : FileSlot) :
    (hookCocos2dxUpdate order m cache).cache = cache ∨
    ∃ d ∈ m.exports, regexSearch updatePre updatePost d.name = true ∧
      m.replace_fast d.address = true ∧
      (hookCocos2dxUpdate order m cache).hooked = some d.address ∧
      GumCall.replace_fast d.address ∈ (hookCocos2dxUpdate order m cache).calls ∧
      (hookCocos2dxUpdate order m cache).cache
        = saveToCache order cache updateKey CacheType.SYMBOL d.name := by
  have hsearch : ∀ before : List GumCall,
      ((enumerateExportsHook order m updatePre updatePost updateKey cache m.exports).after
        (before ++ [GumCall.enumerate_exports])).cache = cache ∨
      ∃ d ∈ m.exports, regexSearch updatePre updatePost d.name = true ∧
        m.replace_fast d.address = true ∧
        ((enumerateExportsHook order m updatePre updatePost updateKey cache m.exports).after
          (before ++ [GumCall.enumerate_exports])).hooked = some d.address ∧
        GumCall.replace_fast d.address ∈
          ((enumerateExportsHook order m updatePre updatePost updateKey cache m.exports).after
            (before ++ [GumCall.enumerate_exports])).calls ∧
        ((enumerateExportsHook order m updatePre updatePost updateKey cache m.exports).after
          (before ++ [GumCall.enumerate_exports])).cache
          = saveToCache order cache updateKey CacheType.SYMBOL d.name := by
    intro before
    rcases enumerateExportsHook_outcome order m updatePre updatePost updateKey cache m.exports
      with h | ⟨d, hd, g1, g2, g3, g4, g5⟩
    · exact Or.inl h.2
    · exact Or.inr ⟨d, hd, g1, g2, g3, by simp [HookRun.after, g4], g5⟩
  unfold hookCocos2dxUpdate
  simp only []
  split
  · split
    · split
      · exact Or.inl rfl
      · exact hsearch _
    · exact hsearch _
  · exact hsearch []

theorem evalStringSearch_outcome (order : SymbolMap → SymbolMap) (m : GumModule)
    (cache : FileSlot) (before : List GumCall) :
    (evalStringSearch order m evalStringKey cache before).cache = cache ∨
    (∃ d ∈ m.exports, regexSearch evalStringPre evalStringPost d.name = true ∧
      m.replace_fast d.address = true ∧
      (evalStringSearch order m evalStringKey cache before).hooked = some d.address ∧
      GumCall.replace_fast d.address ∈
        (evalStringSearch order m evalStringKey cache before).calls ∧
      (evalStringSearch order m evalStringKey cache before).cache
        = saveToCache order cache evalStringKey CacheType.SYMBOL d.name) ∨
    (∃ first others, anchorAddr m ≠ 0 ∧
      m.memory_scan (anchorAddr m) (scanSize m) = first :: others ∧
      m.replace_fast (wrap64 (first + 0xc)) = true ∧
      (evalStringSearch order m evalStringKey cache before).hooked
        = some (wrap64 (first + 0xc)) ∧
      GumCall.memory_scan (anchorAddr m) (scanSize m) ∈
        (evalStringSearch order m evalStringKey cache before).calls ∧
      GumCall.replace_fast (wrap64 (first + 0xc)) ∈
        (evalStringSearch order m evalStringKey cache before).calls ∧
      (evalStringSearch order m evalStringKey cache before).cache
        = saveToCache order cache evalStringKey CacheType.OFFSET
          (offsetStr (wrap64 (wrap64 (first + 0xc) + 2 ^ 64 - anchorAddr m)))) := by
  rcases enumerateExportsHook_outcome order m evalStringPre evalStringPost evalStringKey cache
    m.exports with ⟨hh, hc⟩ | ⟨d, hd, g1, g2, g3, g4, g5⟩
  · unfold scanSize anchorAddr
    unfold evalStringSearch
    simp only [hh, hc]
    by_cases h0 : gum_module_find_export_by_name m jniAnchor = 0
    · rw [if_pos h0]
      exact Or.inl rfl
    · rw [if_neg h0]
      cases hs : m.memory_scan (gum_module_find_export_by_name m jniAnchor)
          (wrap64 (wrap64 (m.base_address + m.size) + 2 ^ 64 -
            gum_module_find_export_by_name m jniAnchor)) with
      | nil => exact Or.inl rfl
      | cons first others =>
        simp only []
        by_cases hok : m.replace_fast (wrap64 (first + 0xc)) = true
        · rw [if_pos hok]
          refine Or.inr (Or.inr ⟨first, others, h0, rfl, hok, rfl, ?_, ?_, rfl⟩)
          · simp
          · simp
        · rw [if_neg hok]
          exact Or.inl rfl
  · refine Or.inr (Or.inl ⟨d, hd, g1, g2, ?_, ?_, ?_⟩)
    · simp [evalStringSearch, g3]
    · simp [evalStringSearch, g3, g4]
    · simp [evalStringSearch, g3, g5]

theorem hookCocosEvalString_outcome (order : SymbolMap → SymbolMap) (m : GumModule)
    (cache : FileSlot) :
    (hookCocosEvalString order m cache).cache = cache ∨
    (∃ d ∈ m.exports, regexSearch evalStringPre evalStringPost d.name = true ∧
      m.replace_fast d.address = true ∧
      (hookCocosEvalString order m cache).hooked = some d.address ∧
      GumCall.replace_fast d.address ∈ (hookCocosEvalString order m cache).calls ∧
      (hookCocosEvalString order m cache).cache
        = saveToCache order cache evalStringKey CacheType.SYMBOL d.name) ∨
    (∃ first others, anchorAddr m ≠ 0 ∧
      m.memory_scan (anchorAddr m) (scanSize m) = first :: others ∧
      m.replace_fast (wrap64 (first + 0xc)) = true ∧
      (hookCocosEvalString order m cache).hooked = some (wrap64 (first + 0xc)) ∧
      GumCall.memory_scan (anchorAddr m) (scanSize m) ∈
        (hookCocosEvalString order m cache).calls ∧
      GumCall.replace_fast (wrap64 (first + 0xc)) ∈
        (hookCocosEvalString order m cache).calls ∧
      (hookCocosEvalString order m cache).cache
        = saveToCache order cache evalStringKey CacheType.OFFSET
          (offsetStr (wrap64 (wrap64 (first + 0xc) + 2 ^ 64 - anchorAddr m)))) := by
  unfold hookCocosEvalString
  simp only []
  split
  · split
    · split
      · split
        · exact Or.inl rfl
        · exact evalStringSearch_outcome order m cache _
      · exact evalStringSearch_outcome order m cache _
    · exact evalStringSearch_outcome order m cache _
  · split
    · exact evalStringSearch_outcome order m cache _
    · split
      · exact Or.inl rfl
      · exact evalStringSearch_outcome order m cache _
  · exact evalStringSearch_outcome order m cache _

theorem evalStringSearch_calls (order : SymbolMap → SymbolMap) (m : GumModule)
    (cache_key : Str) (cache : FileSlot) (before : List GumCall) :
    ∃ rest, (evalStringSearch order m cache_key cache before).calls
      = before ++ GumCall.enumerate_exports :: rest := by
  unfold evalStringSearch
  simp only []
  split
  · exact ⟨_, rfl⟩
  · split
    · simp only [List.append_assoc, List.cons_append]
      exact ⟨_, rfl⟩
    · split
      · simp only [List.append_assoc, List.cons_append]
        exact ⟨_, rfl⟩
      · split <;> simp only [List.append_assoc, List.cons_append] <;> exact ⟨_, rfl⟩

theorem evalStringSearch_no_scan (order : SymbolMap → SymbolMap) (m : GumModule)
    (cache_key : Str) (cache : FileSlot) (before : List GumCall) (target : GumAddress)
    (h : (enumerateExportsHook order m evalStringPre evalStringPost cache_key
      cache m.exports).hooked = some target)
    (hbefore : ∀ b n, GumCall.memory_scan b n ∉ before) (b : GumAddress) (n : Nat) :
    GumCall.memory_scan b n ∉ (evalStringSearch order m cache_key cache before).calls := by
  unfold evalStringSearch
  simp only [h, List.mem_append, List.mem_cons, not_or]
  refine ⟨hbefore b n, by simp, fun hc => ?_⟩
  obtain ⟨d, _, e⟩ := enumerateExportsHook_calls order m _ _ _ _ _ _ hc
  simp at e

theorem evalStringSearch_scan_call (order : SymbolMap → SymbolMap) (m : GumModule)
    (cache : FileSlot) (before : List GumCall)
    (henum : m.exports.find?
      (fun x => regexSearch evalStringPre evalStringPost x.name && m.replace_fast x.address)
        = none)
    (hanchor : anchorAddr m ≠ 0) :
    GumCall.memory_scan (anchorAddr m) (scanSize m) ∈
      (evalStringSearch order m evalStringKey cache before).calls := by
  obtain ⟨_, hh⟩ := enumerateExportsHook_none order m evalStringPre evalStringPost
    evalStringKey cache m.exports henum
  unfold scanSize anchorAddr
  unfold anchorAddr at hanchor
  unfold evalStringSearch
  simp only [hh]
  rw [if_neg hanchor]
  split
  · simp
  · split <;> simp

/-- C26 (as stated, refuted): the cache names the export "old", which no longer
resolves, and the module exports a name matching the pattern; `hookCocosEvalString`
goes from the failed lookup to the export enumeration, hooks the matching export and
never starts the memory scan. -/
theorem stale_symbol_reaches_export_search :
    readFromCache ⟨some "ScriptEngine_evalString=symbol:old\n".toList, true⟩ evalStringKey
      = ⟨CacheType.SYMBOL, "old".toList⟩ ∧
    dlsym (exampleModule [⟨"ScriptEngine_evalString_v2".toList, 4096⟩] true) "old".toList
      = 0 ∧
    (hookCocosEvalString id (exampleModule [⟨"ScriptEngine_evalString_v2".toList, 4096⟩] true)
        ⟨some "ScriptEngine_evalString=symbol:old\n".toList, true⟩).calls
      = [GumCall.dlopen, GumCall.dlsym "old".toList, GumCall.enumerate_exports,
          GumCall.replace_fast 4096] ∧
    (hookCocosEvalString id (exampleModule [⟨"ScriptEngine_evalString_v2".toList, 4096⟩] true)
        ⟨some "ScriptEngine_evalString=symbol:old\n".toList, true⟩).hooked = some 4096 := by
  decide

/-- C26 (amended): when the cached Symbol entry for the target names an export that no
longer resolves, `hookCocosEvalString` falls through to step 3, the export-table
pattern search, right after the failed lookup and without attempting the cached-offset
tier; it reaches step 4, the byte-pattern memory scan, only when that search installs
no hook: a hookable export ends the run without a scan, and with none (and the anchor
resolved) the scan is made. -/
theorem stale_symbol_falls_to_search (order : SymbolMap → SymbolMap) (m : GumModule)
    (cache : FileSlot)
    (htype : (readFromCache cache evalStringKey).type = CacheType.SYMBOL)
    (hopen : m.dlopen_handle = true)
    (hstale : dlsym m (cstr (readFromCache cache evalStringKey).value) = 0) :
    hookCocosEvalString order m cache =
      evalStringSearch order m evalStringKey cache
        [GumCall.dlopen, GumCall.dlsym (cstr (readFromCache cache evalStringKey).value)] ∧
    (∃ rest, (hookCocosEvalString order m cache).calls =
      [GumCall.dlopen, GumCall.dlsym (cstr (readFromCache cache evalStringKey).value),
        GumCall.enumerate_exports] ++ rest) ∧
    (∀ d, m.exports.find?
        (fun x => regexSearch evalStringPre evalStringPost x.name && m.replace_fast x.address)
          = some d →
      (hookCocosEvalString order m cache).hooked = some d.address ∧
      ∀ b n, GumCall.memory_scan b n ∉ (hookCocosEvalString order m cache).calls) ∧
    (m.exports.find?
        (fun x => regexSearch evalStringPre evalStringPost x.name && m.replace_fast x.address)
          = none → anchorAddr m ≠ 0 →
      GumCall.memory_scan (anchorAddr m) (scanSize m) ∈
        (hookCocosEvalString order m cache).calls) := by
  have hrun : hookCocosEvalString order m cache =
      evalStringSearch order m evalStringKey cache
        [GumCall.dlopen, GumCall.dlsym (cstr (readFromCache cache evalStringKey).value)] := by
    unfold hookCocosEvalString
    simp [htype, hopen, hstale]
  rw [hrun]
  refine ⟨rfl, ?_, fun d hd => ?_, fun hnone hanchor => ?_⟩
  · obtain ⟨rest, hrest⟩ := evalStringSearch_calls order m evalStringKey cache
      [GumCall.dlopen, GumCall.dlsym (cstr (readFromCache cache evalStringKey).value)]
    exact ⟨rest, by rw [hrest]; rfl⟩
  · obtain ⟨_, hh⟩ := enumerateExportsHook_some order m evalStringPre evalStringPost
      evalStringKey cache m.exports d hd
    refine ⟨(evalStringSearch_hooked order m evalStringKey cache _ d.address hh).2, ?_⟩
    intro b n
    exact evalStringSearch_no_scan order m evalStringKey cache _ d.address hh
      (fun b n => by simp) b n
  · exact evalStringSearch_scan_call order m cache _ hnone hanchor

/-- Witness of C26 (amended): the stale name "old" with a matching export. -/
theorem stale_symbol_falls_to_search_witness :
    ∃ rest, (hookCocosEvalString id
        (exampleModule [⟨"ScriptEngine_evalString_v2".toList, 4096⟩] true)
        ⟨some "ScriptEngine_evalString=symbol:old\n".toList, true⟩).calls =
      [GumCall.dlopen,
        GumCall.dlsym (cstr (readFromCache
          ⟨some "ScriptEngine_evalString=symbol:old\n".toList, true⟩ evalStringKey).value),
        GumCall.enumerate_exports] ++ rest :=
  (stale_symbol_falls_to_search id
    (exampleModule [⟨"ScriptEngine_evalString_v2".toList, 4096⟩] true)
    ⟨some "ScriptEngine_evalString=symbol:old\n".toList, true⟩ (by decide) rfl
    (by decide)).2.1

/-- C30: in every run of `hookCocosEvalString` and of `hookCocos2dxUpdate`, when the
interception primitive rejects every installation attempted (or none is attempted) the
cache file is left as it was; otherwise the file is either left as it was, or it is
the result of saving, under the target's key, a Symbol entry with the name of a
matching export at which the hook was installed, or (for `hookCocosEvalString`) an
Offset entry with the delta from the anchor of the scan match plus 0xc at which the
hook was installed after the memory scan. -/
theorem cache_written_only_on_install (order : SymbolMap → SymbolMap) (m : GumModule)
    (cache : FileSlot) :
    ((∀ t, GumCall.replace_fast t ∈ (hookCocosEvalString order m cache).calls →
        m.replace_fast t = false) →
      (hookCocosEvalString order m cache).cache = cache) ∧
    ((∀ t, GumCall.replace_fast t ∈ (hookCocos2dxUpdate order m cache).calls →
        m.replace_fast t = false) →
      (hookCocos2dxUpdate order m cache).cache = cache) ∧
    ((hookCocosEvalString order m cache).cache = cache ∨
      (∃ d ∈ m.exports, regexSearch evalStringPre evalStringPost d.name = true ∧
        m.replace_fast d.address = true ∧
        (hookCocosEvalString order m cache).hooked = some d.address ∧
        (hookCocosEvalString order m cache).cache
          = saveToCache order cache evalStringKey CacheType.SYMBOL d.name) ∨
      (∃ first others, m.memory_scan (anchorAddr m) (scanSize m) = first :: others ∧
        m.replace_fast (wrap64 (first + 0xc)) = true ∧
        (hookCocosEvalString order m cache).hooked = some (wrap64 (first + 0xc)) ∧
        GumCall.memory_scan (anchorAddr m) (scanSize m) ∈
          (hookCocosEvalString order m cache).calls ∧
        (hookCocosEvalString order m cache).cache
          = saveToCache order cache evalStringKey CacheType.OFFSET
            (offsetStr (wrap64 (wrap64 (first + 0xc) + 2 ^ 64 - anchorAddr m))))) ∧
    ((hookCocos2dxUpdate order m cache).cache = cache ∨
      ∃ d ∈ m.exports, regexSearch updatePre updatePost d.name = true ∧
        m.replace_fast d.address = true ∧
        (hookCocos2dxUpdate order m cache).hooked = some d.address ∧
        (hookCocos2dxUpdate order m cache).cache
          = saveToCache order cache updateKey CacheType.SYMBOL d.name) := by
  refine ⟨fun hrej => ?_, fun hrej => ?_, ?_, ?_⟩
  · rcases hookCocosEvalString_outcome order m cache with
      h | ⟨d, _, _, g2, _, g4, _⟩ | ⟨first, others, _, _, g2, _, _, g4, _⟩
    · exact h
    · rw [hrej _ g4] at g2
      exact absurd g2 (by decide)
    · rw [hrej _ g4] at g2
      exact absurd g2 (by decide)
  · rcases hookCocos2dxUpdate_outcome order m cache with h | ⟨d, _, _, g2, _, g4, _⟩
    · exact h
    · rw [hrej _ g4] at g2
      exact absurd g2 (by decide)
  · rcases hookCocosEvalString_outcome order m cache with
      h | ⟨d, hd, g1, g2, g3, _, g5⟩ | ⟨first, others, _, g1, g2, g3, g4, _, g6⟩
    · exact Or.inl h
    · exact Or.inr (Or.inl ⟨d, hd, g1, g2, g3, g5⟩)
    · exact Or.inr (Or.inr ⟨first, others, g1, g2, g3, g4, g6⟩)
  · rcases hookCocos2dxUpdate_outcome order m cache with h | ⟨d, hd, g1, g2, g3, _, g5⟩
    · exact Or.inl h
    · exact Or.inr ⟨d, hd, g1, g2, g3, g5⟩

/-- Witness of C30: matching exports and a scan match are there, but the interception
primitive rejects every hook; both resolvers leave the cache file as it was. -/
theorem cache_written_only_on_install_witness :
    (hookCocosEvalString id
        (exampleModuleScan [⟨jniAnchor, 256⟩, ⟨"ScriptEngine_evalString_v2".toList, 4096⟩]
          false [512])
        ⟨some "Scheduler_update=symbol:old\n".toList, true⟩).cache
      = ⟨some "Scheduler_update=symbol:old\n".toList, true⟩ ∧
    (hookCocos2dxUpdate id
        (exampleModuleScan [⟨jniAnchor, 256⟩, ⟨"Scheduler_update_v2".toList, 4096⟩]
          false [512])
        ⟨some "Scheduler_update=symbol:old\n".toList, true⟩).cache
      = ⟨some "Scheduler_update=symbol:old\n".toList, true⟩ :=
  ⟨(cache_written_only_on_install id
      (exampleModuleScan [⟨jniAnchor, 256⟩, ⟨"ScriptEngine_evalString_v2".toList, 4096⟩]
        false [512])
      ⟨some "Scheduler_update=symbol:old\n".toList, true⟩).1 (fun _ _ => rfl),
    (cache_written_only_on_install id
      (exampleModuleScan [⟨jniAnchor, 256⟩, ⟨"Scheduler_update_v2".toList, 4096⟩]
        false [512])
      ⟨some "Scheduler_update=symbol:old\n".toList, true⟩).2.1 (fun _ _ => rfl)⟩

/-! ## Null and empty strings -/

theorem loadRequestFromFile_params (r req0 : CachedRequest) (u : Indeterminate) (w : Bool)
    (hints : r.wellTyped) :
    loadRequestFromFile ⟨some (saveRequestBytes r), w⟩ req0 u =
      (true, ⟨r.request_id, r.operation_type, r.a4, r.a5, r.a6, r.a7, r.a8,
        (loadParam ⟨printParam r.param1 ++ (printParam r.param2 ++ printParam r.param3),
          false, false⟩ req0.param1 u.len1).1,
        (loadParam (loadParam ⟨printParam r.param1 ++ (printParam r.param2 ++
          printParam r.param3), false, false⟩ req0.param1 u.len1).2 req0.param2 u.len2).1,
        (loadParam (loadParam (loadParam ⟨printParam r.param1 ++ (printParam r.param2 ++
          printParam r.param3), false, false⟩ req0.param1 u.len1).2 req0.param2 u.len2).2
            req0.param3 u.len3).1,
        r.record_time⟩) := by
  obtain ⟨i0, i1, i2, i3, i4, i5, i6⟩ := hints
  have i7 : isInt32 (if r.record_time = true then 1 else 0) := by
    cases r.record_time <;> decide
  have hrt : decide ((if r.record_time = true then (1 : Int) else 0) ≠ 0) = r.record_time := by
    cases r.record_time <;> decide
  unfold loadRequestFromFile saveRequestBytes putLine
  simp only [extractInt_line _ i0, extractInt_next _ i1, extractInt_next _ i2,
    extractInt_next _ i3, extractInt_next _ i4, extractInt_next _ i5, extractInt_next _ i6,
    extractInt_next _ i7, ignore_cons, hrt, Bool.false_eq_true, if_false]

theorem loadParam_too_long_stream (p rest p0 : Str) (len0 : Nat) (hp : 100000 ≤ p.length)
    (h64 : p.length < 2 ^ 64) :
    loadParam ⟨printParam p ++ rest, false, false⟩ p0 len0
      = ([], ⟨p ++ '\n' :: rest, false, false⟩) := by
  have hsz := extractSize_line p.length h64
  have hne : p ≠ [] := by
    intro e
    rw [e] at hp
    simp at hp
  have e : printParam p ++ rest = printSize p.length ++ '\n' :: (p ++ '\n' :: rest) := by
    simp [printParam, hne]
  rw [e]
  unfold loadParam
  rw [hsz]
  simp only [ignore_cons]
  rw [if_neg (by omega)]

theorem loadParam_raw (n : Nat) (data tail p0 : Str) (c : Char) (len0 : Nat)
    (hpos : 0 < n) (hn : n < 100000) (hlen : data.length = n) :
    loadParam ⟨printSize n ++ '\n' :: (data ++ c :: tail), false, false⟩ p0 len0
      = (data, ⟨tail, false, false⟩) := by
  have hsz := extractSize_line n (by omega)
  unfold loadParam
  rw [hsz]
  simp only [ignore_cons, hpos, hn, and_self, if_true]
  have hread : IStream.read ⟨data ++ c :: tail, false, false⟩ (resize p0 n) n
      = (data, ⟨c :: tail, false, false⟩) := by
    subst hlen
    simp [IStream.read, IStream.good]
  rw [hread]
  simp [ignore_cons]

theorem digitsText_length : digitsText.length = 100009 := by
  rw [digitsText, List.length_append, longText, List.length_replicate]
  rfl

theorem digitsText_eq (rest : Str) :
    digitsText ++ rest = printSize 7 ++ '\n' ::
      ("abcdefg".toList ++ 'a' :: (List.replicate 99999 'a' ++ rest)) := by
  have h : longText = 'a' :: List.replicate 99999 'a' := rfl
  rw [digitsText, h]
  rfl

theorem replay_loaded (file : FileSlot) (r : CachedRequest) (u : Indeterminate)
    (a : SendDataArgs) (hfile : file.content = some (saveRequestBytes r)) (hr : r.wellTyped)
    (htrig : a.a2 = 1000 ∨ (a.a2 ≠ 1000 ∧ has_key_fields a.a9 = true)) :
    (hooked_sendData file u a).forwarded =
      a.withStrings
        (ptrOrNull (loadParam ⟨printParam r.param1 ++ (printParam r.param2 ++
          printParam r.param3), false, false⟩ [] u.len1).1)
        (ptrOrNull (loadParam (loadParam ⟨printParam r.param1 ++ (printParam r.param2 ++
          printParam r.param3), false, false⟩ [] u.len1).2 [] u.len2).1)
        (ptrOrNull (loadParam (loadParam (loadParam ⟨printParam r.param1 ++
          (printParam r.param2 ++ printParam r.param3), false, false⟩ [] u.len1).2 []
            u.len2).2 [] u.len3).1) := by
  rw [hooked_sendData_replays file u a (by simp [hfile]) htrig]
  obtain ⟨c, w⟩ := file
  simp only at hfile
  subst hfile
  unfold replayFromFile
  rw [loadRequestFromFile_params r _ u _ hr]
  rfl

theorem loadParam_no_digits (c : Char) (rest p0 : Str) (len0 : Nat)
    (h1 : isspace c = false) (h2 : c.isDigit = false) (h3 : c ≠ '-') (h4 : c ≠ '+') :
    (loadParam ⟨c :: rest, false, false⟩ p0 len0).1 = [] ∧
    (loadParam ⟨c :: rest, false, false⟩ p0 len0).2.failbit = true := by
  have hs : IStream.sentry ⟨c :: rest, false, false⟩ = (true, ⟨c :: rest, false, false⟩) := by
    simp [IStream.sentry, IStream.good, List.dropWhile_cons, h1]
  have ht : takeNumber (c :: rest) = (false, [], c :: rest) := by
    unfold takeNumber
    split
    · rename_i heq
      simp only [List.cons.injEq] at heq
      exact absurd heq.1 h3
    · rename_i heq
      simp only [List.cons.injEq] at heq
      exact absurd heq.1 h4
    · simp [List.takeWhile_cons, List.dropWhile_cons, h2]
  unfold loadParam IStream.extractSize
  rw [hs]
  simp only [ht]
  simp [IStream.ignore, IStream.good]

theorem loadParam_failed (s : IStream) (p0 : Str) (len0 : Nat) (hf : s.failbit = true)
    (hpos : 0 < len0) (hlt : len0 < 100000) :
    (loadParam s p0 len0).1 = resize p0 len0 := by
  have hg : s.good = false := by simp [IStream.good, hf]
  have hs : s.extractSize len0 = (len0, { s with failbit := true }) := by
    simp [IStream.extractSize, IStream.sentry, hg]
  unfold loadParam
  rw [hs]
  simp [IStream.ignore, IStream.read, IStream.good, hpos, hlt]

/-- C29 (as stated, refuted): a record is captured with a first string of 100009 bytes
that starts with the line "7" and a null second string, so the second string is
persisted with length 0; on replay the second string is forwarded as "abcdefg", not
as a null pointer. The same happens to a null third string behind such a second
string. And behind a first string of 100000 bytes a null third string is forwarded
as a non-null empty string when the uninitialised `len3` holds 7. -/
theorem empty_string_replayed_non_null :
    (capturedRequest (exampleCall 1000 (some digitsText) none (some []))).param2 = [] ∧
    (hooked_sendData
        ⟨some (saveRequestBytes
          (capturedRequest (exampleCall 1000 (some digitsText) none (some [])))), true⟩
        exampleJunk (exampleCall 1000 (some ['x']) (some ['y']) (some ['z']))).forwarded.a10
      = some "abcdefg".toList ∧
    (capturedRequest (exampleCall 1000 (some ['p']) (some digitsText) none)).param3 = [] ∧
    (hooked_sendData
        ⟨some (saveRequestBytes
          (capturedRequest (exampleCall 1000 (some ['p']) (some digitsText) none))), true⟩
        exampleJunk (exampleCall 1000 (some ['x']) (some ['y']) (some ['z']))).forwarded.a11
      = some "abcdefg".toList ∧
    (capturedRequest (exampleCall 1000 (some longText) (some []) none)).param3 = [] ∧
    (hooked_sendData
        ⟨some (saveRequestBytes
          (capturedRequest (exampleCall 1000 (some longText) (some []) none))), true⟩
        exampleJunk (exampleCall 1000 (some ['x']) (some ['y']) (some ['z']))).forwarded.a11
      = some [] := by
  have hlen : longText.length = 100000 := by
    rw [longText, List.length_replicate]
  have hdl := digitsText_length
  have hlong : longText = 'a' :: List.replicate 99999 'a' := rfl
  refine ⟨rfl, ?_, rfl, ?_, rfl, ?_⟩
  · rw [replay_loaded _ (capturedRequest (exampleCall 1000 (some digitsText) none (some [])))
      exampleJunk _ rfl (by decide) (Or.inl rfl)]
    have p1 : ∀ rest p0 len0, loadParam ⟨printParam digitsText ++ rest, false, false⟩ p0 len0
        = ([], ⟨digitsText ++ '\n' :: rest, false, false⟩) := fun rest p0 len0 =>
      loadParam_too_long_stream digitsText rest p0 len0 (by omega) (by omega)
    have p2 : ∀ rest p0 len0, (loadParam ⟨digitsText ++ rest, false, false⟩ p0 len0).1
        = "abcdefg".toList := by
      intro rest p0 len0
      rw [digitsText_eq, loadParam_raw 7 "abcdefg".toList _ p0 'a' len0 (by decide) (by decide)
        rfl]
    have e1 : (capturedRequest (exampleCall 1000 (some digitsText) none (some []))).param1
        = digitsText := rfl
    simp only [SendDataArgs.withStrings, e1]
    rw [p1, p2]
    decide
  · rw [replay_loaded _ (capturedRequest (exampleCall 1000 (some ['p']) (some digitsText) none))
      exampleJunk _ rfl (by decide) (Or.inl rfl)]
    have p1 : ∀ rest p0 len0, loadParam ⟨printParam ['p'] ++ rest, false, false⟩ p0 len0
        = (['p'], ⟨rest, false, false⟩) := fun rest p0 len0 =>
      loadParam_printParam ['p'] rest p0 len0 (by decide)
    have p2 : ∀ rest p0 len0, loadParam ⟨printParam digitsText ++ rest, false, false⟩ p0 len0
        = ([], ⟨digitsText ++ '\n' :: rest, false, false⟩) := fun rest p0 len0 =>
      loadParam_too_long_stream digitsText rest p0 len0 (by omega) (by omega)
    have p3 : ∀ rest p0 len0, (loadParam ⟨digitsText ++ rest, false, false⟩ p0 len0).1
        = "abcdefg".toList := by
      intro rest p0 len0
      rw [digitsText_eq, loadParam_raw 7 "abcdefg".toList _ p0 'a' len0 (by decide) (by decide)
        rfl]
    have e1 : (capturedRequest (exampleCall 1000 (some ['p']) (some digitsText) none)).param1
        = ['p'] := rfl
    have e2 : (capturedRequest (exampleCall 1000 (some ['p']) (some digitsText) none)).param2
        = digitsText := rfl
    simp only [SendDataArgs.withStrings, e1, e2]
    rw [p1, p2, p3]
    decide
  · rw [replay_loaded _ (capturedRequest (exampleCall 1000 (some longText) (some []) none))
      exampleJunk _ rfl (by decide) (Or.inl rfl)]
    have p1 : ∀ rest p0 len0, loadParam ⟨printParam longText ++ rest, false, false⟩ p0 len0
        = ([], ⟨'a' :: (List.replicate 99999 'a' ++ '\n' :: rest), false, false⟩) := by
      intro rest p0 len0
      rw [loadParam_too_long_stream longText rest p0 len0 (by omega) (by omega), hlong]
      rfl
    have e1 : (capturedRequest (exampleCall 1000 (some longText) (some []) none)).param1
        = longText := rfl
    simp only [SendDataArgs.withStrings, e1]
    rw [p1]
    have hf := (loadParam_no_digits 'a' (List.replicate 99999 'a' ++ '\n' ::
      (printParam (capturedRequest (exampleCall 1000 (some longText) (some []) none)).param2 ++
        printParam (capturedRequest (exampleCall 1000 (some longText) (some []) none)).param3))
      [] exampleJunk.len2 (by decide) (by decide) (by decide) (by decide)).2
    rw [loadParam_failed _ [] exampleJunk.len3 hf (by decide) (by decide)]
    decide

/-- C29 (amended): a string argument that is null and one that is the empty string
give the same persisted record, with length 0 for that string; and on every replay of
a persisted record a string persisted with length 0 is forwarded as a null pointer,
never as an empty string, provided the strings persisted before it in the record are
each shorter than 100000 bytes. -/
theorem null_and_empty_conflated (file : FileSlot) (r : CachedRequest) (u : Indeterminate)
    (a : SendDataArgs) (hfile : file.content = some (saveRequestBytes r))
    (hr : r.wellTyped)
    (htrig : a.a2 = 1000 ∨ (a.a2 ≠ 1000 ∧ ∃ s, a.a9 = some s ∧
      contains s "uid".toList = true ∧ contains s "money".toList = true ∧
      contains s "gold".toList = true)) :
    (∀ (c : SendDataArgs) (x y z : Option Str),
      saveRequestBytes (capturedRequest (c.withStrings none y z))
        = saveRequestBytes (capturedRequest (c.withStrings (some []) y z)) ∧
      saveRequestBytes (capturedRequest (c.withStrings x none z))
        = saveRequestBytes (capturedRequest (c.withStrings x (some []) z)) ∧
      saveRequestBytes (capturedRequest (c.withStrings x y none))
        = saveRequestBytes (capturedRequest (c.withStrings x y (some []))) ∧
      (capturedRequest (c.withStrings none none none)).param1.length = 0 ∧
      (capturedRequest (c.withStrings none none none)).param2.length = 0 ∧
      (capturedRequest (c.withStrings none none none)).param3.length = 0) ∧
    (r.param1.length = 0 → (hooked_sendData file u a).forwarded.a9 = none) ∧
    (r.param1.length < 100000 → r.param2.length = 0 →
      (hooked_sendData file u a).forwarded.a10 = none) ∧
    (r.param1.length < 100000 → r.param2.length < 100000 → r.param3.length = 0 →
      (hooked_sendData file u a).forwarded.a11 = none) := by
  have htrig2 : a.a2 = 1000 ∨ (a.a2 ≠ 1000 ∧ has_key_fields a.a9 = true) := by
    rcases htrig with h | ⟨h, s, hs, k1, k2, k3⟩
    · exact Or.inl h
    · refine Or.inr ⟨h, ?_⟩
      rw [hs]
      simp only [has_key_fields, k1, k2, k3, Bool.and_self]
  have hrun := replay_loaded file r u a hfile hr htrig2
  refine ⟨fun c x y z => ⟨rfl, rfl, rfl, rfl, rfl, rfl⟩, fun h1 => ?_, fun h1 h2 => ?_,
    fun h1 h2 h3 => ?_⟩
  · rw [hrun, loadParam_printParam r.param1 _ _ _ (by omega),
      List.length_eq_zero.mp h1]
    rfl
  · rw [hrun, loadParam_printParam r.param1 _ _ _ h1,
      loadParam_printParam r.param2 _ _ _ (by omega), List.length_eq_zero.mp h2]
    rfl
  · have e3 : ∀ p0 len0, loadParam ⟨printParam r.param3, false, false⟩ p0 len0
        = (r.param3, ⟨[], false, false⟩) := by
      intro p0 len0
      have := loadParam_printParam r.param3 [] p0 len0 (by omega)
      simpa using this
    rw [hrun, loadParam_printParam r.param1 _ _ _ h1,
      loadParam_printParam r.param2 _ _ _ h2, e3, List.length_eq_zero.mp h3]
    rfl

/-- Witness of C29 (amended): the record captured from ("a", "", null) is replayed
with a null second and a null third string. -/
theorem null_and_empty_conflated_witness :
    (hooked_sendData
        ⟨some (saveRequestBytes
          (capturedRequest (exampleCall 1000 (some ['a']) (some []) none))), true⟩
        exampleJunk (exampleCall 1000 (some ['x']) (some ['y']) (some ['z']))).forwarded.a10
      = none ∧
    (hooked_sendData
        ⟨some (saveRequestBytes
          (capturedRequest (exampleCall 1000 (some ['a']) (some []) none))), true⟩
        exampleJunk (exampleCall 1000 (some ['x']) (some ['y']) (some ['z']))).forwarded.a11
      = none :=
  ⟨(null_and_empty_conflated _
      (capturedRequest (exampleCall 1000 (some ['a']) (some []) none)) exampleJunk
      (exampleCall 1000 (some ['x']) (some ['y']) (some ['z'])) rfl (by decide)
      (Or.inl rfl)).2.2.1 (by decide) (by decide),
    (null_and_empty_conflated _
      (capturedRequest (exampleCall 1000 (some ['a']) (some []) none)) exampleJunk
      (exampleCall 1000 (some ['x']) (some ['y']) (some ['z'])) rfl (by decide)
      (Or.inl rfl)).2.2.2 (by decide) (by decide) (by decide)⟩

end FridaGum
